import Mathlib

/-!
# Catalog cache reconciliation (pkg/cache/cache.go)

A shallow embedding of `CatalogCache.Sync` and the helpers it is built from.
The collaborators of the reconciler (the record store `client.Client`, the
`source.Unpacker`, and the wall clock) are passed as an explicit environment
of state-passing functions over an arbitrary world type; every call `Sync`
makes on a collaborator is recorded in a call log, so that "invokes Unpack"
is a statement about that log.
-/

namespace CatalogCache

/-! ## Time -/

/-- A `time.Time` (and `metav1.Time`) value, as the instant it denotes:
nanoseconds elapsed since the zero time (January 1, year 1, 00:00:00 UTC). -/
structure Time where
  nanos : Int
deriving DecidableEq, Repr

/-- The two's complement wrap-around of 64-bit signed arithmetic. -/
def wrapInt64 (x : Int) : Int :=
  (x + 9223372036854775808) % 18446744073709551616 - 9223372036854775808

/-- The constant `time.Minute`: a `time.Duration` counts nanoseconds in an int64. -/
def Minute : Int := 60000000000

/-- The expression `time.Duration(m) * time.Minute`, an int64 multiplication. -/
def minutesToDuration (m : Int) : Int :=
  wrapInt64 (m * Minute)

/-- The method `Time.Add`: the instant `d` nanoseconds later (what the library
does at the two ends of its representable range is left out). -/
def Time.Add (t : Time) (d : Int) : Time :=
  ⟨t.nanos + d⟩

/-- The method `Time.Before`: strictly earlier. -/
def Time.Before (t u : Time) : Bool :=
  decide (t.nanos < u.nanos)

/-- The method `Time.IsZero`. -/
def Time.IsZero (t : Time) : Bool :=
  decide (t.nanos = 0)

/-! ## Errors -/

/-- Go error values, as far as the reconciler can tell them apart: their text,
whether `os.IsNotExist` accepts them, and their wrapping structure. -/
inductive Err where
  | plain (msg : String) (notExist : Bool)
  | terminalNil
  | terminal (wrapped : Err)
  | wrapf (pre : String) (cause : Err)
  | join (a b : Err)
  | joinOne (a : Err)
deriving DecidableEq, Repr

/-- The method `Error()`: `reconcile.TerminalError`, `fmt.Errorf` with a
trailing `%w` verb, and `errors.Join` (of two errors, or of one error and nil)
build their text from their parts. -/
def Err.Error : Err → String
  | .plain msg _ => msg
  | .terminalNil => "nil terminal error"
  | .terminal e => "terminal error: " ++ e.Error
  | .wrapf pre e => pre ++ e.Error
  | .join a b => a.Error ++ "\n" ++ b.Error
  | .joinOne a => a.Error

/-- The test `errors.Is(err, reconcile.TerminalError(nil))` on a non-nil error:
some error of the chain is a terminal error. -/
def Err.isTerminal : Err → Bool
  | .plain _ _ => false
  | .terminalNil => true
  | .terminal _ => true
  | .wrapf _ e => e.isTerminal
  | .join a b => a.isTerminal || b.isTerminal
  | .joinOne a => a.isTerminal

/-- The test `os.IsNotExist(err)` on a non-nil error; it does not look through
`%w` wrappers. -/
def Err.isNotExist : Err → Bool
  | .plain _ b => b
  | _ => false

/-! ## The catalog record -/

/-- Modelled from the spec: the constant `catalogd.SourceTypeImage` of the
catalogd API package, whose declaration is not under src/. -/
def SourceTypeImage : String := "Image"

/-- Modelled from the spec: the constant `catalogd.SourceTypeWeb` of the
catalogd API package, whose declaration is not under src/. -/
def SourceTypeWeb : String := "Web"

/-- Modelled from the spec: the condition type `catalogd.TypeProgressing`. -/
def TypeProgressing : String := "Progressing"

/-- Modelled from the spec: the condition type `catalogd.TypeServing`. -/
def TypeServing : String := "Serving"

/-- Modelled from the spec: the condition reason `catalogd.ReasonSucceeded`. -/
def ReasonSucceeded : String := "Succeeded"

/-- Modelled from the spec: the condition reason `catalogd.ReasonRetrying`. -/
def ReasonRetrying : String := "Retrying"

/-- Modelled from the spec: the condition reason `catalogd.ReasonBlocked`. -/
def ReasonBlocked : String := "Blocked"

/-- Modelled from the spec: the condition reason
`catalogd.ReasonUserSpecifiedUnavailable`. -/
def ReasonUserSpecifiedUnavailable : String := "UserSpecifiedUnavailable"

/-- Modelled from the spec: the availability mode
`catalogd.AvailabilityModeUnavailable`. -/
def AvailabilityModeUnavailable : String := "Unavailable"

/-- The condition status `metav1.ConditionTrue`. -/
def ConditionTrue : String := "True"

/-- The condition status `metav1.ConditionFalse`. -/
def ConditionFalse : String := "False"

/-- The unpack state `source.StateUnpacked`. -/
def StateUnpacked : String := "Unpacked"

/-- A `metav1.Condition`. -/
structure Condition where
  type : String
  status : String
  observedGeneration : Int
  lastTransitionTime : Time
  reason : String
  message : String
deriving DecidableEq, Repr

/-- A `catalogd.ResolvedImageSource`. -/
structure ResolvedImageSource where
  ref : String
deriving DecidableEq, Repr

/-- A `catalogd.ResolvedWebSource`. -/
structure ResolvedWebSource where
  url : String
  digest : String
deriving DecidableEq, Repr

/-- A `catalogd.ResolvedCatalogSource`. -/
structure ResolvedCatalogSource where
  type : String
  image : Option ResolvedImageSource
  web : Option ResolvedWebSource
deriving DecidableEq, Repr

/-- A `catalogd.ClusterCatalogStatus`, with the fields the reconciler reads or
writes. Pointer fields are options; a nil and an empty condition slice are the
same list, as they are for `equality.Semantic.DeepEqual`. -/
structure ClusterCatalogStatus where
  conditions : List Condition
  resolvedSource : Option ResolvedCatalogSource
  lastUnpacked : Option Time
deriving DecidableEq, Repr

/-- A `catalogd.ImageSource`. -/
structure ImageSource where
  ref : String
  pollIntervalMinutes : Option Int
deriving DecidableEq, Repr

/-- A `catalogd.WebSource`. -/
structure WebSource where
  url : String
  pollIntervalMinutes : Option Int
deriving DecidableEq, Repr

/-- A `catalogd.CatalogSource`: a type tag and one pointer per variant. -/
structure CatalogSource where
  type : String
  image : Option ImageSource
  web : Option WebSource
deriving DecidableEq, Repr

/-- A `catalogd.ClusterCatalogSpec`. -/
structure ClusterCatalogSpec where
  source : CatalogSource
  availabilityMode : String
deriving DecidableEq, Repr

/-- A `catalogd.ClusterCatalog`. -/
structure ClusterCatalog where
  name : String
  generation : Int
  spec : ClusterCatalogSpec
  status : ClusterCatalogStatus
deriving DecidableEq, Repr

/-- The zero value `catalogd.ClusterCatalog{}`. -/
def ClusterCatalog.zero : ClusterCatalog :=
  { name := "", generation := 0,
    spec := { source := { type := "", image := none, web := none }, availabilityMode := "" },
    status := { conditions := [], resolvedSource := none, lastUnpacked := none } }

/-! ## Collaborators -/

/-- An `fs.FS` handle, as `hasContent` sees it: the outcome of
`fs.ReadDir(fsys, ".")`, `none` when reading fails. -/
structure FS where
  readDir : Option (List String)
deriving DecidableEq, Repr

/-- A `source.Result`. -/
structure Result where
  fs : Option FS
  resolvedSource : Option ResolvedCatalogSource
  state : String
  message : String
  unpackTime : Time
  lastSuccessfulPollAttempt : Time
deriving DecidableEq, Repr

/-- The collaborators of `CatalogCache`, as state-passing functions over a world
`W`: the record store (`client.Client`), the `source.Unpacker` and the clock.
Go's multiple return values are pairs; a nil error is `none`. `Get` returns the
object it was asked to fill together with its error. The catalog is passed by
value: the implementations in the repository only read it. -/
structure Env (W : Type) where
  Get : W → String → (ClusterCatalog × Option Err) × W
  Delete : W → ClusterCatalog → Option Err × W
  GetContentFS : W → ClusterCatalog → (Option FS × Option Err) × W
  Unpack : W → ClusterCatalog → (Option Result × Option Err) × W
  Cleanup : W → ClusterCatalog → Option Err × W
  Now : W → Time × W

/-- A call on a collaborator. -/
inductive Call where
  | Get
  | Delete
  | GetContentFS
  | Unpack
  | Cleanup
deriving DecidableEq, Repr

/-- The ways a Go function panics in this package. -/
inductive Panic where
  | nilDereference
  | unsupportedSourceType (type : String)
  | unknownUnpackState (state : String)
  | programmerError (sourceType : String)
  | unexpectedFile (path : List String)
  | sliceOutOfRange
  | closeFailed (err : Err)
  | indexOutOfRange (index length : Nat)
deriving DecidableEq, Repr

/-- A value, or a panic. -/
inductive Ret (α : Type) where
  | ok (a : α)
  | panic (p : Panic)
deriving DecidableEq, Repr

/-- How a call of `Sync` ends: it returns its error (nil is `none`) or panics. -/
inductive Outcome where
  | returned (err : Option Err)
  | panicked (p : Panic)
deriving DecidableEq, Repr

/-- What a call of `Sync` leaves behind: its outcome, the catalog it was handed
(by pointer) as it is afterwards, the world, and the calls made in order. -/
structure SyncRun (W : Type) where
  outcome : Outcome
  catalog : ClusterCatalog
  world : W
  calls : List Call

/-! ## Conditions -/

/-- Modelled from the spec: `meta.FindStatusCondition` of k8s.io/apimachinery
(a dependency, not under src/): the first condition of the given type. -/
def FindStatusCondition (conditions : List Condition) (conditionType : String) :
    Option Condition :=
  conditions.find? (fun c => decide (c.type = conditionType))

/-- The update `meta.SetStatusCondition` applies to the existing condition:
status (stamping the transition time when it changes), reason, message and
observed generation are taken from the new condition. -/
def overwriteCondition (now : Time) (newCondition existing : Condition) : Condition :=
  { type := existing.type
    status := newCondition.status
    observedGeneration := newCondition.observedGeneration
    lastTransitionTime :=
      if existing.status ≠ newCondition.status then
        (if newCondition.lastTransitionTime.IsZero then now
         else newCondition.lastTransitionTime)
      else existing.lastTransitionTime
    reason := newCondition.reason
    message := newCondition.message }

/-- The in-place update of the first condition of the given type. -/
def modifyFirst (conditionType : String) (f : Condition → Condition) :
    List Condition → List Condition
  | [] => []
  | c :: cs =>
    if c.type = conditionType then f c :: cs
    else c :: modifyFirst conditionType f cs

/-- Modelled from the spec: `meta.SetStatusCondition` of k8s.io/apimachinery
(a dependency, not under src/); conditions are upserted by type. A condition
of a type not yet present is appended, stamped with the current time when it
carries no transition time; otherwise the first condition of that type is
overwritten in place. The clock is read only where the library reads it: when
a condition without transition time is appended or changes the status of the
existing one (in the other cases the instant handed to `overwriteCondition` is
not used). -/
def SetStatusCondition {W : Type} (env : Env W) (w : W) (conditions : List Condition)
    (newCondition : Condition) : List Condition × W :=
  match FindStatusCondition conditions newCondition.type with
  | none =>
    if newCondition.lastTransitionTime.IsZero then
      (conditions ++ [{ newCondition with lastTransitionTime := (env.Now w).1 }], (env.Now w).2)
    else (conditions ++ [newCondition], w)
  | some existing =>
    if existing.status ≠ newCondition.status ∧ newCondition.lastTransitionTime.IsZero then
      (modifyFirst newCondition.type (overwriteCondition (env.Now w).1 newCondition) conditions,
        (env.Now w).2)
    else
      (modifyFirst newCondition.type (overwriteCondition ⟨0⟩ newCondition) conditions, w)

/-- The function `clearUnknownConditions` (cache.go 188-196). -/
def clearUnknownConditions (status : ClusterCatalogStatus) : ClusterCatalogStatus :=
  { status with
    conditions := status.conditions.filter
      (fun cond => decide (cond.type = TypeServing ∨ cond.type = TypeProgressing)) }

/-- The local variable `progressingCond` of `updateStatusProgressing` as it
reaches `meta.SetStatusCondition` (cache.go 199-216): built for success, then
overwritten when the error is not nil, then again when it is terminal. -/
def progressingCond (generation : Int) (err : Option Err) : Condition :=
  let progressingCond : Condition :=
    { type := TypeProgressing
      status := ConditionTrue
      reason := ReasonSucceeded
      message := "Successfully unpacked and stored content from resolved source"
      observedGeneration := generation
      lastTransitionTime := ⟨0⟩ }
  let progressingCond : Condition :=
    match err with
    | some e =>
      { progressingCond with
        status := ConditionTrue, reason := ReasonRetrying, message := e.Error }
    | none => progressingCond
  match err with
  | some e =>
    if e.isTerminal then
      { progressingCond with status := ConditionFalse, reason := ReasonBlocked }
    else progressingCond
  | none => progressingCond

/-- The function `updateStatusProgressing` (cache.go 198-219). -/
def updateStatusProgressing {W : Type} (env : Env W) (w : W) (status : ClusterCatalogStatus)
    (generation : Int) (err : Option Err) : ClusterCatalogStatus × W :=
  let r := SetStatusCondition env w status.conditions (progressingCond generation err)
  ({ status with conditions := r.1 }, r.2)

/-- The function `updateStatusProgressingUserSpecifiedUnavailable`
(cache.go 221-247). -/
def updateStatusProgressingUserSpecifiedUnavailable {W : Type} (env : Env W) (w : W)
    (status : ClusterCatalogStatus) (generation : Int) : ClusterCatalogStatus × W :=
  let progressingCond : Condition :=
    { type := TypeProgressing
      status := ConditionTrue
      reason := ReasonSucceeded
      message := "Catalog availability mode is set to Unavailable"
      observedGeneration := generation
      lastTransitionTime := ⟨0⟩ }
  let servingCond : Condition :=
    { type := TypeServing
      status := ConditionFalse
      reason := ReasonUserSpecifiedUnavailable
      message := "Catalog availability mode is set to Unavailable"
      observedGeneration := generation
      lastTransitionTime := ⟨0⟩ }
  let r1 := SetStatusCondition env w status.conditions progressingCond
  let r2 := SetStatusCondition env r1.2 r1.1 servingCond
  ({ status with conditions := r2.1 }, r2.2)

/-! ## The reconciler -/

/-- The method `CatalogCache.needsPoll` (cache.go 249-273). The clock is read
on the last line only. -/
def needsPoll {W : Type} (env : Env W) (w : W) (lastSuccessfulPoll : Option Time)
    (catalog : ClusterCatalog) : Ret Bool × W :=
  match lastSuccessfulPoll with
  | none => (.ok false, w)
  | some last =>
    if catalog.spec.source.type = SourceTypeWeb then
      match catalog.spec.source.web with
      | none => (.panic .nilDereference, w)
      | some web =>
        match web.pollIntervalMinutes with
        | none => (.ok false, w)
        | some m =>
          (.ok ((last.Add (minutesToDuration m)).Before (env.Now w).1), (env.Now w).2)
    else if catalog.spec.source.type = SourceTypeImage then
      match catalog.spec.source.image with
      | none => (.panic .nilDereference, w)
      | some image =>
        match image.pollIntervalMinutes with
        | none => (.ok false, w)
        | some m =>
          (.ok ((last.Add (minutesToDuration m)).Before (env.Now w).1), (env.Now w).2)
    else (.panic (.unsupportedSourceType catalog.spec.source.type), w)

/-- The function `hasContent` (cache.go 155-165). -/
def hasContent (fsys : Option FS) : Bool :=
  match fsys with
  | none => false
  | some f =>
    match f.readDir with
    | none => false
    | some entries => decide (entries.length > 0)

/-- The method `CatalogCache.DeleteCatalog` (cache.go 275-280). -/
def DeleteCatalog {W : Type} (env : Env W) (w : W) (catalog : ClusterCatalog) :
    Option Err × W × List Call :=
  match (env.Cleanup w catalog).1 with
  | some err => (some err, (env.Cleanup w catalog).2, [Call.Cleanup])
  | none =>
    ((env.Delete (env.Cleanup w catalog).2 catalog).1,
      (env.Delete (env.Cleanup w catalog).2 catalog).2, [Call.Cleanup, Call.Delete])

/-- What `getCurrentState` returns: the expected status (never a nil pointer),
the stored catalog (nil is `none`) and the error. -/
structure CurrentState where
  expectedStatus : ClusterCatalogStatus
  storedCatalog : Option ClusterCatalog
  err : Option Err
deriving DecidableEq, Repr

/-- The method `CatalogCache.getCurrentState` (cache.go 167-186). The content
of the cache is looked at only when the lookup in the store has failed. -/
def getCurrentState {W : Type} (env : Env W) (w : W) (catalog : ClusterCatalog) :
    CurrentState × W × List Call :=
  let expectedStatus := clearUnknownConditions catalog.status
  let got := env.Get w catalog.name
  let storedCatalog := got.1.1
  match got.1.2 with
  | some getErr =>
    let content := env.GetContentFS got.2 storedCatalog
    let catalogFS := content.1.1
    match content.1.2 with
    | some fsErr =>
      if ¬ fsErr.isNotExist then
        (⟨expectedStatus, none, some fsErr⟩, content.2, [Call.Get, Call.GetContentFS])
      else if ¬ hasContent catalogFS then
        (⟨expectedStatus, none, none⟩, content.2, [Call.Get, Call.GetContentFS])
      else
        let upd := updateStatusProgressing env content.2 expectedStatus storedCatalog.generation none
        (⟨upd.1, some storedCatalog, some getErr⟩, upd.2, [Call.Get, Call.GetContentFS])
    | none =>
      if ¬ hasContent catalogFS then
        (⟨expectedStatus, none, none⟩, content.2, [Call.Get, Call.GetContentFS])
      else
        let upd := updateStatusProgressing env content.2 expectedStatus storedCatalog.generation none
        (⟨upd.1, some storedCatalog, some getErr⟩, upd.2, [Call.Get, Call.GetContentFS])
  | none => (⟨expectedStatus, some storedCatalog, none⟩, got.2, [Call.Get])

/-- The decision of `Sync` whether to unpack (cache.go 110-128): the value of
the local variable `needsUnpack` after the switch, with the world and the calls
made so far. The cases of the switch are tried in order, so `needsPoll` runs
only when the three cases before it are false. -/
def needsUnpack {W : Type} (env : Env W) (w : W) (catalog : ClusterCatalog) :
    Ret Bool × W × List Call :=
  let cur := getCurrentState env w catalog
  match cur.1.storedCatalog with
  | none => (.ok true, cur.2.1, cur.2.2)
  | some storedCatalog =>
    if catalog.status ≠ cur.1.expectedStatus then (.ok true, cur.2.1, cur.2.2)
    else if catalog.generation ≠ storedCatalog.generation then (.ok true, cur.2.1, cur.2.2)
    else
      ((needsPoll env cur.2.1 storedCatalog.status.lastUnpacked catalog).1,
        (needsPoll env cur.2.1 storedCatalog.status.lastUnpacked catalog).2, cur.2.2)

/-- The fetch of `Sync` (cache.go 136-152), entered when `needsUnpack` is true. -/
def unpackAndUpdate {W : Type} (env : Env W) (w : W) (catalog : ClusterCatalog)
    (calls : List Call) : SyncRun W :=
  let unpacked := env.Unpack w catalog
  match unpacked.1.2 with
  | some err =>
    let unpackErr := Err.wrapf "source catalog content: " err
    let upd := updateStatusProgressing env unpacked.2 catalog.status catalog.generation
      (some unpackErr)
    { outcome := .returned (some unpackErr)
      catalog := { catalog with status := upd.1 }
      world := upd.2
      calls := calls ++ [Call.Unpack] }
  | none =>
    match unpacked.1.1 with
    | none =>
      { outcome := .panicked .nilDereference, catalog := catalog, world := unpacked.2,
        calls := calls ++ [Call.Unpack] }
    | some unpackResult =>
      if unpackResult.state = StateUnpacked then
        let upd := updateStatusProgressing env unpacked.2
          { catalog.status with
            lastUnpacked := some unpackResult.unpackTime
            resolvedSource := unpackResult.resolvedSource }
          catalog.generation none
        { outcome := .returned none
          catalog := { catalog with status := upd.1 }
          world := upd.2
          calls := calls ++ [Call.Unpack] }
      else
        { outcome := .panicked (.unknownUnpackState unpackResult.state), catalog := catalog,
          world := unpacked.2, calls := calls ++ [Call.Unpack] }

/-- The method `CatalogCache.Sync` (cache.go 89-153). -/
def Sync {W : Type} (env : Env W) (w : W) (catalog : ClusterCatalog) : SyncRun W :=
  if catalog.spec.availabilityMode = AvailabilityModeUnavailable then
    let deleted := DeleteCatalog env w catalog
    match deleted.1 with
    | some err =>
      { outcome := .returned (some err), catalog := catalog, world := deleted.2.1,
        calls := deleted.2.2 }
    | none =>
      let upd := updateStatusProgressingUserSpecifiedUnavailable env deleted.2.1
        catalog.status catalog.generation
      { outcome := .returned none
        catalog := { catalog with status := upd.1 }
        world := upd.2
        calls := deleted.2.2 }
  else
    let decision := needsUnpack env w catalog
    match decision.1 with
    | .panic p =>
      { outcome := .panicked p, catalog := catalog, world := decision.2.1,
        calls := decision.2.2 }
    | .ok false =>
      { outcome := .returned none, catalog := catalog, world := decision.2.1,
        calls := decision.2.2 }
    | .ok true => unpackAndUpdate env decision.2.1 catalog decision.2.2

/-! ## Scripted collaborators for the examples -/

/-- A script: the fixed answer of each collaborator and the instant the clock shows. -/
structure Script where
  get : ClusterCatalog × Option Err
  delete : Option Err
  contentFS : Option FS × Option Err
  unpack : Option Result × Option Err
  cleanup : Option Err
  now : Time

/-- The environment that plays a script; its world has a single state. -/
def Script.env (s : Script) : Env Unit :=
  { Get := fun w _ => (s.get, w)
    Delete := fun w _ => (s.delete, w)
    GetContentFS := fun w _ => (s.contentFS, w)
    Unpack := fun w _ => (s.unpack, w)
    Cleanup := fun w _ => (s.cleanup, w)
    Now := fun w => (s.now, w) }

/-- A catalog declares a poll interval of `m` minutes: its source is a web or an
image source whose `PollIntervalMinutes` points to `m`. -/
def declaresPollInterval (catalog : ClusterCatalog) (m : Int) : Prop :=
  (catalog.spec.source.type = SourceTypeWeb ∧
      catalog.spec.source.web.map (fun s => s.pollIntervalMinutes) = some (some m)) ∨
    (catalog.spec.source.type = SourceTypeImage ∧
      catalog.spec.source.image.map (fun s => s.pollIntervalMinutes) = some (some m))

instance (catalog : ClusterCatalog) (m : Int) : Decidable (declaresPollInterval catalog m) := by
  unfold declaresPollInterval
  infer_instance

/-- A web catalog of generation 1 with the given poll interval and status. -/
def webCatalog (pollIntervalMinutes : Option Int) (status : ClusterCatalogStatus) :
    ClusterCatalog :=
  { name := "c0ffee00", generation := 1,
    spec := { source := { type := SourceTypeWeb, image := none,
                          web := some { url := "https://example.com/catalog",
                                        pollIntervalMinutes := pollIntervalMinutes } },
              availabilityMode := "Available" },
    status := status }

/-- The status of a catalog that was never synced. -/
def emptyStatus : ClusterCatalogStatus :=
  { conditions := [], resolvedSource := none, lastUnpacked := none }

/-- A script whose clock shows `now`; the store has no record and the unpacker fails. -/
def clockScript (now : Time) : Script :=
  { get := (ClusterCatalog.zero, some (.plain "not found" false))
    delete := none
    contentFS := (none, some (.plain "catalog has not been sync'd yet" false))
    unpack := (none, some (.plain "unreachable" false))
    cleanup := none
    now := now }

/-- The number of conditions of a given type. -/
def countType (conditionType : String) (conditions : List Condition) : Nat :=
  (conditions.filter (fun c => decide (c.type = conditionType))).length

/-- The conditions of the other types, in their order. -/
def otherThan (conditionType : String) (conditions : List Condition) : List Condition :=
  conditions.filter (fun c => decide (c.type ≠ conditionType))

/-- A status carries only conditions of the known types. -/
def onlyKnownConditions (status : ClusterCatalogStatus) : Prop :=
  ∀ c ∈ status.conditions, c.type = TypeServing ∨ c.type = TypeProgressing

instance (status : ClusterCatalogStatus) : Decidable (onlyKnownConditions status) := by
  unfold onlyKnownConditions
  infer_instance

/-- The Progressing condition that a successful unpack for generation `g` leaves,
with its transition stamped at `t`. -/
def succeededCondition (g : Int) (t : Time) : Condition :=
  { type := TypeProgressing, status := ConditionTrue, observedGeneration := g,
    lastTransitionTime := t, reason := ReasonSucceeded,
    message := "Successfully unpacked and stored content from resolved source" }

/-- A resolved web source. -/
def resolvedWeb : ResolvedCatalogSource :=
  { type := SourceTypeWeb, image := none,
    web := some { url := "https://example.com/catalog/catalog.yaml", digest := "sha256:ab" } }

/-- The status of a catalog of generation `g` after one successful sync. -/
def syncedStatus (g : Int) : ClusterCatalogStatus :=
  { conditions := [succeededCondition g ⟨1000⟩], resolvedSource := some resolvedWeb,
    lastUnpacked := some ⟨1000⟩ }

/-- A successful unpack result. -/
def unpackedResult : Result :=
  { fs := some ⟨some ["catalog.yaml"]⟩, resolvedSource := some resolvedWeb,
    state := StateUnpacked, message := "unpacked", unpackTime := ⟨3000⟩,
    lastSuccessfulPollAttempt := ⟨4000⟩ }

/-- A script in which the store holds the record `stored`, the content
directory of its resolved key is missing on disk, and unpacking would succeed. -/
def storedScript (stored : ClusterCatalog) : Script :=
  { get := (stored, none)
    delete := none
    contentFS := (none, some (.plain "no such file or directory" true))
    unpack := (some unpackedResult, none)
    cleanup := none
    now := ⟨5000⟩ }

/-- A script in which the store holds no record, and the unpacker answers the
content request for the empty record with `contentFS`. -/
def noRecordScript (contentFS : Option FS × Option Err) : Script :=
  { get := (ClusterCatalog.zero, some (.plain "clustercatalogs not found" false))
    delete := some (.plain "no such file or directory" true)
    contentFS := contentFS
    unpack := (some unpackedResult, none)
    cleanup := none
    now := ⟨5000⟩ }

/-- A catalog of generation 0 whose status already reads as unpacked. -/
def generationZeroCatalog : ClusterCatalog :=
  { webCatalog none (syncedStatus 0) with generation := 0 }

/-- An Unavailable catalog. -/
def unavailableCatalog (status : ClusterCatalogStatus) : ClusterCatalog :=
  { name := "c0ffee00", generation := 1,
    spec := { source := { type := SourceTypeWeb, image := none,
                          web := some { url := "https://example.com/catalog",
                                        pollIntervalMinutes := none } },
              availabilityMode := AvailabilityModeUnavailable },
    status := status }

/-- A catalog mentions no poll interval on its web source: the source is a web
source whose `PollIntervalMinutes` is nil. -/
def webWithoutPollInterval (catalog : ClusterCatalog) : Prop :=
  catalog.spec.source.type = SourceTypeWeb ∧
    catalog.spec.source.web.map (fun s => s.pollIntervalMinutes) = some none

instance (catalog : ClusterCatalog) : Decidable (webWithoutPollInterval catalog) := by
  unfold webWithoutPollInterval
  infer_instance

/-- An environment over a store of one record: the world is the record on file
for the catalog, if any. `Get` reads it, `Delete` removes it; without a record
both answer as the script says, and so do the unpacker and the clock. -/
def storeEnv (s : Script) : Env (Option ClusterCatalog) :=
  { Get := fun w _ =>
      match w with
      | some record => ((record, none), w)
      | none => (s.get, w)
    Delete := fun w _ =>
      match w with
      | some _ => (none, none)
      | none => (s.delete, w)
    GetContentFS := fun w _ => (s.contentFS, w)
    Unpack := fun w _ => (s.unpack, w)
    Cleanup := fun w _ => (s.cleanup, w)
    Now := fun w => (s.now, w) }

/-- The method `Client.Update` on the store of one record (client/fs.go
152-161): the record is written over whatever was on file. -/
def Update (catalog : ClusterCatalog) (_ : Option ClusterCatalog) : Option ClusterCatalog :=
  some catalog

/-- A status with one condition of a type other than Progressing and Serving. -/
def statusWithOtherCondition : ClusterCatalogStatus :=
  { conditions := [{ type := "Deprecated", status := ConditionFalse, observedGeneration := 1,
                     lastTransitionTime := ⟨500⟩, reason := "Deprecated", message := "" }],
    resolvedSource := none, lastUnpacked := none }

/-- The script of a fresh web source: no record yet, nothing cached, and the
download succeeds. -/
def freshScript : Script :=
  noRecordScript (none, some (.plain "no unpacker for source type" false))

/-- A script in which the store holds no record and the download fails with a
terminal error. -/
def blockedScript : Script :=
  { noRecordScript (none, some (.plain "no unpacker for source type" false)) with
    unpack := (none, some (.terminal (.plain "invalid catalog URL" false))) }

/-- A catalog declares no poll interval: its source is a web or an image source
whose `PollIntervalMinutes` is nil. -/
def declaresNoPollInterval (catalog : ClusterCatalog) : Prop :=
  (catalog.spec.source.type = SourceTypeWeb ∧
      catalog.spec.source.web.map (fun s => s.pollIntervalMinutes) = some none) ∨
    (catalog.spec.source.type = SourceTypeImage ∧
      catalog.spec.source.image.map (fun s => s.pollIntervalMinutes) = some none)

instance (catalog : ClusterCatalog) : Decidable (declaresNoPollInterval catalog) := by
  unfold declaresNoPollInterval
  infer_instance

/-- An image catalog of generation 1 with the given poll interval and status. -/
def imageCatalog (pollIntervalMinutes : Option Int) (status : ClusterCatalogStatus) :
    ClusterCatalog :=
  { name := "0ddba11", generation := 1,
    spec := { source := { type := SourceTypeImage, web := none,
                          image := some { ref := "quay.io/example/catalog:latest",
                                          pollIntervalMinutes := pollIntervalMinutes } },
              availabilityMode := "Available" },
    status := status }

/-! ## The file system

The part of the operating system the cache code talks to, as a flat table from
absolute paths (lists of components) to inodes. What the code can observe of
the table goes through `Lstat`; the list order only fixes the order in which
directory walks visit their entries. Operations fail where the table says so
(a missing parent, a file where a directory is expected) and wherever a fault
plan injects an error (permission denied, disk full, and the like). -/

/-- An absolute path, as the list of its components. -/
abbrev Path := List String

/-- The content of a file, in bytes. -/
abbrev Bytes := List UInt8

/-- The type bits of `fs.FileMode`, as `setReadOnlyRecursive` tells them apart:
regular file (0), `os.ModeDir`, `os.ModeSymlink`, and every other type (named
pipe, socket, device, irregular). -/
inductive FileType where
  | regular
  | dir
  | symlink
  | other
deriving DecidableEq, Repr

/-- What `os.Lstat` reports of a path, and the content behind it (the bytes of
a regular file). -/
structure Inode where
  typ : FileType
  perm : Nat
  data : Bytes
deriving DecidableEq, Repr

/-- The file system: the table of the paths that exist. -/
abbrev FileSystem := List (Path × Inode)

/-- The call `os.Lstat(path)`: the inode at the path, `none` when it does not
exist. Symbolic links are not followed anywhere in the model, so `os.Stat` is
the same lookup. -/
def Lstat : FileSystem → Path → Option Inode
  | [], _ => none
  | (q, inode) :: rest, p => if q = p then some inode else Lstat rest p

/-- The paths of the table at or below `root`, in table order: what a walk of
`root` visits. -/
def entriesUnder (fs : FileSystem) (root : Path) : List Path :=
  (fs.map (fun e => e.1)).filter (fun p => decide (root <+: p))

/-- The operations of the operating system that a fault plan can make fail. -/
inductive FsOp where
  | chmod (path : Path)
  | removeAll (path : Path)
  | mkdirAll (path : Path)
  | create (path : Path)
  | write (path : Path)
  | readDir (path : Path)
deriving DecidableEq, Repr

/-- A fault plan: the operations that fail although the table would allow them. -/
abbrev Faults := FsOp → Bool

/-- The fault plan under which nothing fails unexpectedly. -/
def noFaults : Faults := fun _ => false

/-- The error of an injected fault. -/
def faultErr : Err := .plain "permission denied" false

/-- The error `fs.ErrNotExist` as the operating system reports it. -/
def notExistErr : Err := .plain "no such file or directory" true

/-- The error `syscall.ENOTDIR`. -/
def notDirErr : Err := .plain "not a directory" false

/-- The effect of a successful `os.Chmod(path, mode)` on the table. -/
def setPerm (fs : FileSystem) (path : Path) (mode : Nat) : FileSystem :=
  fs.map (fun e => if e.1 = path then (e.1, { e.2 with perm := mode }) else e)

/-- The call `os.Chmod(path, mode)`. -/
def Chmod (faults : Faults) (fs : FileSystem) (path : Path) (mode : Nat) :
    Option Err × FileSystem :=
  if faults (.chmod path) then (some faultErr, fs)
  else
    match Lstat fs path with
    | none => (some notExistErr, fs)
    | some _ => (none, setPerm fs path mode)

/-- The effect of a successful `os.RemoveAll(root)` on the table: the path and
everything below it is gone. -/
def removeTree (fs : FileSystem) (root : Path) : FileSystem :=
  fs.filter (fun e => ¬ root <+: e.1)

/-- The call `os.RemoveAll(root)`; removing a path that does not exist is not
an error. A failing removal is taken to remove nothing. -/
def RemoveAll (faults : Faults) (fs : FileSystem) (root : Path) : Option Err × FileSystem :=
  if faults (.removeAll root) then (some faultErr, fs)
  else (none, removeTree fs root)

/-- The loop of `os.MkdirAll` over the prefixes of the path, shortest first:
a missing prefix is created as a directory, a prefix that is not a directory
is an error. -/
def mkdirs (perm : Nat) : List Path → FileSystem → Option Err × FileSystem
  | [], fs => (none, fs)
  | q :: qs, fs =>
    match Lstat fs q with
    | none => mkdirs perm qs (fs ++ [(q, { typ := .dir, perm := perm, data := [] })])
    | some inode =>
      if inode.typ = .dir then mkdirs perm qs fs
      else (some notDirErr, fs)

/-- The call `os.MkdirAll(path, perm)`. -/
def MkdirAll (faults : Faults) (fs : FileSystem) (path : Path) (perm : Nat) :
    Option Err × FileSystem :=
  if faults (.mkdirAll path) then (some faultErr, fs)
  else mkdirs perm path.inits.tail fs

/-- The replacement of the content of the file at a path. -/
def setData (fs : FileSystem) (path : Path) (data : Bytes) : FileSystem :=
  fs.map (fun e => if e.1 = path then (e.1, { e.2 with data := data }) else e)

/-- The call `os.Create(path)`: an existing file is truncated, a missing one is
created with mode 0666 when its parent is a directory. -/
def Create (faults : Faults) (fs : FileSystem) (path : Path) : Option Err × FileSystem :=
  if faults (.create path) then (some faultErr, fs)
  else
    match Lstat fs path with
    | some inode =>
      if inode.typ = .dir then (some (.plain "is a directory" false), fs)
      else (none, setData fs path [])
    | none =>
      if path.dropLast = [] then
        (none, fs ++ [(path, { typ := .regular, perm := 0o666, data := [] })])
      else
        match Lstat fs path.dropLast with
        | none => (some notExistErr, fs)
        | some parent =>
          if parent.typ = .dir then
            (none, fs ++ [(path, { typ := .regular, perm := 0o666, data := [] })])
          else (some notDirErr, fs)

/-- The names of the entries of a directory: the component right below `dir` of
every path under it, each once, in table order (the operating system sorts
them; no statement here depends on the order). -/
def childNames (fs : FileSystem) (dir : Path) : List String :=
  ((entriesUnder fs dir).filterMap (fun p => p.get? dir.length)).dedup

/-- The call `os.ReadDir(dir)`, reduced to the names of the entries. -/
def ReadDir (faults : Faults) (fs : FileSystem) (dir : Path) : Except Err (List String) :=
  if faults (.readDir dir) then .error faultErr
  else
    match Lstat fs dir with
    | none => .error notExistErr
    | some inode =>
      if inode.typ = .dir then .ok (childNames fs dir)
      else .error notDirErr

/-! ## Progress events (pkg/runtime/source/progress/progress.go) -/

/-- The type `progress.EventType` with its five constants. -/
inductive EventType where
  | NewTask
  | NewProgressed
  | Done
  | Skipped
  | Exit
deriving DecidableEq, Repr

/-- The struct `progress.Event`; the sizes and offsets are int64 counts of
bytes, -1 standing for an unknown size. -/
structure Event where
  EventType : EventType
  TaskID : String
  SubjectID : String
  Size : Int
  Offset : Int
  OffsetUpdate : Int
deriving DecidableEq, Repr

/-- The zero value `progress.Event{}`. -/
def Event.zero : Event :=
  { EventType := .NewTask, TaskID := "", SubjectID := "", Size := 0, Offset := 0,
    OffsetUpdate := 0 }

/-- A channel of events, by its identity. -/
structure Chan where
  id : Nat
deriving DecidableEq, Repr

/-- The struct `progress.Emitter`: the event under construction and the channel
to send it on (nil is `none`). -/
structure Emitter where
  Event : Event
  ProgressChan : Option Chan
deriving DecidableEq, Repr

/-- The method `Emitter.NewTask` (progress.go 46-54). -/
def Emitter.NewTask (b : Emitter) (taskID : String) : Emitter :=
  { b with Event :=
      { b.Event with
        TaskID := taskID, Size := -1, SubjectID := "", OffsetUpdate := 0, Offset := 0,
        EventType := .NewTask } }

/-- The method `Emitter.WithSize`. -/
def Emitter.WithSize (b : Emitter) (size : Int) : Emitter :=
  { b with Event := { b.Event with Size := size } }

/-- The method `Emitter.WithSubjectID`. -/
def Emitter.WithSubjectID (b : Emitter) (subjectID : String) : Emitter :=
  { b with Event := { b.Event with SubjectID := subjectID } }

/-- The method `Emitter.WithOffset`. -/
def Emitter.WithOffset (b : Emitter) (offset : Int) : Emitter :=
  { b with Event := { b.Event with Offset := offset } }

/-- The method `Emitter.WithOffsetUpdate`. -/
def Emitter.WithOffsetUpdate (b : Emitter) (offset : Int) : Emitter :=
  { b with Event := { b.Event with OffsetUpdate := offset } }

/-- The method `Emitter.WithProgress`. -/
def Emitter.WithProgress (b : Emitter) (offset : Int) (offsetUpdate : Int) : Emitter :=
  (b.WithOffset offset).WithOffsetUpdate offsetUpdate

/-- The method `Emitter.Skip`. -/
def Emitter.Skip (b : Emitter) : Emitter :=
  { b with Event := { b.Event with EventType := .Skipped } }

/-- The method `Emitter.Done`. -/
def Emitter.Done (b : Emitter) : Emitter :=
  { b with Event := { b.Event with EventType := .Done } }

/-- The method `Emitter.Progress`. -/
def Emitter.Progress (b : Emitter) : Emitter :=
  { b with Event := { b.Event with EventType := .NewProgressed } }

/-- The method `Emitter.Emit` (progress.go 95-99): with a channel, the current
event is sent, that is, appended to what was sent on the channel so far. -/
def Emitter.Emit (b : Emitter) (sent : List CatalogCache.Event) : List CatalogCache.Event :=
  match b.ProgressChan with
  | some _ => sent ++ [b.Event]
  | none => sent

/-- The struct `source.Options` (pkg/runtime/source/unpacker.go). -/
structure Options where
  ProgressChan : Option Chan
deriving DecidableEq, Repr

/-! ## The HTTP downloader (pkg/runtime/source/downloader/http.go) -/

/-- The constant `TaskIDHTTPDownload`. -/
def TaskIDHTTPDownload : String := "download"

/-- The constant `TaskIDHTTPDecompress`. -/
def TaskIDHTTPDecompress : String := "decompress"

/-- The error a call of `Read` returns besides its bytes: nil, `io.EOF`, or
another error. -/
inductive ReadStatus where
  | more
  | eof
  | failed (err : Err)
deriving DecidableEq, Repr

/-- One call of `Read` on an `io.Reader`: the bytes it delivers and its error. -/
structure ReadStep where
  data : Bytes
  status : ReadStatus
deriving DecidableEq, Repr

/-- An `io.Reader`, as the answers of its calls of `Read` in order; once they are
used up it answers with no bytes and `io.EOF`. -/
abbrev Reader := List ReadStep

/-- An `io.Writer`: what was written to it, and how many bytes it still takes
(`none` when it takes any number); a `Write` beyond that fails and writes
nothing. -/
structure Writer where
  written : Bytes
  room : Option Nat
deriving DecidableEq, Repr

/-- The method `Write`. -/
def Writer.Write (out : Writer) (p : Bytes) : Option Err × Writer :=
  match out.room with
  | none => (none, { out with written := out.written ++ p })
  | some k =>
    if p.length ≤ k then (none, { written := out.written ++ p, room := some (k - p.length) })
    else (some (.plain "no space left on device" false), out)

/-- A `context.Context`, as `copyData` polls it: from which poll on its `Done`
channel is closed (`none` when it never is) and the error `Err()` then returns. -/
structure Context where
  cancelledFrom : Option Nat
  err : Err
deriving DecidableEq, Repr

/-- Whether `ctx.Done()` is closed at the given poll. -/
def Context.Done (ctx : Context) (poll : Nat) : Bool :=
  match ctx.cancelledFrom with
  | some k => decide (k ≤ poll)
  | none => false

/-- What a call of `copyData` leaves behind: the error returned, the emitter
(handed in by pointer), the writer, what was sent on the channel, the number
of polls of the context so far, and the reads not yet made. -/
structure CopyRun where
  err : Option Err
  emitter : Emitter
  out : Writer
  sent : List Event
  polls : Nat
  rest : Reader
deriving DecidableEq, Repr

/-- The function `copyData` (http.go 95-124). Each iteration polls the context,
reads a chunk, writes it and emits a progress event; the local variable
`totalBytes` is never assigned after its initialisation to 0. -/
def copyData (ctx : Context) (poll : Nat) (progressEmitter : Emitter) (reader : Reader)
    (out : Writer) (sent : List Event) : CopyRun :=
  let totalBytes : Int := 0
  match reader with
  | [] =>
    if ctx.Done poll then
      { err := some ctx.err, emitter := progressEmitter, out := out, sent := sent,
        polls := poll + 1, rest := [] }
    else
      { err := none, emitter := progressEmitter.Done, out := out,
        sent := progressEmitter.Done.Emit sent, polls := poll + 1, rest := [] }
  | step :: rest =>
    if ctx.Done poll then
      { err := some ctx.err, emitter := progressEmitter, out := out, sent := sent,
        polls := poll + 1, rest := step :: rest }
    else
      let n : Int := step.data.length
      let written : Option Err × Writer × Emitter × List Event :=
        if n > 0 then
          match out.Write step.data with
          | (some writeErr, out1) =>
            (some (.plain ("failed to write data: " ++ writeErr.Error) false), out1,
              progressEmitter, sent)
          | (none, out1) =>
            (none, out1, (progressEmitter.WithProgress totalBytes n).Progress,
              (progressEmitter.WithProgress totalBytes n).Progress.Emit sent)
        else (none, out, progressEmitter, sent)
      match written with
      | (some err, out1, b1, sent1) =>
        { err := some err, emitter := b1, out := out1, sent := sent1, polls := poll + 1,
          rest := rest }
      | (none, out1, b1, sent1) =>
        match step.status with
        | .eof =>
          { err := none, emitter := b1.Done, out := out1, sent := b1.Done.Emit sent1,
            polls := poll + 1, rest := rest }
        | .failed err =>
          { err := some (.plain ("error reading response body: " ++ err.Error) false),
            emitter := b1, out := out1, sent := sent1, polls := poll + 1, rest := rest }
        | .more => copyData ctx (poll + 1) b1 rest out1 sent1

/-- An `http.Response`, as `Download` reads it: the status code, the declared
content length (-1 when unknown), whether the header `Content-Encoding` is
`gzip`, and the body. -/
structure Response where
  StatusCode : Int
  ContentLength : Int
  gzip : Bool
  Body : Reader
deriving DecidableEq, Repr

/-- The struct `HTTPDownloader` with what its collaborators answer: the creation
of the request (`http.NewRequest`), the round trip (`h.Client.Do`), and the
opening of a gzip stream on the buffered body (`gzip.NewReader`). -/
structure HTTPDownloader where
  NewRequest : String → Option Err
  Do : String → Except Err Response
  gzipNewReader : Bytes → Except Err Reader

/-- What a call of `Download` leaves behind: the error returned, the file
system, and the events sent on the progress channel. -/
structure DownloadRun where
  err : Option Err
  fs : FileSystem
  sent : List Event
deriving DecidableEq, Repr

/-- The method `HTTPDownloader.Download` (http.go 25-93). `room` is the number
of bytes the destination file still takes (`none`: any number). -/
def HTTPDownloader.Download (h : HTTPDownloader) (faults : Faults) (room : Option Nat)
    (ctx : Context) (url : String) (dest : Path) (opts : Options) (fs : FileSystem) :
    DownloadRun :=
  match h.NewRequest url with
  | some err =>
    { err := some (.wrapf "error creating HTTP request: " err), fs := fs, sent := [] }
  | none =>
    match h.Do url with
    | .error err =>
      { err := some (.wrapf "error making GET request: " err), fs := fs, sent := [] }
    | .ok response =>
      if response.StatusCode ≠ 200 then
        { err := some (.plain ("unexpected status code: " ++ toString response.StatusCode) false),
          fs := fs, sent := [] }
      else
        let destFilePath := dest ++ ["catalog.yaml"]
        match MkdirAll faults fs dest 0o777 with
        | (some err, fs1) =>
          { err := some (.wrapf "error creating destination directory: " err), fs := fs1,
            sent := [] }
        | (none, fs1) =>
          match Create faults fs1 destFilePath with
          | (some err, fs2) =>
            { err := some (.wrapf "error creating file for download: " err), fs := fs2,
              sent := [] }
          | (none, fs2) =>
            let outFile : Writer := { written := [], room := room }
            let buffer : Writer := { written := [], room := none }
            let out : Writer := if response.gzip then buffer else outFile
            let progressEmitter : Emitter :=
              { Event := Event.zero, ProgressChan := opts.ProgressChan }
            let progressEmitter :=
              (progressEmitter.NewTask TaskIDHTTPDownload).WithSize response.ContentLength
            let sent := progressEmitter.Emit []
            let copied := copyData ctx 0 progressEmitter response.Body out sent
            let fs3 := if response.gzip then fs2 else setData fs2 destFilePath copied.out.written
            match copied.err with
            | some err =>
              { err := some (.wrapf "error downloading data: " err), fs := fs3,
                sent := copied.sent }
            | none =>
              let progressEmitter := copied.emitter.Done
              let sent := progressEmitter.Emit copied.sent
              if response.gzip then
                let progressEmitter : Emitter :=
                  { progressEmitter with
                    Event := { progressEmitter.Event with TaskID := "Decompressing", Size := -1 } }
                match h.gzipNewReader copied.out.written with
                | .error err =>
                  { err := some (.wrapf "error creating gzip reader: " err), fs := fs3,
                    sent := sent }
                | .ok reader =>
                  let progressEmitter :=
                    (progressEmitter.NewTask TaskIDHTTPDecompress).WithSize (-1)
                  let sent := progressEmitter.Emit sent
                  let inflated := copyData ctx copied.polls progressEmitter reader outFile sent
                  match inflated.err with
                  | some err =>
                    { err := some (.wrapf "error decompressing data: " err),
                      fs := setData fs3 destFilePath inflated.out.written,
                      sent := inflated.sent }
                  | none =>
                    { err := none, fs := setData fs3 destFilePath inflated.out.written,
                      sent := inflated.sent }
              else { err := none, fs := fs3, sent := sent }

/-- The events of a given task among those sent. -/
def eventsOfTask (taskID : String) (sent : List Event) : List Event :=
  sent.filter (fun e => decide (e.TaskID = taskID))

/-- The shape the events of one task are to have: one new-task event, then
progress events only, then exactly one done event, and nothing after it. -/
def wellFormedTaskEvents (events : List Event) : Bool :=
  match events with
  | [] => false
  | first :: rest =>
    decide (first.EventType = .NewTask)
      && (match rest.getLast? with
          | none => false
          | some last => decide (last.EventType = .Done))
      && rest.dropLast.all (fun e => decide (e.EventType = .NewProgressed))

/-- A web server that answers 200 with a body of five bytes in one chunk,
uncompressed. -/
def plainServer : HTTPDownloader :=
  { NewRequest := fun _ => none
    Do := fun _ =>
      .ok { StatusCode := 200, ContentLength := 5, gzip := false,
            Body := [{ data := [104, 101, 108, 108, 111], status := .more }] }
    gzipNewReader := fun _ => .error (.plain "gzip: invalid header" false) }

/-- A context that is never cancelled. -/
def background : Context :=
  { cancelledFrom := none, err := .plain "context canceled" false }

/-! ## The OCI unpacker (pkg/runtime/source/unpacker/oci.go) -/

/-- The constant `TaskIDOCIResolve`. -/
def TaskIDOCIResolve : String := "Resolve"

/-- The constant `TaskIDOCIPull`. -/
def TaskIDOCIPull : String := "Pull"

/-- The constant `TaskIDOCIUnpack`. -/
def TaskIDOCIUnpack : String := "Unpack"

/-- The callback of the walk in `setReadOnlyRecursive` (oci.go 286-313), run
over the paths the walk visits: symbolic links are passed over, directories get
mode 0500, regular files mode 0400, any other type is refused. -/
def sealEntries (faults : Faults) : List Path → FileSystem → Option Err × FileSystem
  | [], fs => (none, fs)
  | path :: paths, fs =>
    match Lstat fs path with
    | none => (some notExistErr, fs)
    | some fi =>
      match fi.typ with
      | .symlink => sealEntries faults paths fs
      | .dir =>
        match Chmod faults fs path 0o500 with
        | (some err, fs1) => (some err, fs1)
        | (none, fs1) => sealEntries faults paths fs1
      | .regular =>
        match Chmod faults fs path 0o400 with
        | (some err, fs1) => (some err, fs1)
        | (none, fs1) => sealEntries faults paths fs1
      | .other =>
        (some (.plain ("refusing to change ownership of file " ++ "/".intercalate path) false), fs)

/-- The function `setReadOnlyRecursive` (oci.go 285-318). `filepath.WalkDir`
hands a root that does not exist to the callback with the error of `Lstat`. -/
def setReadOnlyRecursive (faults : Faults) (fs : FileSystem) (root : Path) :
    Option Err × FileSystem :=
  match Lstat fs root with
  | none => (some (.wrapf "error making bundle cache read-only: " notExistErr), fs)
  | some _ =>
    match sealEntries faults (entriesUnder fs root) fs with
    | (some err, fs1) => (some (.wrapf "error making bundle cache read-only: " err), fs1)
    | (none, fs1) => (none, fs1)

/-- The callback of the walk in `deleteRecursive` (oci.go 321-335), run over the
paths the walk visits: every directory gets mode 0700. -/
def makeWritable (faults : Faults) : List Path → FileSystem → Option Err × FileSystem
  | [], fs => (none, fs)
  | path :: paths, fs =>
    match Lstat fs path with
    | none => makeWritable faults paths fs
    | some d =>
      if d.typ ≠ .dir then makeWritable faults paths fs
      else
        match Chmod faults fs path 0o700 with
        | (some err, fs1) => (some err, fs1)
        | (none, fs1) => makeWritable faults paths fs1

/-- The function `deleteRecursive` (oci.go 320-339): make every directory below
the root writable, then remove the root; when the walk fails nothing is
removed. -/
def deleteRecursive (faults : Faults) (fs : FileSystem) (root : Path) :
    Option Err × FileSystem :=
  let walked : Option Err × FileSystem :=
    match Lstat fs root with
    | none => (none, fs)
    | some _ => makeWritable faults (entriesUnder fs root) fs
  match walked with
  | (some err, fs1) =>
    (some (.wrapf "error making bundle cache writable for deletion: " err), fs1)
  | (none, fs1) => RemoveAll faults fs1 root

/-- An entry of a layer archive, with its path relative to the root the layer is
applied to: a directory, a regular file, a symbolic link, a whiteout (the
path and everything below it is deleted), or a header that cannot be read. -/
inductive TarEntry where
  | dir (rel : Path) (perm : Nat)
  | file (rel : Path) (perm : Nat) (data : Bytes)
  | symlink (rel : Path) (target : Bytes)
  | whiteout (rel : Path)
  | damaged
deriving DecidableEq, Repr

/-- The replacement of whatever is at a path by one inode. -/
def putInode (fs : FileSystem) (path : Path) (inode : Inode) : FileSystem :=
  removeTree fs path ++ [(path, inode)]

/-- Modelled from the spec: what `archive.Apply` of containerd (a dependency,
not under src/) does with one entry below `root`: the layer is applied as a
file system diff, later entries overwriting or deleting earlier ones. The root
itself is only ever a directory. -/
def applyEntry (root : Path) (fs : FileSystem) : TarEntry → Option Err × FileSystem
  | .dir rel perm =>
    match Lstat fs (root ++ rel) with
    | some inode =>
      if inode.typ = .dir then (none, setPerm fs (root ++ rel) perm)
      else (none, putInode fs (root ++ rel) { typ := .dir, perm := perm, data := [] })
    | none => (none, fs ++ [(root ++ rel, { typ := .dir, perm := perm, data := [] })])
  | .file rel perm data =>
    if rel = [] then (some (.plain "invalid archive entry" false), fs)
    else (none, putInode fs (root ++ rel) { typ := .regular, perm := perm, data := data })
  | .symlink rel target =>
    if rel = [] then (some (.plain "invalid archive entry" false), fs)
    else (none, putInode fs (root ++ rel) { typ := .symlink, perm := 0o777, data := target })
  | .whiteout rel =>
    if rel = [] then (some (.plain "invalid archive entry" false), fs)
    else (none, removeTree fs (root ++ rel))
  | .damaged => (some (.plain "archive/tar: invalid tar header" false), fs)

/-- The entries of an archive applied in order; the first failure stops the
application and leaves what was written so far. -/
def applyEntries (root : Path) : List TarEntry → FileSystem → Option Err × FileSystem
  | [], fs => (none, fs)
  | entry :: entries, fs =>
    match applyEntry root fs entry with
    | (some err, fs1) => (some err, fs1)
    | (none, fs1) => applyEntries root entries fs1

/-- A layer of the pulled image, as `unpackImage` meets it: the digest and size
of its `LayerInfo`, the answer of `GetBlob`, the sizes of the reads made from
the blob while it is applied, the answer of `compression.AutoDecompress`, and
the entries of its archive. -/
structure Layer where
  digest : String
  size : Int
  getBlob : Option Err
  reads : List Nat
  decompress : Option Err
  entries : List TarEntry
deriving DecidableEq, Repr

/-- The function `applyLayer` (oci.go 266-274); a filter keeps the entries it
accepts. -/
def applyLayer (filter : Option (TarEntry → Bool)) (unpackPath : Path) (layer : Layer)
    (fs : FileSystem) : Option Err × FileSystem :=
  match layer.decompress with
  | some err => (some (.wrapf "auto-decompress failed: " err), fs)
  | none =>
    match filter with
    | none => applyEntries unpackPath layer.entries fs
    | some keep => applyEntries unpackPath (layer.entries.filter keep) fs

/-- The progress reader of `unpackImage` (progress/reader.go and oci.go
155-157): every read of `n` bytes, `total` bytes having been read by then,
emits a progress event with offset `total` and offset update `n`. -/
def emitReads : List Nat → Int → Emitter → List Event → Emitter × List Event
  | [], _, b, sent => (b, sent)
  | n :: reads, total, b, sent =>
    emitReads reads (total + n) ((b.WithProgress (total + n) n).Progress)
      (((b.WithProgress (total + n) n).Progress).Emit sent)

/-- The image behind the layout reference: the answers of `NewImage` and
`NewImageSource`, the layers of `LayerInfos` in manifest order, and the answer
of `Close`. -/
structure PulledImage where
  newImage : Option Err
  newImageSource : Option Err
  layers : List Layer
  close : Option Err
deriving DecidableEq, Repr

/-- The state of the loop of `unpackImage` over the layers: the error of the
failing layer (or a panic), the emitter, the file system, what was sent, the
layers handed to `applyLayer` so far, and the file system after each of them. -/
structure LayerLoop where
  result : Ret (Option Err)
  emitter : Emitter
  fs : FileSystem
  sent : List Event
  applied : List Layer
  states : List FileSystem

/-- The loop of `unpackImage` over `img.LayerInfos()` (oci.go 146-166), without
the cleanup: layer `i` is fetched and applied, and the first error ends the
loop. -/
def applyLayers (filter : Option (TarEntry → Bool)) (unpackPath : Path) :
    Nat → List Layer → Emitter → FileSystem → List Event → List Layer → List FileSystem →
    LayerLoop
  | _, [], b, fs, sent, applied, states =>
    { result := .ok none, emitter := b, fs := fs, sent := sent, applied := applied,
      states := states }
  | i, layerInfo :: layers, b, fs, sent, applied, states =>
    if layerInfo.digest.length < 15 then
      { result := .panic .sliceOutOfRange, emitter := b, fs := fs, sent := sent,
        applied := applied, states := states }
    else
      let b1 := (b.WithSubjectID ((layerInfo.digest.drop 7).take 8)).WithSize layerInfo.size
      match layerInfo.getBlob with
      | some err =>
        { result := .ok (some (.wrapf ("error getting blob for layer[" ++ toString i ++ "]: ") err)),
          emitter := b1, fs := fs, sent := sent, applied := applied, states := states }
      | none =>
        let read := emitReads layerInfo.reads 0 b1 sent
        match applyLayer filter unpackPath layerInfo fs with
        | (some err, fs1) =>
          { result := .ok (some (.wrapf ("error applying layer[" ++ toString i ++ "]: ") err)),
            emitter := read.1, fs := fs1, sent := read.2, applied := applied ++ [layerInfo],
            states := states ++ [fs1] }
        | (none, fs1) =>
          applyLayers filter unpackPath (i + 1) layers read.1 fs1 read.2
            (applied ++ [layerInfo]) (states ++ [fs1])

/-- The Go call `errors.Join(err, cleanupErr)` with `err` not nil. -/
def joinErrs (err : Err) (cleanupErr : Option Err) : Err :=
  match cleanupErr with
  | some c => .join err c
  | none => .joinOne err

/-- The struct `OCIUnpacker`: the answer of its source-context function and its
archive filter (nil is `none`). -/
structure OCIUnpacker where
  SourceContextFunc : Option Err
  ArchiveFilter : Option (TarEntry → Bool)

/-- What a call of `unpackImage` leaves behind: how it ended, the file system,
what was sent on the progress channel, the layers handed to `applyLayer` in
order, and the file system after each step that wrote to it. -/
structure ImageRun where
  outcome : Outcome
  fs : FileSystem
  sent : List Event
  applied : List Layer
  states : List FileSystem

/-- The deferred `img.Close()` of `unpackImage` (oci.go 124-128): an error of
`Close` turns the return into a panic. -/
def closing (img : PulledImage) (outcome : Outcome) : Outcome :=
  match img.close with
  | some err => .panicked (.closeFailed err)
  | none => outcome

/-- The method `OCIUnpacker.unpackImage` (oci.go 119-172). The emitter arrives
by value. The receiver of the deferred `Emit` (oci.go 145) is built when the
`defer` statement runs, so the emitter is set to Done there and whatever event
it holds when the function returns is sent once more. -/
def OCIUnpacker.unpackImage (i : OCIUnpacker) (faults : Faults) (unpackPath : Path)
    (img : PulledImage) (progressEmitter : Emitter) (sent : List Event) (fs : FileSystem) :
    ImageRun :=
  match img.newImage with
  | some err =>
    { outcome := .returned (some (.wrapf "error reading image: " err)), fs := fs, sent := sent,
      applied := [], states := [] }
  | none =>
    match img.newImageSource with
    | some err =>
      { outcome := closing img (.returned (some (.wrapf "error creating image source: " err))),
        fs := fs, sent := sent, applied := [], states := [] }
    | none =>
      match MkdirAll faults fs unpackPath 0o700 with
      | (some err, fs1) =>
        { outcome :=
            closing img (.returned (some (.wrapf "error creating unpack directory: " err))),
          fs := fs1, sent := sent, applied := [], states := [fs1] }
      | (none, fs1) =>
        let b := ((progressEmitter.NewTask TaskIDOCIUnpack).WithSize 0).WithSubjectID ""
        let sent1 := b.Emit sent
        let b := ((b.WithSubjectID "").WithProgress 0 0).Done
        let loop := applyLayers i.ArchiveFilter unpackPath 0 img.layers b fs1 sent1 [] [fs1]
        match loop.result with
        | .panic p =>
          { outcome := closing img (.panicked p), fs := loop.fs,
            sent := loop.emitter.Emit loop.sent, applied := loop.applied, states := loop.states }
        | .ok (some err) =>
          let cleaned := deleteRecursive faults loop.fs unpackPath
          { outcome := closing img (.returned (some (joinErrs err cleaned.1))),
            fs := cleaned.2, sent := loop.emitter.Emit loop.sent, applied := loop.applied,
            states := loop.states ++ [cleaned.2] }
        | .ok none =>
          let b2 := ((loop.emitter.NewTask TaskIDOCIUnpack).WithSubjectID "").Done
          let sent2 := b2.Emit loop.sent
          match setReadOnlyRecursive faults loop.fs unpackPath with
          | (some err, fs2) =>
            { outcome := closing img
                (.returned (some (.wrapf "error making unpack directory read-only: " err))),
              fs := fs2, sent := b2.Emit sent2, applied := loop.applied,
              states := loop.states ++ [fs2] }
          | (none, fs2) =>
            { outcome := closing img (.returned none), fs := fs2, sent := b2.Emit sent2,
              applied := loop.applied, states := loop.states ++ [fs2] }

/-- An image reference (`reference.Named`); it is canonical
(`reference.Canonical`) when it carries a digest. -/
structure ImageRef where
  name : String
  digest : Option String
deriving DecidableEq, Repr

/-- What lies outside the destination directory, by its answers: the registry
(`docker.NewReference`, `NewImageSource`, `GetManifest`, `manifest.Digest`,
`reference.WithDigest`), the temporary OCI layout (`os.MkdirTemp`,
`layout.NewReference`), the signature policy, `copy.Image`, and the image that
was pulled. -/
structure Registry where
  newReference : Option Err
  newImageSource : Option Err
  getManifest : Option Err
  manifestDigest : Except Err String
  withDigest : Option Err
  mkdirTemp : Option Err
  layoutReference : Option Err
  policy : Option Err
  copyImage : Option Err
  image : PulledImage

/-- A remote access: the opening of the image source on the registry, the fetch
of the manifest, the pull of the image. -/
inductive Access where
  | imageSource
  | manifest
  | pull
deriving DecidableEq, Repr

/-- The function `resolveCanonicalRef` (oci.go 341-370): the digest of the
canonical reference or the error, and the remote accesses made. -/
def resolveCanonicalRef (registry : Registry) (imgRef : ImageRef) :
    Except Err String × List Access :=
  match imgRef.digest with
  | some digest => (.ok digest, [])
  | none =>
    match registry.newReference with
    | some err => (.error (.terminal (.wrapf "error creating reference: " err)), [])
    | none =>
      match registry.newImageSource with
      | some err => (.error (.wrapf "error creating image source: " err), [.imageSource])
      | none =>
        match registry.getManifest with
        | some err =>
          (.error (.wrapf "error getting manifest: " err), [.imageSource, .manifest])
        | none =>
          match registry.manifestDigest with
          | .error err =>
            (.error (.wrapf "error getting digest of manifest: " err), [.imageSource, .manifest])
          | .ok digest =>
            match registry.withDigest with
            | some err =>
              (.error (.wrapf "error creating canonical reference: " err),
                [.imageSource, .manifest])
            | none => (.ok digest, [.imageSource, .manifest])

/-- The function `pullImage` (oci.go 174-253), with its own copy of the emitter:
the events of the task Pull it sends itself, the error of `copy.Image`, and
the remote accesses. The events that the goroutine relays from `copy.Image`
while the copy runs are left out. -/
def pullImage (registry : Registry) (progressEmitter : Emitter) (sent : List Event) :
    Option Err × List Event × List Access :=
  match registry.policy with
  | some err => (some (.wrapf "error loading policy context: " err), sent, [])
  | none =>
    let b := (progressEmitter.NewTask TaskIDOCIPull).WithSize 0
    (registry.copyImage, b.Done.Emit (b.Emit sent), [.pull])

/-- What a call of `OCIUnpacker.Unpack` leaves behind: how it ended, the file
system, what was sent on the progress channel, the remote accesses, the layers
handed to `applyLayer`, and the file system after each step that wrote to it. -/
structure OCIRun where
  outcome : Outcome
  fs : FileSystem
  sent : List Event
  accesses : List Access
  applied : List Layer
  states : List FileSystem

/-- The method `OCIUnpacker.Unpack` (oci.go 38-117). The temporary layout
directory lives outside the file system of the model. -/
def OCIUnpacker.Unpack (i : OCIUnpacker) (faults : Faults) (registry : Registry)
    (imgRef : ImageRef) (dest : Path) (opts : Option Options) (fs : FileSystem) : OCIRun :=
  match i.SourceContextFunc with
  | some err =>
    { outcome := .returned (some err), fs := fs, sent := [], accesses := [], applied := [],
      states := [] }
  | none =>
    match opts with
    | none =>
      { outcome := .panicked .nilDereference, fs := fs, sent := [], accesses := [],
        applied := [], states := [] }
    | some opts =>
      let progressEmitter : Emitter := { Event := Event.zero, ProgressChan := opts.ProgressChan }
      let progressEmitter := (progressEmitter.NewTask TaskIDOCIResolve).WithSize (-1)
      let sent := progressEmitter.Emit []
      match resolveCanonicalRef registry imgRef with
      | (.error err, accesses) =>
        { outcome := .returned (some err), fs := fs, sent := sent, accesses := accesses,
          applied := [], states := [] }
      | (.ok digest, accesses) =>
        let progressEmitter := progressEmitter.Done
        let sent := progressEmitter.Emit sent
        let unpackPath := dest ++ [digest]
        match Lstat fs unpackPath with
        | some unpackStat =>
          if unpackStat.typ ≠ .dir then
            { outcome := .panicked (.unexpectedFile unpackPath), fs := fs, sent := sent,
              accesses := accesses, applied := [], states := [] }
          else
            let progressEmitter := (progressEmitter.NewTask TaskIDOCIPull).Skip
            let sent := progressEmitter.Emit sent
            let progressEmitter := (progressEmitter.NewTask TaskIDOCIUnpack).Skip
            let sent := progressEmitter.Emit sent
            { outcome := .returned none, fs := fs, sent := sent, accesses := accesses,
              applied := [], states := [] }
        | none =>
          match registry.newReference with
          | some err =>
            { outcome := .returned (some (.wrapf "error creating source reference: " err)),
              fs := fs, sent := sent, accesses := accesses, applied := [], states := [] }
          | none =>
            match registry.mkdirTemp with
            | some err =>
              { outcome := .returned (some (.wrapf "error creating temporary directory: " err)),
                fs := fs, sent := sent, accesses := accesses, applied := [], states := [] }
            | none =>
              match registry.layoutReference with
              | some err =>
                { outcome := .returned (some (.wrapf "error creating reference: " err)),
                  fs := fs, sent := sent, accesses := accesses, applied := [], states := [] }
              | none =>
                match pullImage registry progressEmitter sent with
                | (some err, sent1, pulled) =>
                  { outcome := .returned (some err), fs := fs, sent := sent1,
                    accesses := accesses ++ pulled, applied := [], states := [] }
                | (none, sent1, pulled) =>
                  let unpacked := i.unpackImage faults unpackPath registry.image
                    progressEmitter sent1 fs
                  { outcome := unpacked.outcome, fs := unpacked.fs, sent := unpacked.sent,
                    accesses := accesses ++ pulled, applied := unpacked.applied,
                    states := unpacked.states }

/-- The digest of the example image. -/
def exampleDigest : String :=
  "sha256:1111111111111111111111111111111111111111111111111111111111111111"

/-- A layer that creates the directory `bin` and the file `bin/tool`. -/
def layerA : Layer :=
  { digest := "sha256:aaaaaaaaaaaaaaaaaaaaaaaaaaaaaaaaaaaaaaaaaaaaaaaaaaaaaaaaaaaaaaaa"
    size := 2, getBlob := none, reads := [2], decompress := none
    entries := [.dir ["bin"] 0o755, .file ["bin", "tool"] 0o755 [1, 2]] }

/-- A layer that deletes the file `bin/tool` and adds the file `README`. -/
def layerB : Layer :=
  { digest := "sha256:bbbbbbbbbbbbbbbbbbbbbbbbbbbbbbbbbbbbbbbbbbbbbbbbbbbbbbbbbbbbbbbb"
    size := 1, getBlob := none, reads := [1], decompress := none
    entries := [.whiteout ["bin", "tool"], .file ["README"] 0o644 [3]] }

/-- A layer whose archive breaks after its first entry. -/
def layerBroken : Layer :=
  { digest := "sha256:cccccccccccccccccccccccccccccccccccccccccccccccccccccccccccccccc"
    size := 1, getBlob := none, reads := [1], decompress := none
    entries := [.file ["partial"] 0o644 [4], .damaged] }

/-- An image with the given layers that opens and closes without error. -/
def imageOf (layers : List Layer) : PulledImage :=
  { newImage := none, newImageSource := none, layers := layers, close := none }

/-- A registry that answers every request without error and serves the image
with the given layers. -/
def registryOf (layers : List Layer) : Registry :=
  { newReference := none, newImageSource := none, getManifest := none,
    manifestDigest := .ok exampleDigest, withDigest := none, mkdirTemp := none,
    layoutReference := none, policy := none, copyImage := none, image := imageOf layers }

/-- An unpacker without archive filter whose source-context function succeeds. -/
def plainUnpacker : OCIUnpacker :=
  { SourceContextFunc := none, ArchiveFilter := none }

/-- The destination directory of the examples. -/
def exampleDest : Path := ["var", "cache", "unpack"]

/-- A file system in which the destination directory exists and is empty. -/
def emptyDest : FileSystem :=
  [(["var"], { typ := .dir, perm := 0o755, data := [] }),
   (["var", "cache"], { typ := .dir, perm := 0o755, data := [] }),
   (["var", "cache", "unpack"], { typ := .dir, perm := 0o700, data := [] })]

/-- The example image reference, pinned to its digest. -/
def pinnedRef : ImageRef :=
  { name := "quay.io/example/catalog", digest := some exampleDigest }

/-- The example image reference by tag. -/
def taggedRef : ImageRef :=
  { name := "quay.io/example/catalog:latest", digest := none }

/-- Options with a progress channel. -/
def withChannel : Option Options := some { ProgressChan := some ⟨1⟩ }

/-! ## The web registry (pkg/source/website.go) -/

/-- The constant `time.Second`. -/
def Second : Int := 1000000000

/-- The method `Time.Truncate` for a positive duration: the instant rounded
down to a multiple of `d` since the zero time. -/
def Time.Truncate (t : Time) (d : Int) : Time :=
  ⟨t.nanos - t.nanos % d⟩

/-- The function `filepath.Join` on a directory and a name, both by their
elements: the elements are joined and the result is cleaned as `filepath.Clean`
does for a rooted path, where empty elements and `.` are dropped and `..`
removes the element before it (at the root, nothing). -/
def filepathJoin (dest : Path) (name : List String) : Path :=
  (dest ++ name).foldl
    (fun acc elem =>
      if elem = "" ∨ elem = "." then acc
      else if elem = ".." then acc.dropLast
      else acc ++ [elem]) []

/-- The elements of a name are plain: none is empty, `.` or `..`. -/
def plainElements (name : List String) : Prop :=
  ∀ elem ∈ name, elem ≠ "" ∧ elem ≠ "." ∧ elem ≠ ".."

/-- The elements of a path that is given as a string: what stands between its
separators `/`. -/
def splitElements : List Char → List (List Char)
  | [] => [[]]
  | c :: cs =>
    if c = '/' then [] :: splitElements cs
    else
      match splitElements cs with
      | [] => [[c]]
      | elem :: elems => (c :: elem) :: elems

/-- The elements of a string argument of `filepath.Join`. -/
def pathElements (name : String) : List String :=
  (splitElements name.toList).map String.mk

/-- A name is one plain path element: it has no separator and is not empty,
`.` or `..`. The name of a Kubernetes object and a digest `sha256:<hex>` are
such names. -/
def plainName (name : String) : Prop :=
  '/' ∉ name.toList ∧ name ≠ "" ∧ name ≠ "." ∧ name ≠ ".."

instance (name : String) : Decidable (plainName name) := by
  unfold plainName
  infer_instance

/-- The struct `WebRegistry`; the base cache path is an absolute path, given by
its elements from the root. -/
structure WebRegistry where
  BaseCachePath : Path
deriving DecidableEq, Repr

/-- The method `WebRegistry.catalogPath` (website.go 157-159):
`filepath.Join(w.BaseCachePath, catalogName)`. -/
def WebRegistry.catalogPath (w : WebRegistry) (catalogName : String) : Path :=
  filepathJoin w.BaseCachePath (pathElements catalogName)

/-- The method `WebRegistry.unpackPath` (website.go 161-163):
`filepath.Join(w.catalogPath(catalogName), digest)`. -/
def WebRegistry.unpackPath (w : WebRegistry) (catalogName : String) (digest : String) : Path :=
  filepathJoin (w.catalogPath catalogName) (pathElements digest)

/-- Modelled from the spec: the helper `deleteRecursive` of package `source`,
which is not under src/; it is taken to be the function of the same name in
unpacker/oci.go (320-339): restore write permission, then remove. -/
def sourceDeleteRecursive (faults : Faults) (fs : FileSystem) (root : Path) :
    Option Err × FileSystem :=
  deleteRecursive faults fs root

/-- The method `WebRegistry.Cleanup` (website.go 150-155): the whole directory
of the catalog is deleted. -/
def WebRegistry.Cleanup (w : WebRegistry) (faults : Faults) (fs : FileSystem)
    (catalog : ClusterCatalog) : Option Err × FileSystem :=
  match sourceDeleteRecursive faults fs (w.catalogPath catalog.name) with
  | (some err, fs1) => (some (.wrapf "error deleting catalog cache: " err), fs1)
  | (none, fs1) => (none, fs1)

/-- The loop of `deleteOtherCatalogs` over the entries of the catalog directory
(website.go 171-179). The name of a directory entry is one plain element, and
the path of the catalog comes cleaned from `filepath.Join`, so that
`filepath.Join(catalogPath, imgDir.Name())` appends the name. -/
def deleteOthers (faults : Faults) (catalogPath : Path) (digestToKeep : String) :
    List String → FileSystem → Option Err × FileSystem
  | [], fs => (none, fs)
  | imgDir :: imgDirs, fs =>
    if imgDir = digestToKeep then deleteOthers faults catalogPath digestToKeep imgDirs fs
    else
      match sourceDeleteRecursive faults fs (catalogPath ++ [imgDir]) with
      | (some err, fs1) => (some (.wrapf "error removing image directory: " err), fs1)
      | (none, fs1) => deleteOthers faults catalogPath digestToKeep imgDirs fs1

/-- The method `WebRegistry.deleteOtherCatalogs` (website.go 165-181). -/
def WebRegistry.deleteOtherCatalogs (w : WebRegistry) (faults : Faults) (fs : FileSystem)
    (catalogName : String) (digestToKeep : String) : Option Err × FileSystem :=
  match ReadDir faults fs (w.catalogPath catalogName) with
  | .error err => (some (.wrapf "error reading image directories: " err), fs)
  | .ok imgDirs => deleteOthers faults (w.catalogPath catalogName) digestToKeep imgDirs fs

/-- The function `saveWebCatalog` (website.go 276-313): the downloaded content
is copied to `catalog.yaml` in the entry directory unless that file is there
already. `modTime` is the modification time the file system reports. -/
def saveWebCatalog (faults : Faults) (modTime : Time) (content : Bytes) (destDirPath : Path)
    (fs : FileSystem) : Except Err Time × FileSystem :=
  match MkdirAll faults fs destDirPath 0o700 with
  | (some err, fs1) => (.error (.wrapf "error creating catalog directory: " err), fs1)
  | (none, fs1) =>
    let destFilePath := destDirPath ++ ["catalog.yaml"]
    match Lstat fs1 destFilePath with
    | some _ => (.ok modTime, fs1)
    | none =>
      match Create faults fs1 destFilePath with
      | (some err, fs2) => (.error (.wrapf "error opening catalog json file: " err), fs2)
      | (none, fs2) =>
        if faults (.write destFilePath) then
          (.error (.wrapf "error copying catalog json file: " faultErr), fs2)
        else (.ok modTime, setData fs2 destFilePath content)

/-- What lies outside the cache directory of the web registry, by its answers:
the URL functions, the download into the temporary file (`downloadCatalog`),
the validation of the content, its SHA-256 digest, the modification time the
file system reports for the entry, and the clock. The temporary directory
`os.TempDir()/catalogs/<name>` and the file `downloadCatalog` writes there
(website.go 254-268), which stay behind whatever `Unpack` returns, are on this
side: the file system that `WebRegistry.Unpack` passes on leaves
`os.TempDir()` out, and nothing is said here about what lies below it. -/
structure WebFetch where
  joinPath : Except Err String
  parse : Option Err
  download : Except Err Bytes
  validate : Option Err
  sha256 : Except Err String
  modTime : Time
  now : Time

/-- What a call of `WebRegistry.Unpack` leaves behind: the result and error it
returns (or its panic), and the file system. -/
structure WebRun where
  result : Ret (Option Result × Option Err)
  fs : FileSystem

/-- The result `WebRegistry.Unpack` returns on success (website.go 93-112 and
128-147). -/
def webResult (fetch : WebFetch) (fs : FileSystem) (unpackDirPath : Path)
    (catalogUrl : String) (contentDigest : String) : Result :=
  { fs := some ⟨match ReadDir noFaults fs unpackDirPath with
                | .ok names => some names
                | .error _ => none⟩
    resolvedSource := some { type := SourceTypeWeb, image := none,
                             web := some { url := catalogUrl, digest := contentDigest } }
    state := StateUnpacked
    message := "unpacked " ++ contentDigest ++ " successfully"
    unpackTime := fetch.modTime.Truncate Second
    lastSuccessfulPollAttempt := fetch.now.Truncate Second }

/-- The method `WebRegistry.Unpack` (website.go 55-148). -/
def WebRegistry.Unpack (w : WebRegistry) (faults : Faults) (fetch : WebFetch)
    (catalog : ClusterCatalog) (fs : FileSystem) : WebRun :=
  if catalog.spec.source.type ≠ SourceTypeWeb then
    { result := .panic (.programmerError catalog.spec.source.type), fs := fs }
  else
    match catalog.spec.source.web with
    | none =>
      { result := .ok (none, some (.terminal (.plain
          ("error parsing catalog, catalog " ++ catalog.name ++ " has a nil image source")
          false))),
        fs := fs }
    | some web =>
      match fetch.joinPath with
      | .error err =>
        { result := .ok (none, some (.terminal
            (.wrapf ("invalid catalog URL " ++ web.url ++ ": ") err))),
          fs := fs }
      | .ok catalogUrl =>
        match fetch.parse with
        | some err =>
          { result := .ok (none, some (.terminal
              (.wrapf ("invalid catalog URL " ++ catalogUrl ++ ": ") err))),
            fs := fs }
        | none =>
          match fetch.download with
          | .error err =>
            { result := .ok (none, some (.wrapf "error downloading catalog: " err)), fs := fs }
          | .ok content =>
            match fetch.validate with
            | some err =>
              { result := .ok (none, some (.wrapf "error validating catalog content: " err)),
                fs := fs }
            | none =>
              match fetch.sha256 with
              | .error err =>
                { result := .ok (none, some
                    (.wrapf "error computing contentDigest of catalog content: " err)),
                  fs := fs }
              | .ok contentDigest =>
                let unpackDirPath := w.unpackPath catalog.name contentDigest
                match Lstat fs unpackDirPath with
                | some _ =>
                  { result := .ok
                      (some (webResult fetch fs unpackDirPath catalogUrl contentDigest), none),
                    fs := fs }
                | none =>
                  match saveWebCatalog faults fetch.modTime content unpackDirPath fs with
                  | (.error err, fs1) =>
                    let cleaned := w.Cleanup faults fs1 catalog
                    let err : Err :=
                      match cleaned.1 with
                      | some cleanupErr => .join err cleanupErr
                      | none => err
                    { result := .ok (none, some (.wrapf "error saving catalog: " err)),
                      fs := cleaned.2 }
                  | (.ok _, fs1) =>
                    match w.deleteOtherCatalogs faults fs1 catalog.name contentDigest with
                    | (some err, fs2) =>
                      { result := .ok (none, some (.wrapf "error deleting old catalogs: " err)),
                        fs := fs2 }
                    | (none, fs2) =>
                      { result := .ok
                          (some (webResult fetch fs2 unpackDirPath catalogUrl contentDigest),
                            none),
                        fs := fs2 }

/-- The cache directory of the web registry in the examples. -/
def exampleRegistry : WebRegistry := { BaseCachePath := ["var", "cache", "unpack"] }

/-- A file system in which the catalog `c0ffee00` has the entry `sha256:k1`
cached. -/
def cachedK1 : FileSystem :=
  [(["var"], { typ := .dir, perm := 0o755, data := [] }),
   (["var", "cache"], { typ := .dir, perm := 0o755, data := [] }),
   (["var", "cache", "unpack"], { typ := .dir, perm := 0o700, data := [] }),
   (["var", "cache", "unpack", "c0ffee00"], { typ := .dir, perm := 0o700, data := [] }),
   (["var", "cache", "unpack", "c0ffee00", "sha256:k1"],
     { typ := .dir, perm := 0o700, data := [] }),
   (["var", "cache", "unpack", "c0ffee00", "sha256:k1", "catalog.yaml"],
     { typ := .regular, perm := 0o666, data := [107, 49] })]

/-- A file system in which the catalog `c0ffee00` has both `sha256:k1` and
`sha256:k2` cached. -/
def cachedK1K2 : FileSystem :=
  cachedK1 ++
  [(["var", "cache", "unpack", "c0ffee00", "sha256:k2"],
     { typ := .dir, perm := 0o700, data := [] }),
   (["var", "cache", "unpack", "c0ffee00", "sha256:k2", "catalog.yaml"],
     { typ := .regular, perm := 0o666, data := [107, 50] })]

/-- A fetch in which every step outside the cache succeeds and the content has
the digest `sha256:k2`. -/
def fetchK2 : WebFetch :=
  { joinPath := .ok "https://example.com/catalog/catalog.yaml", parse := none,
    download := .ok [107, 50], validate := none, sha256 := .ok "sha256:k2",
    modTime := ⟨7000000000⟩, now := ⟨9000000000⟩ }

/-- An inode as `setReadOnlyRecursive` leaves it: a directory with mode 0500, a
regular file with mode 0400, anything else as it was. -/
def sealed (inode : Inode) : Inode :=
  match inode.typ with
  | .dir => { inode with perm := 0o500 }
  | .regular => { inode with perm := 0o400 }
  | _ => inode

/-- A tree with a directory, a regular file, a symbolic link that points out of
the tree, and the file it points to. -/
def mixedTree : FileSystem :=
  [(["opt"], { typ := .dir, perm := 0o755, data := [] }),
   (["opt", "secret"], { typ := .regular, perm := 0o600, data := [9] }),
   (["entry"], { typ := .dir, perm := 0o700, data := [] }),
   (["entry", "bin"], { typ := .dir, perm := 0o755, data := [] }),
   (["entry", "bin", "tool"], { typ := .regular, perm := 0o755, data := [1, 2] }),
   (["entry", "link"], { typ := .symlink, perm := 0o777, data := [47, 111, 112, 116] })]

/-- The tree after the layers of a list were applied one after the other: the
left fold of `applyLayer` over the list. -/
def foldLayers (filter : Option (TarEntry → Bool)) (unpackPath : Path) (layers : List Layer)
    (fs : FileSystem) : FileSystem :=
  layers.foldl (fun tree layer => (applyLayer filter unpackPath layer tree).2) fs

/-- Whether every layer of a list can be fetched and applied, one after the
other, on the tree the layers before it left. -/
def layersSucceed (filter : Option (TarEntry → Bool)) (unpackPath : Path) :
    List Layer → FileSystem → Bool
  | [], _ => true
  | layer :: layers, fs =>
    decide (15 ≤ layer.digest.length) && layer.getBlob.isNone
      && (applyLayer filter unpackPath layer fs).1.isNone
      && layersSucceed filter unpackPath layers (applyLayer filter unpackPath layer fs).2

/-- The file system after the image with the layers A and B was unpacked for the
pinned reference into the empty destination. -/
def unpackedDest : FileSystem :=
  (plainUnpacker.Unpack noFaults (registryOf [layerA, layerB]) pinnedRef exampleDest
    (some { ProgressChan := none }) emptyDest).fs

/-! ## Bundle sources (pkg/runtime/source/bundle.go) -/

namespace source

/-- A `property.Property` of operator-registry: its type and its raw JSON
value. -/
structure Property where
  type : String
  value : String
deriving DecidableEq, Repr

/-- A `declcfg.Bundle`, with the fields `BundleSourceFromBundle` reads. -/
structure Bundle where
  image : String
  properties : List Property
deriving DecidableEq, Repr

/-- The constant `SourceTypeImage` (bundle.go 16). -/
def SourceTypeImage : String := "image"

/-- The constant `SourceTypeHelm` (bundle.go 17). -/
def SourceTypeHelm : String := "helm"

/-- The struct `ImageSource` (bundle.go 20-23). -/
structure ImageSource where
  ref : String
deriving DecidableEq, Repr

/-- The struct `HelmSource` (bundle.go 25-28). -/
structure HelmSource where
  ref : String
deriving DecidableEq, Repr

/-- The struct `BundleSource` (bundle.go 82-89). -/
structure BundleSource where
  name : String
  type : String
  image : Option ImageSource
  helmChart : Option HelmSource
deriving DecidableEq, Repr

/-- Modelled from the spec: `filter.Filter` of the package
pkg/catalogmetadata/filter, which is not under src/: the elements the
predicate accepts, in their order. -/
def Filter {α : Type} (xs : List α) (keep : α → Bool) : List α :=
  xs.filter keep

/-- The function `BundleSourceFromBundle` (bundle.go 91-133). `unmarshal` is
`json.Unmarshal` into a string. The index expression
`contentTypeProperties[0]` panics when the slice is empty. -/
def BundleSourceFromBundle (unmarshal : String → Except Err String) (b : Option Bundle) :
    Ret (Option BundleSource × Option Err) :=
  match b with
  | none => .ok (none, some (.plain "bundle is nil" false))
  | some b =>
    let contentTypeProperties :=
      Filter b.properties (fun p => decide (p.type = "olm.content-type"))
    if contentTypeProperties.length > 1 then
      .ok (none, some (.plain "bundle contains more than one content type properties" false))
    else if contentTypeProperties.length = 0 then
      match contentTypeProperties.get? 0 with
      | none => .panic (.indexOutOfRange 0 contentTypeProperties.length)
      | some p =>
        match unmarshal p.value with
        | .error err =>
          .ok (none, some (.wrapf "error unmarshalling package property: " err))
        | .ok contentType =>
          if contentType = "" then
            .ok (none, some (.plain "bundle does not contain a content type property" false))
          else if contentType = "helm" then
            .ok (some { name := "", type := SourceTypeHelm, image := none,
                        helmChart := some { ref := b.image } }, none)
          else
            .ok (none, some (.plain ("unknown content type \"" ++ contentType ++ "\"") false))
    else
      .ok (some { name := "", type := SourceTypeImage, image := some { ref := b.image },
                  helmChart := none }, none)

/-- A bundle without properties. -/
def plainBundle : Bundle :=
  { image := "quay.io/example/bundle:v1", properties := [] }

/-- A bundle whose one content-type property says helm. -/
def helmBundle : Bundle :=
  { image := "oci://quay.io/example/chart:1.0.0",
    properties := [{ type := "olm.package", value := "x" },
                   { type := "olm.content-type", value := "\"helm\"" }] }

end source

/-! ## Deprecation conditions (pkg/runtime/common.go) -/

/-- Modelled from the spec: the condition type `ocv1.TypeDeprecated` of the
operator-controller API package, whose declaration is not under src/. -/
def TypeDeprecated : String := "Deprecated"

/-- Modelled from the spec: the condition type `ocv1.TypePackageDeprecated`. -/
def TypePackageDeprecated : String := "PackageDeprecated"

/-- Modelled from the spec: the condition type `ocv1.TypeChannelDeprecated`. -/
def TypeChannelDeprecated : String := "ChannelDeprecated"

/-- Modelled from the spec: the condition type `ocv1.TypeBundleDeprecated`. -/
def TypeBundleDeprecated : String := "BundleDeprecated"

/-- Modelled from the spec: the condition reason `ocv1.ReasonDeprecated`. -/
def ReasonDeprecated : String := "Deprecated"

/-- Modelled from the spec: the schema `declcfg.SchemaPackage` of
operator-registry. -/
def SchemaPackage : String := "olm.package"

/-- Modelled from the spec: the schema `declcfg.SchemaChannel`. -/
def SchemaChannel : String := "olm.channel"

/-- Modelled from the spec: the schema `declcfg.SchemaBundle`. -/
def SchemaBundle : String := "olm.bundle"

/-- A `declcfg.PackageScopedReference`. -/
structure PackageScopedReference where
  schema : String
  name : String
deriving DecidableEq, Repr

/-- A `declcfg.DeprecationEntry`. -/
structure DeprecationEntry where
  reference : PackageScopedReference
  message : String
deriving DecidableEq, Repr

/-- A `declcfg.Deprecation`, with the field `SetDeprecationStatus` reads. -/
structure Deprecation where
  entries : List DeprecationEntry
deriving DecidableEq, Repr

/-- An `ocv1.CatalogFilter`, with the field `SetDeprecationStatus` reads. -/
structure CatalogFilter where
  channels : List String
deriving DecidableEq, Repr

/-- An `ocv1.ClusterExtension`, with what `SetDeprecationStatus` reads or
writes: the generation, `Spec.Source.Catalog` (nil is `none`) and
`Status.Conditions`. -/
structure ClusterExtension where
  generation : Int
  catalog : Option CatalogFilter
  conditions : List Condition
deriving DecidableEq, Repr

/-- The local map `deprecations` of `SetDeprecationStatus`, which is only ever
read or written under the three keys PackageDeprecated, ChannelDeprecated and
BundleDeprecated: the value under each key, `none` when the key is absent. -/
structure Deprecations where
  pkg : Option (List DeprecationEntry)
  channel : Option (List DeprecationEntry)
  bundle : Option (List DeprecationEntry)
deriving DecidableEq, Repr

/-- The loop of `SetDeprecationStatus` over the entries of the deprecation
(common.go 40-54). -/
def collectDeprecations (channelSet : List String) (bundleName : String) :
    List DeprecationEntry → Deprecations → Deprecations
  | [], deprecations => deprecations
  | entry :: entries, deprecations =>
    collectDeprecations channelSet bundleName entries
      (if entry.reference.schema = SchemaPackage then
        { deprecations with pkg := some [entry] }
      else if entry.reference.schema = SchemaChannel then
        if entry.reference.name ∈ channelSet then
          { deprecations with channel := some (deprecations.channel.getD [] ++ [entry]) }
        else deprecations
      else if entry.reference.schema = SchemaBundle then
        if bundleName ≠ entry.reference.name then deprecations
        else { deprecations with bundle := some [entry] }
      else deprecations)

/-- The condition `SetDeprecationStatus` sets for one of the three individual
types (common.go 90-104). -/
def deprecationCondition (conditionType : String) (entries : Option (List DeprecationEntry))
    (generation : Int) : Condition :=
  match entries with
  | some entries =>
    { type := conditionType
      status := ConditionTrue
      reason := ReasonDeprecated
      message := entries.foldl (fun message entry => message ++ "\n" ++ entry.message) ""
      observedGeneration := generation
      lastTransitionTime := ⟨0⟩ }
  | none =>
    { type := conditionType
      status := ConditionFalse
      reason := ReasonDeprecated
      message := ""
      observedGeneration := generation
      lastTransitionTime := ⟨0⟩ }

/-- The local variable `channelSet` of `SetDeprecationStatus` (common.go
33-38): the channels listed in the catalog source of the extension, none when
it has no catalog source. -/
def listedChannels (ext : ClusterExtension) : List String :=
  match ext.catalog with
  | some catalog => catalog.channels
  | none => []

/-- The local map `deprecations` of `SetDeprecationStatus` when its loop is
done (common.go 32-55). -/
def deprecationsOf (ext : ClusterExtension) (bundleName : String)
    (deprecation : Option Deprecation) : Deprecations :=
  match deprecation with
  | some deprecation =>
    collectDeprecations (listedChannels ext) bundleName deprecation.entries
      { pkg := none, channel := none, bundle := none }
  | none => { pkg := none, channel := none, bundle := none }

/-- The condition of type Deprecated that `SetDeprecationStatus` sets
(common.go 57-82). -/
def deprecatedCondition (deprecations : Deprecations) (generation : Int) : Condition :=
  let deprecationMessages : List String :=
    ((deprecations.pkg.getD []).map (fun entry => entry.message))
      ++ ((deprecations.channel.getD []).map (fun entry => entry.message))
      ++ ((deprecations.bundle.getD []).map (fun entry => entry.message))
  if deprecationMessages.length > 0 then
    { type := TypeDeprecated
      status := ConditionTrue
      reason := ReasonDeprecated
      message := ";".intercalate deprecationMessages
      observedGeneration := generation
      lastTransitionTime := ⟨0⟩ }
  else
    { type := TypeDeprecated
      status := ConditionFalse
      reason := ReasonDeprecated
      message := ""
      observedGeneration := generation
      lastTransitionTime := ⟨0⟩ }

/-- The function `SetDeprecationStatus` (common.go 29-106); the extension is
handed in by pointer and comes back as it is afterwards. -/
def SetDeprecationStatus {W : Type} (env : Env W) (w : W) (ext : ClusterExtension)
    (bundleName : String) (deprecation : Option Deprecation) : ClusterExtension × W :=
  let deprecations := deprecationsOf ext bundleName deprecation
  let r0 := SetStatusCondition env w ext.conditions
    (deprecatedCondition deprecations ext.generation)
  let r1 := SetStatusCondition env r0.2 r0.1
    (deprecationCondition TypePackageDeprecated deprecations.pkg ext.generation)
  let r2 := SetStatusCondition env r1.2 r1.1
    (deprecationCondition TypeChannelDeprecated deprecations.channel ext.generation)
  let r3 := SetStatusCondition env r2.2 r2.1
    (deprecationCondition TypeBundleDeprecated deprecations.bundle ext.generation)
  ({ ext with conditions := r3.1 }, r3.2)

/-- Whether some entry of the deprecation (none for a nil deprecation) has the
package schema. -/
def hasPackageEntry (deprecation : Option Deprecation) : Bool :=
  match deprecation with
  | some d => d.entries.any (fun e => decide (e.reference.schema = SchemaPackage))
  | none => false

/-- Whether some entry of the channel schema names a channel listed in the
catalog source of the extension. -/
def hasChannelEntry (ext : ClusterExtension) (deprecation : Option Deprecation) : Bool :=
  match deprecation with
  | some d =>
    d.entries.any (fun e => decide (e.reference.schema = SchemaChannel
      ∧ e.reference.name ∈ listedChannels ext))
  | none => false

/-- Whether some entry of the bundle schema names the given bundle. -/
def hasBundleEntry (bundleName : String) (deprecation : Option Deprecation) : Bool :=
  match deprecation with
  | some d =>
    d.entries.any (fun e => decide (e.reference.schema = SchemaBundle
      ∧ e.reference.name = bundleName))
  | none => false

/-- A key of the map `deprecations` never holds an empty list. -/
def keysNonempty (d : Deprecations) : Prop :=
  d.pkg ≠ some [] ∧ d.channel ≠ some [] ∧ d.bundle ≠ some []

/-- An extension of generation 3 that follows the channel `stable`; its status
holds one condition, Deprecated with status False, set at generation 2. -/
def stableExtension : ClusterExtension :=
  { generation := 3, catalog := some { channels := ["stable"] },
    conditions :=
      [{ type := TypeDeprecated, status := ConditionFalse, observedGeneration := 2,
         lastTransitionTime := ⟨500⟩, reason := ReasonDeprecated, message := "" }] }

/-- A deprecation with an entry for the channel `stable`, one for the channel
`alpha` and one for the bundle `operator.v1.0.0`. -/
def exampleDeprecation : Deprecation :=
  { entries :=
      [{ reference := { schema := SchemaChannel, name := "stable" }, message := "use fast" },
       { reference := { schema := SchemaChannel, name := "alpha" }, message := "alpha is gone" },
       { reference := { schema := SchemaBundle, name := "operator.v1.0.0" },
         message := "v1.0.0 is broken" }] }

/-! ## The download of a web catalog (pkg/source/website.go 211-274) -/

/-- The function `io.ReadAll` on a reader: the bytes up to `io.EOF`, or the
error of the read that fails. -/
def readAll : Reader → Except Err Bytes
  | [] => .ok []
  | step :: rest =>
    match step.status with
    | .eof => .ok step.data
    | .failed err => .error err
    | .more =>
      match readAll rest with
      | .ok data => .ok (step.data ++ data)
      | .error err => .error err

/-- What the temporary directory answers to `downloadCatalog`: `os.MkdirAll`,
`os.Create` and `io.Copy` on the temporary file, which lies outside the cache
directory. -/
structure TempDir where
  mkdirAll : Option Err
  create : Option Err
  copy : Option Err
deriving DecidableEq, Repr

/-- The function `downloadCatalog` (website.go 211-274) with its HTTP client:
the content of the temporary file it writes, or its error. The gzip stream is
opened on the body before the status code is looked at. -/
def downloadCatalog (client : HTTPDownloader) (temp : TempDir) (catalogUrl : String) :
    Except Err Bytes :=
  match client.NewRequest catalogUrl with
  | some err => .error (.wrapf "error creating HTTP request: " err)
  | none =>
    match client.Do catalogUrl with
    | .error err => .error (.wrapf "error making GET request: " err)
    | .ok response =>
      let opened : Except Err Reader :=
        if response.gzip then
          client.gzipNewReader ((response.Body.map (fun step => step.data)).flatten)
        else .ok response.Body
      match opened with
      | .error err => .error (.wrapf "error creating gzip reader: " err)
      | .ok reader =>
        if response.StatusCode ≠ 200 then
          .error (.plain ("unexpected status code: " ++ toString response.StatusCode) false)
        else
          match readAll reader with
          | .error err => .error (.wrapf "error reading response body: " err)
          | .ok content =>
            match temp.mkdirAll with
            | some err => .error (.wrapf "error creating temp directory: " err)
            | none =>
              match temp.create with
              | some err => .error (.wrapf "error creating temp file: " err)
              | none =>
                match temp.copy with
                | some err => .error (.wrapf "error downloading catalog content: " err)
                | none => .ok content

/-- A web server that answers every request with the status 404 and a short
uncompressed body. -/
def server404 : HTTPDownloader :=
  { NewRequest := fun _ => none
    Do := fun _ =>
      .ok { StatusCode := 404, ContentLength := 9, gzip := false,
            Body := [{ data := [110, 111, 116, 32, 102, 111, 117, 110, 100], status := .eof }] }
    gzipNewReader := fun _ => .error (.plain "gzip: invalid header" false) }

/-- A temporary directory that takes every file. -/
def plainTemp : TempDir :=
  { mkdirAll := none, create := none, copy := none }

/-- The method `WebRegistry.GetContentFS` (website.go 30-53): the directory
`os.DirFS` is opened on, or the error. The reference of an image source is what
follows the first `@`; a reference without `@` has no element 1. -/
def WebRegistry.GetContentFS (w : WebRegistry) (fs : FileSystem)
    (catalog : Option ClusterCatalog) : Ret (Option Path × Option Err) :=
  match catalog with
  | none => .ok (none, some (.plain "catalog has not been sync'd yet" false))
  | some catalog =>
    match catalog.status.resolvedSource with
    | none => .ok (none, some (.plain "catalog has not been sync'd yet" false))
    | some resolved =>
      let ref : Ret String :=
        if resolved.type = SourceTypeImage then
          match resolved.image with
          | none => .panic .nilDereference
          | some image =>
            match (image.ref.splitOn "@").get? 1 with
            | some r => .ok r
            | none => .panic (.indexOutOfRange 1 (image.ref.splitOn "@").length)
        else if resolved.type = SourceTypeWeb then
          match resolved.web with
          | none => .panic .nilDereference
          | some web => .ok web.digest
        else .panic (.unsupportedSourceType resolved.type)
      match ref with
      | .panic p => .panic p
      | .ok ref =>
        let dataPath := filepathJoin w.BaseCachePath (pathElements catalog.name ++ pathElements ref)
        match Lstat fs dataPath with
        | none => .ok (none, some notExistErr)
        | some fstat =>
          if fstat.typ ≠ .dir then
            .ok (none, some (.plain ("/".intercalate dataPath ++ " is not a directory") false))
          else .ok (some dataPath, none)

/-- A file system in which a regular file lies where the entry `sha256:k2` of
the catalog `c0ffee00` would be. -/
def fileAtK2 : FileSystem :=
  [(["var"], { typ := .dir, perm := 0o755, data := [] }),
   (["var", "cache"], { typ := .dir, perm := 0o755, data := [] }),
   (["var", "cache", "unpack"], { typ := .dir, perm := 0o700, data := [] }),
   (["var", "cache", "unpack", "c0ffee00"], { typ := .dir, perm := 0o700, data := [] }),
   (["var", "cache", "unpack", "c0ffee00", "sha256:k2"],
     { typ := .regular, perm := 0o644, data := [107, 50] })]

/-- The status of a catalog whose resolved source is the web entry
`sha256:k2`. -/
def resolvedK2 : ClusterCatalogStatus :=
  { conditions := [], lastUnpacked := none,
    resolvedSource :=
      some { type := SourceTypeWeb, image := none,
             web := some { url := "https://example.com/catalog/catalog.yaml",
                           digest := "sha256:k2" } } }

/-! ## The tar.gz unpacker (pkg/runtime/source/unpacker/tgz.go) -/

/-- The type flag of a tar header, as `TarGZ.Unpack` tells the entries apart:
a directory, a regular file, or anything else. -/
inductive Typeflag where
  | dir
  | reg
  | other
deriving DecidableEq, Repr

/-- A `tar.Header` with the content that follows it: the name by its elements
between slashes (`../x` is `["..", "x"]`, a leading slash gives an empty first
element), the type flag, the mode, and the bytes of the entry. -/
structure TarHeader where
  name : List String
  typeflag : Typeflag
  mode : Nat
  body : Bytes
deriving DecidableEq, Repr

/-- The archive `TarGZ.Unpack` reads: the answers of `os.Open` and
`gzip.NewReader`, the headers `tarReader.Next` delivers in order, and the
error it returns after them (`none` for `io.EOF`). -/
structure Archive where
  openErr : Option Err
  gzipErr : Option Err
  headers : List TarHeader
  nextErr : Option Err
deriving DecidableEq, Repr

/-- The call `os.OpenFile(path, os.O_CREATE|os.O_WRONLY, perm)`: an existing
regular file is opened as it is, a missing one is created with the mode when
its parent is a directory. -/
def OpenFile (faults : Faults) (fs : FileSystem) (path : Path) (perm : Nat) :
    Option Err × FileSystem :=
  if faults (.create path) then (some faultErr, fs)
  else
    match Lstat fs path with
    | some inode =>
      if inode.typ = .regular then (none, fs)
      else (some (.plain "is a directory" false), fs)
    | none =>
      if path.dropLast = [] then
        (none, fs ++ [(path, { typ := .regular, perm := perm, data := [] })])
      else
        match Lstat fs path.dropLast with
        | none => (some notExistErr, fs)
        | some parent =>
          if parent.typ = .dir then
            (none, fs ++ [(path, { typ := .regular, perm := perm, data := [] })])
          else (some notDirErr, fs)

/-- The effect of `io.Copy` into a file opened without truncation: the bytes
replace the beginning of what the file held. -/
def overwriteData (fs : FileSystem) (path : Path) (data : Bytes) : FileSystem :=
  fs.map (fun e =>
    if e.1 = path then (e.1, { e.2 with data := data ++ e.2.data.drop data.length }) else e)

/-- The loop of `TarGZ.Unpack` over the headers of the archive (tgz.go 38-76). -/
def unpackHeaders (faults : Faults) (dest : Path) (nextErr : Option Err) :
    List TarHeader → FileSystem → Option Err × FileSystem
  | [], fs =>
    match nextErr with
    | some err => (some (.wrapf "error reading tar header: " err), fs)
    | none => (none, fs)
  | header :: headers, fs =>
    let relativePath := header.name
    let targetPath := filepathJoin dest relativePath
    match header.typeflag with
    | .dir =>
      match MkdirAll faults fs targetPath header.mode with
      | (some err, fs1) => (some (.wrapf "error creating directory: " err), fs1)
      | (none, fs1) => unpackHeaders faults dest nextErr headers fs1
    | .reg =>
      match MkdirAll faults fs targetPath.dropLast 0o700 with
      | (some err, fs1) => (some (.wrapf "error creating directory: " err), fs1)
      | (none, fs1) =>
        match OpenFile faults fs1 targetPath header.mode with
        | (some err, fs2) => (some (.wrapf "error creating file: " err), fs2)
        | (none, fs2) =>
          if faults (.write targetPath) then
            (some (.wrapf "error creating file: " faultErr), fs2)
          else unpackHeaders faults dest nextErr headers (overwriteData fs2 targetPath header.body)
    | .other => unpackHeaders faults dest nextErr headers fs

/-- The method `TarGZ.Unpack` (tgz.go 16-78); it reads neither its context nor
its options. -/
def TarGZ.Unpack (faults : Faults) (src : Archive) (dest : Path) (fs : FileSystem) :
    Option Err × FileSystem :=
  match src.openErr with
  | some err => (some (.wrapf "failed to open source: " err), fs)
  | none =>
    match src.gzipErr with
    | some err => (some (.wrapf "failed to create gzip reader: " err), fs)
    | none =>
      match MkdirAll faults fs dest 0o700 with
      | (some err, fs1) => (some (.wrapf "error creating temporary directory: " err), fs1)
      | (none, fs1) => unpackHeaders faults dest src.nextErr src.headers fs1

/-- An archive with a directory `bundle`, a file `bundle/manifest.yaml`, and a
file whose name climbs out of the destination: `../../etc/job`. -/
def climbingArchive : Archive :=
  { openErr := none, gzipErr := none, nextErr := none,
    headers :=
      [{ name := ["bundle"], typeflag := .dir, mode := 0o755, body := [] },
       { name := ["bundle", "manifest.yaml"], typeflag := .reg, mode := 0o644, body := [1, 2] },
       { name := ["..", "..", "etc", "job"], typeflag := .reg, mode := 0o755, body := [3] }] }

/-! # Theorems -/

/-! ## Poll gating -/

theorem minutesToDuration_exact (m : Int) (hlo : -153722867 ≤ m) (hhi : m ≤ 153722867) :
    minutesToDuration m = m * 60000000000 := by
  unfold minutesToDuration wrapInt64 Minute
  omega

/-- C1 (as the code has it): for a last-unpacked time T and a declared poll
interval of m minutes (web or image source, m small enough for the int64
duration not to overflow), needsPoll at time now returns true exactly when
now is strictly after T + m minutes; at now = T + m minutes exactly it returns
false. -/
theorem needsPoll_iff_strictly_after {W : Type} (env : Env W) (w : W) (T : Time) (m : Int)
    (catalog : ClusterCatalog) (hlo : -153722867 ≤ m) (hhi : m ≤ 153722867)
    (hsrc : declaresPollInterval catalog m) :
    (needsPoll env w (some T) catalog).1
        = Ret.ok (decide (T.nanos + m * 60000000000 < (env.Now w).1.nanos))
      ∧ ((env.Now w).1.nanos = T.nanos + m * 60000000000 →
          (needsPoll env w (some T) catalog).1 = Ret.ok false) := by
  have hd := minutesToDuration_exact m hlo hhi
  have key : (needsPoll env w (some T) catalog).1
      = Ret.ok (decide (T.nanos + m * 60000000000 < (env.Now w).1.nanos)) := by
    rcases hsrc with ⟨ht, hw⟩ | ⟨ht, hi⟩
    · cases hweb : catalog.spec.source.web with
      | none => simp [hweb] at hw
      | some web =>
        have hp : web.pollIntervalMinutes = some m := by simpa [hweb] using hw
        simp [needsPoll, ht, hweb, hp, hd, Time.Add, Time.Before]
    · have hne : SourceTypeImage ≠ SourceTypeWeb := by decide
      cases himg : catalog.spec.source.image with
      | none => simp [himg] at hi
      | some image =>
        have hp : image.pollIntervalMinutes = some m := by simpa [himg] using hi
        simp [needsPoll, ht, hne, himg, hp, hd, Time.Add, Time.Before]
  refine ⟨key, fun hnow => ?_⟩
  rw [key, hnow]
  simp

/-- Witness of C1: ten minutes declared on a web source, last unpacked at the
zero time; eleven minutes later a poll is due. -/
theorem needsPoll_iff_strictly_after_witness :
    (needsPoll (clockScript ⟨660000000000⟩).env () (some ⟨0⟩)
        (webCatalog (some 10) emptyStatus)).1 = Ret.ok true := by
  have h := (needsPoll_iff_strictly_after (clockScript ⟨660000000000⟩).env () ⟨0⟩ 10
    (webCatalog (some 10) emptyStatus) (by decide) (by decide) (by decide)).1
  rw [h]
  decide

/-- Counterexample to C1 as stated: with T the zero time and m = 10, at
now = T + 10 minutes exactly (so now >= T + m minutes holds) needsPoll returns
false; it is also false at T + 9 minutes and true at T + 11 minutes. -/
theorem needsPoll_at_deadline_is_false :
    (0 : Int) + 10 * Minute ≤ 600000000000
      ∧ (needsPoll (clockScript ⟨600000000000⟩).env () (some ⟨0⟩)
          (webCatalog (some 10) emptyStatus)).1 = Ret.ok false
      ∧ (needsPoll (clockScript ⟨540000000000⟩).env () (some ⟨0⟩)
          (webCatalog (some 10) emptyStatus)).1 = Ret.ok false
      ∧ (needsPoll (clockScript ⟨660000000000⟩).env () (some ⟨0⟩)
          (webCatalog (some 10) emptyStatus)).1 = Ret.ok true := by
  decide

/-! ## The decision to unpack -/

theorem unpackAndUpdate_calls {W : Type} (env : Env W) (w : W) (catalog : ClusterCatalog)
    (calls : List Call) : (unpackAndUpdate env w catalog calls).calls = calls ++ [Call.Unpack] := by
  simp only [unpackAndUpdate]
  split
  · rfl
  · split
    · rfl
    · split <;> rfl

theorem Sync_of_needsUnpack {W : Type} (env : Env W) (w : W) (catalog : ClusterCatalog)
    (hmode : catalog.spec.availabilityMode ≠ AvailabilityModeUnavailable)
    (hneeds : (needsUnpack env w catalog).1 = Ret.ok true) :
    Sync env w catalog
      = unpackAndUpdate env (needsUnpack env w catalog).2.1 catalog
          (needsUnpack env w catalog).2.2 := by
  simp [Sync, hmode, hneeds]

theorem Sync_of_not_needsUnpack {W : Type} (env : Env W) (w : W) (catalog : ClusterCatalog)
    (hmode : catalog.spec.availabilityMode ≠ AvailabilityModeUnavailable)
    (hneeds : (needsUnpack env w catalog).1 = Ret.ok false) :
    Sync env w catalog
      = { outcome := .returned none, catalog := catalog,
          world := (needsUnpack env w catalog).2.1, calls := (needsUnpack env w catalog).2.2 } := by
  simp [Sync, hmode, hneeds]

theorem getCurrentState_of_get_ok {W : Type} (env : Env W) (w : W) (catalog stored : ClusterCatalog)
    (hget : (env.Get w catalog.name).1 = (stored, none)) :
    getCurrentState env w catalog
      = (⟨clearUnknownConditions catalog.status, some stored, none⟩,
          (env.Get w catalog.name).2, [Call.Get]) := by
  have h1 : (env.Get w catalog.name).1.1 = stored := by rw [hget]
  have h2 : (env.Get w catalog.name).1.2 = none := by rw [hget]
  simp [getCurrentState, h1, h2]

theorem Sync_calls_of_needsUnpack {W : Type} (env : Env W) (w : W) (catalog : ClusterCatalog)
    (hmode : catalog.spec.availabilityMode ≠ AvailabilityModeUnavailable)
    (hneeds : (needsUnpack env w catalog).1 = Ret.ok true) :
    Call.Unpack ∈ (Sync env w catalog).calls := by
  rw [Sync_of_needsUnpack env w catalog hmode hneeds, unpackAndUpdate_calls]
  simp

/-- C2: when the store holds a record for the catalog (the lookup succeeds) and
the declared generation differs from the generation of that record, Sync on a
catalog that is not Unavailable invokes Unpack, whatever the declared status
and the poll interval are. -/
theorem Sync_unpacks_on_generation_change {W : Type} (env : Env W) (w : W)
    (catalog stored : ClusterCatalog)
    (hmode : catalog.spec.availabilityMode ≠ AvailabilityModeUnavailable)
    (hget : (env.Get w catalog.name).1 = (stored, none))
    (hgen : catalog.generation ≠ stored.generation) :
    Call.Unpack ∈ (Sync env w catalog).calls := by
  apply Sync_calls_of_needsUnpack env w catalog hmode
  unfold needsUnpack
  rw [getCurrentState_of_get_ok env w catalog stored hget]
  by_cases hst : catalog.status = clearUnknownConditions catalog.status
  · simp [← hst, hgen]
  · simp [hst]

/-- Witness of C2: the stored record has generation 1, the declared catalog
generation 2. -/
theorem Sync_unpacks_on_generation_change_witness :
    Call.Unpack ∈ (Sync (storedScript (webCatalog none (syncedStatus 1))).env ()
      { webCatalog none (syncedStatus 1) with generation := 2 }).calls :=
  Sync_unpacks_on_generation_change _ ()
    { webCatalog none (syncedStatus 1) with generation := 2 }
    (webCatalog none (syncedStatus 1)) (by decide) rfl (by decide)

/-! ## Upserting conditions -/

theorem overwriteCondition_type (now : Time) (newCondition existing : Condition) :
    (overwriteCondition now newCondition existing).type = existing.type := rfl

theorem find_modifyFirst (t : String) (f : Condition → Condition)
    (hf : ∀ c, (f c).type = c.type) (conditions : List Condition) :
    FindStatusCondition (modifyFirst t f conditions) t
      = (FindStatusCondition conditions t).map f := by
  induction conditions with
  | nil => rfl
  | cons c cs ih =>
    by_cases h : c.type = t
    · simp [modifyFirst, FindStatusCondition, h, hf]
    · have ih' := ih
      simp only [FindStatusCondition] at ih'
      simp [modifyFirst, FindStatusCondition, h, ih']

theorem filter_modifyFirst (t : String) (f : Condition → Condition)
    (hf : ∀ c, (f c).type = c.type) (p : String → Bool) (hp : p t = false)
    (conditions : List Condition) :
    (modifyFirst t f conditions).filter (fun c => p c.type)
      = conditions.filter (fun c => p c.type) := by
  induction conditions with
  | nil => rfl
  | cons c cs ih =>
    by_cases h : c.type = t
    · simp [modifyFirst, h, hf, hp, List.filter_cons]
    · simp [modifyFirst, h, ih, List.filter_cons]

theorem length_filter_modifyFirst (t : String) (f : Condition → Condition)
    (hf : ∀ c, (f c).type = c.type) (p : String → Bool) (conditions : List Condition) :
    ((modifyFirst t f conditions).filter (fun c => p c.type)).length
      = (conditions.filter (fun c => p c.type)).length := by
  induction conditions with
  | nil => rfl
  | cons c cs ih =>
    by_cases h : c.type = t
    · by_cases hpt : p t <;> simp [modifyFirst, h, hf, hpt, List.filter_cons]
    · by_cases hpc : p c.type <;> simp [modifyFirst, h, ih, hpc, List.filter_cons]

theorem modifyFirst_id (t : String) (f : Condition → Condition) (conditions : List Condition)
    (existing : Condition) (hfind : FindStatusCondition conditions t = some existing)
    (hf : f existing = existing) : modifyFirst t f conditions = conditions := by
  induction conditions with
  | nil => rfl
  | cons c cs ih =>
    by_cases h : c.type = t
    · have : c = existing := by simpa [FindStatusCondition, h] using hfind
      subst this
      simp [modifyFirst, h, hf]
    · have hfind' : FindStatusCondition cs t = some existing := by
        simpa [FindStatusCondition, h] using hfind
      simp [modifyFirst, h, ih hfind']

theorem SetStatusCondition_conditions {W : Type} (env : Env W) (w : W)
    (conditions : List Condition) (newCondition : Condition) :
    (FindStatusCondition conditions newCondition.type = none ∧
        ∃ stamped : Condition, stamped.type = newCondition.type
          ∧ stamped.status = newCondition.status ∧ stamped.reason = newCondition.reason
          ∧ stamped.message = newCondition.message
          ∧ stamped.observedGeneration = newCondition.observedGeneration
          ∧ (SetStatusCondition env w conditions newCondition).1 = conditions ++ [stamped])
      ∨ (∃ existing now, FindStatusCondition conditions newCondition.type = some existing ∧
          (SetStatusCondition env w conditions newCondition).1
            = modifyFirst newCondition.type (overwriteCondition now newCondition) conditions) := by
  unfold SetStatusCondition
  cases hfind : FindStatusCondition conditions newCondition.type with
  | none =>
    left
    refine ⟨rfl, ?_⟩
    by_cases hz : newCondition.lastTransitionTime.IsZero
    · exact ⟨{ newCondition with lastTransitionTime := (env.Now w).1 }, rfl, rfl, rfl, rfl, rfl,
        by simp [hz]⟩
    · exact ⟨newCondition, rfl, rfl, rfl, rfl, rfl, by simp [hz]⟩
  | some existing =>
    right
    by_cases hc : existing.status ≠ newCondition.status ∧ newCondition.lastTransitionTime.IsZero
    · exact ⟨existing, (env.Now w).1, rfl, by simp only []; rw [if_pos hc]⟩
    · exact ⟨existing, ⟨0⟩, rfl, by simp only []; rw [if_neg hc]⟩

theorem find_append_single (conditions : List Condition) (t : String) (c : Condition)
    (hfind : FindStatusCondition conditions t = none) (hc : c.type = t) :
    FindStatusCondition (conditions ++ [c]) t = some c := by
  simp only [FindStatusCondition] at hfind ⊢
  simp [List.find?_append, hfind, hc]

theorem filter_eq_nil_of_find_none (conditions : List Condition) (t : String)
    (hfind : FindStatusCondition conditions t = none) :
    conditions.filter (fun c => decide (c.type = t)) = [] := by
  simp only [FindStatusCondition] at hfind
  rw [List.filter_eq_nil_iff]
  intro a ha
  have := List.find?_eq_none.mp hfind a ha
  simpa using this

theorem countType_pos_of_find_some (conditions : List Condition) (t : String) (c : Condition)
    (hfind : FindStatusCondition conditions t = some c) : 1 ≤ countType t conditions := by
  simp only [FindStatusCondition] at hfind
  have hp := List.find?_some hfind
  have hmem : c ∈ conditions.filter (fun c => decide (c.type = t)) := by
    rw [List.mem_filter]
    exact ⟨List.mem_of_find?_eq_some hfind, hp⟩
  exact List.length_pos_of_mem hmem

theorem SetStatusCondition_find {W : Type} (env : Env W) (w : W)
    (conditions : List Condition) (newCondition : Condition) :
    ∃ c, FindStatusCondition (SetStatusCondition env w conditions newCondition).1
          newCondition.type = some c
      ∧ c.status = newCondition.status ∧ c.reason = newCondition.reason
      ∧ c.message = newCondition.message
      ∧ c.observedGeneration = newCondition.observedGeneration := by
  rcases SetStatusCondition_conditions env w conditions newCondition with
    ⟨hnone, stamped, ht, hs, hr, hm, hg, heq⟩ | ⟨existing, now, hsome, heq⟩
  · exact ⟨stamped, by rw [heq]; exact find_append_single _ _ _ hnone ht, hs, hr, hm, hg⟩
  · refine ⟨overwriteCondition now newCondition existing, ?_, rfl, rfl, rfl, rfl⟩
    rw [heq, find_modifyFirst _ _ (overwriteCondition_type now newCondition), hsome]
    rfl

theorem SetStatusCondition_filter {W : Type} (env : Env W) (w : W)
    (conditions : List Condition) (newCondition : Condition) (p : String → Bool)
    (hp : p newCondition.type = false) :
    (SetStatusCondition env w conditions newCondition).1.filter (fun c => p c.type)
      = conditions.filter (fun c => p c.type) := by
  rcases SetStatusCondition_conditions env w conditions newCondition with
    ⟨_, stamped, ht, _, _, _, _, heq⟩ | ⟨existing, now, _, heq⟩
  · rw [heq]
    simp [List.filter_append, ht, hp]
  · rw [heq]
    exact filter_modifyFirst _ _ (overwriteCondition_type now newCondition) p hp conditions

theorem SetStatusCondition_otherThan {W : Type} (env : Env W) (w : W)
    (conditions : List Condition) (newCondition : Condition) :
    otherThan newCondition.type (SetStatusCondition env w conditions newCondition).1
      = otherThan newCondition.type conditions := by
  have h := SetStatusCondition_filter env w conditions newCondition
    (fun s => decide (s ≠ newCondition.type)) (by simp)
  simpa [otherThan] using h

theorem SetStatusCondition_countType_other {W : Type} (env : Env W) (w : W)
    (conditions : List Condition) (newCondition : Condition) (t : String)
    (ht : newCondition.type ≠ t) :
    countType t (SetStatusCondition env w conditions newCondition).1 = countType t conditions := by
  have h := SetStatusCondition_filter env w conditions newCondition
    (fun s => decide (s = t)) (by simp [ht])
  simp only [countType]
  rw [h]

theorem SetStatusCondition_countType {W : Type} (env : Env W) (w : W)
    (conditions : List Condition) (newCondition : Condition) :
    countType newCondition.type (SetStatusCondition env w conditions newCondition).1
      = max 1 (countType newCondition.type conditions) := by
  rcases SetStatusCondition_conditions env w conditions newCondition with
    ⟨hnone, stamped, ht, _, _, _, _, heq⟩ | ⟨existing, now, hsome, heq⟩
  · have h0 := filter_eq_nil_of_find_none conditions newCondition.type hnone
    rw [heq]
    simp [countType, List.filter_append, h0, ht]
  · have hpos := countType_pos_of_find_some conditions newCondition.type existing hsome
    rw [heq]
    have hlen := length_filter_modifyFirst newCondition.type (overwriteCondition now newCondition)
      (overwriteCondition_type now newCondition) (fun s => decide (s = newCondition.type)) conditions
    simp only [countType] at hpos ⊢
    rw [hlen]
    omega

theorem SetStatusCondition_find_other {W : Type} (env : Env W) (w : W)
    (conditions : List Condition) (newCondition : Condition) (t : String)
    (ht : newCondition.type ≠ t) :
    FindStatusCondition (SetStatusCondition env w conditions newCondition).1 t
      = FindStatusCondition conditions t := by
  have h := SetStatusCondition_filter env w conditions newCondition
    (fun s => decide (s = t)) (by simp [ht])
  simp only [FindStatusCondition]
  rw [← List.filter_head?, ← List.filter_head?]
  exact congrArg List.head? h

theorem SetStatusCondition_same {W : Type} (env : Env W) (w : W)
    (conditions : List Condition) (newCondition existing : Condition)
    (hfind : FindStatusCondition conditions newCondition.type = some existing)
    (hs : existing.status = newCondition.status) (hr : existing.reason = newCondition.reason)
    (hm : existing.message = newCondition.message)
    (hg : existing.observedGeneration = newCondition.observedGeneration) :
    SetStatusCondition env w conditions newCondition = (conditions, w) := by
  have hov : overwriteCondition ⟨0⟩ newCondition existing = existing := by
    cases existing
    simp_all [overwriteCondition]
  unfold SetStatusCondition
  rw [hfind]
  simp only []
  rw [if_neg (by simp [hs]), modifyFirst_id _ _ _ existing hfind hov]

theorem mem_modifyFirst_type (t : String) (f : Condition → Condition)
    (hf : ∀ c, (f c).type = c.type) (conditions : List Condition) (c : Condition)
    (hc : c ∈ modifyFirst t f conditions) : ∃ c' ∈ conditions, c'.type = c.type := by
  induction conditions with
  | nil => simp [modifyFirst] at hc
  | cons d ds ih =>
    by_cases h : d.type = t
    · simp only [modifyFirst, h, if_true, List.mem_cons] at hc
      rcases hc with rfl | hc
      · exact ⟨d, List.mem_cons_self _ _, (hf d).symm⟩
      · exact ⟨c, List.mem_cons_of_mem _ hc, rfl⟩
    · simp only [modifyFirst, h, if_false, List.mem_cons] at hc
      rcases hc with rfl | hc
      · exact ⟨c, List.mem_cons_self _ _, rfl⟩
      · obtain ⟨c', hc', hty⟩ := ih hc
        exact ⟨c', List.mem_cons_of_mem _ hc', hty⟩

theorem SetStatusCondition_types {W : Type} (env : Env W) (w : W)
    (conditions : List Condition) (newCondition : Condition) (c : Condition)
    (hc : c ∈ (SetStatusCondition env w conditions newCondition).1) :
    c.type = newCondition.type ∨ ∃ c' ∈ conditions, c'.type = c.type := by
  rcases SetStatusCondition_conditions env w conditions newCondition with
    ⟨_, stamped, ht, _, _, _, _, heq⟩ | ⟨existing, now, _, heq⟩
  · rw [heq, List.mem_append] at hc
    rcases hc with hc | hc
    · exact Or.inr ⟨c, hc, rfl⟩
    · left
      rw [List.mem_singleton] at hc
      rw [hc, ht]
  · rw [heq] at hc
    exact Or.inr (mem_modifyFirst_type _ _ (overwriteCondition_type now newCondition) _ _ hc)

theorem clearUnknownConditions_of_onlyKnown (status : ClusterCatalogStatus)
    (hknown : onlyKnownConditions status) : clearUnknownConditions status = status := by
  have hf : status.conditions.filter
      (fun cond => decide (cond.type = TypeServing ∨ cond.type = TypeProgressing))
        = status.conditions := by
    rw [List.filter_eq_self]
    intro c hc
    simpa using hknown c hc
  cases status
  simp_all [clearUnknownConditions]

/-- C3 (the code departs from the claim): the store holds the record of a web
catalog without poll interval, declared and stored generation agree, the status
carries a single Progressing condition, and the content directory of the
resolved key is missing on disk. Sync returns nil after the store lookup alone:
it neither asks the unpacker for the content nor invokes Unpack. -/
theorem Sync_ignores_missing_content_when_record_exists :
    hasContent (storedScript (webCatalog none (syncedStatus 1))).contentFS.1 = false
      ∧ (Sync (storedScript (webCatalog none (syncedStatus 1))).env ()
          (webCatalog none (syncedStatus 1))).calls = [Call.Get]
      ∧ (Sync (storedScript (webCatalog none (syncedStatus 1))).env ()
          (webCatalog none (syncedStatus 1))).outcome = Outcome.returned none := by
  decide

/-- Where the lookup in the store fails and the unpacker has nothing for the
record the failed lookup leaves behind (its GetContentFS returns an error other
than not-exist, or a handle without content), as is the case with WebRegistry
and MultiSourceUnpacker for the empty record, Sync of a catalog that is not
Unavailable invokes Unpack. -/
theorem Sync_unpacks_when_lookup_fails {W : Type} (env : Env W) (w : W)
    (catalog : ClusterCatalog) (getErr : Err)
    (hmode : catalog.spec.availabilityMode ≠ AvailabilityModeUnavailable)
    (hget : (env.Get w catalog.name).1.2 = some getErr)
    (hcontent :
      (∃ fsErr, (env.GetContentFS (env.Get w catalog.name).2
          (env.Get w catalog.name).1.1).1.2 = some fsErr ∧ fsErr.isNotExist = false)
      ∨ hasContent (env.GetContentFS (env.Get w catalog.name).2
          (env.Get w catalog.name).1.1).1.1 = false) :
    Call.Unpack ∈ (Sync env w catalog).calls := by
  apply Sync_calls_of_needsUnpack env w catalog hmode
  have hstored : (getCurrentState env w catalog).1.storedCatalog = none := by
    simp only [getCurrentState, hget]
    rcases hcontent with ⟨fsErr, hfs, hne⟩ | hno
    · simp [hfs, hne]
    · split
      · split <;> simp [hno]
      · simp [hno]
  simp [needsUnpack, hstored]

/-- An instance: no record in the store, and the unpacker has nothing for the
empty record. -/
theorem Sync_unpacks_when_lookup_fails_example :
    Call.Unpack ∈ (Sync (noRecordScript (none, some (.plain "no unpacker for source type" false))).env
      () (webCatalog none emptyStatus)).calls :=
  Sync_unpacks_when_lookup_fails _ () (webCatalog none emptyStatus)
    (.plain "clustercatalogs not found" false) (by decide) rfl (Or.inl ⟨_, rfl, rfl⟩)

/-- C4 (the code departs from the claim): no record exists in the store, so the
lookup fails, and the unpacker reports content for the empty record the failed
lookup leaves behind. getCurrentState then hands that empty record on as the
stored catalog, and for a declared catalog of generation 0 whose status
already shows a successful unpack of generation 0, Sync returns nil without
invoking Unpack: the calls are Get and GetContentFS alone. -/
theorem Sync_without_record_may_skip_unpack :
    generationZeroCatalog.spec.availabilityMode ≠ AvailabilityModeUnavailable
      ∧ (noRecordScript (some ⟨some ["catalog.yaml"]⟩, none)).get.2
          = some (.plain "clustercatalogs not found" false)
      ∧ (getCurrentState (noRecordScript (some ⟨some ["catalog.yaml"]⟩, none)).env ()
          generationZeroCatalog).1.storedCatalog = some ClusterCatalog.zero
      ∧ (Sync (noRecordScript (some ⟨some ["catalog.yaml"]⟩, none)).env ()
          generationZeroCatalog).calls = [Call.Get, Call.GetContentFS]
      ∧ Call.Unpack ∉ (Sync (noRecordScript (some ⟨some ["catalog.yaml"]⟩, none)).env ()
          generationZeroCatalog).calls
      ∧ (Sync (noRecordScript (some ⟨some ["catalog.yaml"]⟩, none)).env ()
          generationZeroCatalog).outcome = Outcome.returned none := by
  decide

/-! ## What Sync leaves of the catalog -/

theorem unpackAndUpdate_frame {W : Type} (env : Env W) (w : W) (catalog : ClusterCatalog)
    (calls : List Call) :
    (unpackAndUpdate env w catalog calls).catalog.name = catalog.name
      ∧ (unpackAndUpdate env w catalog calls).catalog.generation = catalog.generation
      ∧ (unpackAndUpdate env w catalog calls).catalog.spec = catalog.spec := by
  simp only [unpackAndUpdate]
  split
  · exact ⟨rfl, rfl, rfl⟩
  · split
    · exact ⟨rfl, rfl, rfl⟩
    · split <;> exact ⟨rfl, rfl, rfl⟩

theorem Sync_frame {W : Type} (env : Env W) (w : W) (catalog : ClusterCatalog) :
    (Sync env w catalog).catalog.name = catalog.name
      ∧ (Sync env w catalog).catalog.generation = catalog.generation
      ∧ (Sync env w catalog).catalog.spec = catalog.spec := by
  simp only [Sync]
  split
  · split <;> exact ⟨rfl, rfl, rfl⟩
  · split
    · exact ⟨rfl, rfl, rfl⟩
    · exact ⟨rfl, rfl, rfl⟩
    · exact unpackAndUpdate_frame _ _ _ _

theorem progressingCond_type (generation : Int) (err : Option Err) :
    (progressingCond generation err).type = TypeProgressing := by
  cases err with
  | none => rfl
  | some e => by_cases he : e.isTerminal <;> simp [progressingCond, he]

theorem updateStatusProgressing_onlyKnown {W : Type} (env : Env W) (w : W)
    (status : ClusterCatalogStatus) (generation : Int) (err : Option Err)
    (hknown : onlyKnownConditions status) :
    onlyKnownConditions (updateStatusProgressing env w status generation err).1 := by
  intro c hc
  simp only [updateStatusProgressing] at hc
  rcases SetStatusCondition_types env w _ _ c hc with ht | ⟨c', hc', ht⟩
  · right
    rw [ht]
    exact progressingCond_type generation err
  · rw [← ht]
    exact hknown c' hc'

theorem updateUnavailable_onlyKnown {W : Type} (env : Env W) (w : W)
    (status : ClusterCatalogStatus) (generation : Int)
    (hknown : onlyKnownConditions status) :
    onlyKnownConditions
      (updateStatusProgressingUserSpecifiedUnavailable env w status generation).1 := by
  intro c hc
  simp only [updateStatusProgressingUserSpecifiedUnavailable] at hc
  rcases SetStatusCondition_types env _ _ _ c hc with ht | ⟨c', hc', ht⟩
  · exact Or.inl ht
  · rcases SetStatusCondition_types env _ _ _ c' hc' with ht' | ⟨c'', hc'', ht'⟩
    · exact Or.inr (ht ▸ ht')
    · rw [← ht, ← ht']
      exact hknown c'' hc''

theorem unpackAndUpdate_onlyKnown {W : Type} (env : Env W) (w : W) (catalog : ClusterCatalog)
    (calls : List Call) (hknown : onlyKnownConditions catalog.status) :
    onlyKnownConditions (unpackAndUpdate env w catalog calls).catalog.status := by
  simp only [unpackAndUpdate]
  split
  · dsimp only
    exact updateStatusProgressing_onlyKnown _ _ _ _ _ hknown
  · split
    · exact hknown
    · split
      · dsimp only
        exact updateStatusProgressing_onlyKnown _ _ _ _ _ (fun c hc => hknown c hc)
      · exact hknown

theorem Sync_onlyKnown {W : Type} (env : Env W) (w : W) (catalog : ClusterCatalog)
    (hknown : onlyKnownConditions catalog.status) :
    onlyKnownConditions (Sync env w catalog).catalog.status := by
  simp only [Sync]
  split
  · split
    · exact hknown
    · dsimp only
      exact updateUnavailable_onlyKnown _ _ _ _ hknown
  · split
    · exact hknown
    · exact hknown
    · exact unpackAndUpdate_onlyKnown _ _ _ _ hknown

theorem needsPoll_without_interval {W : Type} (env : Env W) (w : W) (last : Option Time)
    (catalog : ClusterCatalog) (hweb : webWithoutPollInterval catalog) :
    needsPoll env w last catalog = (Ret.ok false, w) := by
  obtain ⟨ht, hw⟩ := hweb
  cases last with
  | none => rfl
  | some t =>
    cases hweb : catalog.spec.source.web with
    | none => simp [hweb] at hw
    | some web =>
      have hp : web.pollIntervalMinutes = none := by simpa [hweb] using hw
      simp [needsPoll, ht, hweb, hp]

theorem Sync_of_steady_state {W : Type} (env : Env W) (w : W)
    (catalog stored : ClusterCatalog)
    (hmode : catalog.spec.availabilityMode ≠ AvailabilityModeUnavailable)
    (hget : (env.Get w catalog.name).1 = (stored, none))
    (hgen : catalog.generation = stored.generation)
    (hknown : onlyKnownConditions catalog.status)
    (hpoll : (needsPoll env (env.Get w catalog.name).2 stored.status.lastUnpacked catalog).1
      = Ret.ok false) :
    Sync env w catalog =
      { outcome := Outcome.returned none, catalog := catalog,
        world := (needsPoll env (env.Get w catalog.name).2 stored.status.lastUnpacked catalog).2,
        calls := [Call.Get] } := by
  have hneeds : needsUnpack env w catalog
      = (Ret.ok false, (needsPoll env (env.Get w catalog.name).2 stored.status.lastUnpacked
          catalog).2, [Call.Get]) := by
    unfold needsUnpack
    rw [getCurrentState_of_get_ok env w catalog stored hget]
    simp [clearUnknownConditions_of_onlyKnown catalog.status hknown, hgen, hpoll]
  rw [Sync_of_not_needsUnpack env w catalog hmode (by rw [hneeds]), hneeds]

/-- C5 (as the code has it): for a catalog that is not Unavailable, whose stored
record exists with the same generation, whose status carries only conditions of
the known types, and for which no poll is due, Sync returns nil, makes no call
besides the store lookup (no Unpack, no Cleanup) and leaves the catalog, its
status included, unchanged. -/
theorem Sync_noop_in_steady_state {W : Type} (env : Env W) (w : W)
    (catalog stored : ClusterCatalog)
    (hmode : catalog.spec.availabilityMode ≠ AvailabilityModeUnavailable)
    (hget : (env.Get w catalog.name).1 = (stored, none))
    (hgen : catalog.generation = stored.generation)
    (hknown : onlyKnownConditions catalog.status)
    (hpoll : (needsPoll env (env.Get w catalog.name).2 stored.status.lastUnpacked catalog).1
      = Ret.ok false) :
    (Sync env w catalog).outcome = Outcome.returned none
      ∧ (Sync env w catalog).calls = [Call.Get]
      ∧ Call.Unpack ∉ (Sync env w catalog).calls
      ∧ Call.Cleanup ∉ (Sync env w catalog).calls
      ∧ (Sync env w catalog).catalog.status = catalog.status := by
  rw [Sync_of_steady_state env w catalog stored hmode hget hgen hknown hpoll]
  simp

/-- Witness of C5: a synced web catalog without poll interval whose record is in
the store. -/
theorem Sync_noop_in_steady_state_witness :
    (Sync (storedScript (webCatalog none (syncedStatus 1))).env ()
        (webCatalog none (syncedStatus 1))).catalog.status = syncedStatus 1 :=
  (Sync_noop_in_steady_state (storedScript (webCatalog none (syncedStatus 1))).env ()
    (webCatalog none (syncedStatus 1)) (webCatalog none (syncedStatus 1))
    (by decide) rfl rfl (by decide) (by decide)).2.2.2.2

/-- Counterexample to C5 as stated: an Unavailable catalog whose stored record
exists with the same generation, whose status carries one Progressing condition
and for which no poll is due; Sync invokes Cleanup and rewrites the status. -/
theorem Sync_cleans_up_unavailable_steady_state :
    (storedScript (unavailableCatalog (syncedStatus 1))).get
        = (unavailableCatalog (syncedStatus 1), none)
      ∧ onlyKnownConditions (unavailableCatalog (syncedStatus 1)).status
      ∧ (needsPoll (storedScript (unavailableCatalog (syncedStatus 1))).env () (some ⟨1000⟩)
          (unavailableCatalog (syncedStatus 1))).1 = Ret.ok false
      ∧ Call.Cleanup ∈ (Sync (storedScript (unavailableCatalog (syncedStatus 1))).env ()
          (unavailableCatalog (syncedStatus 1))).calls
      ∧ (Sync (storedScript (unavailableCatalog (syncedStatus 1))).env ()
          (unavailableCatalog (syncedStatus 1))).catalog.status
          ≠ (unavailableCatalog (syncedStatus 1)).status := by
  decide

theorem SetStatusCondition_twice {W : Type} (env : Env W) (w1 w2 : W)
    (conditions : List Condition) (P S : Condition) (hPS : S.type ≠ P.type) :
    SetStatusCondition env w2
        (SetStatusCondition env (SetStatusCondition env w1 conditions P).2
          (SetStatusCondition env w1 conditions P).1 S).1 P
      = ((SetStatusCondition env (SetStatusCondition env w1 conditions P).2
          (SetStatusCondition env w1 conditions P).1 S).1, w2)
    ∧ SetStatusCondition env w2
        (SetStatusCondition env (SetStatusCondition env w1 conditions P).2
          (SetStatusCondition env w1 conditions P).1 S).1 S
      = ((SetStatusCondition env (SetStatusCondition env w1 conditions P).2
          (SetStatusCondition env w1 conditions P).1 S).1, w2) := by
  obtain ⟨p, hp, hp1, hp2, hp3, hp4⟩ := SetStatusCondition_find env w1 conditions P
  obtain ⟨s, hs, hs1, hs2, hs3, hs4⟩ := SetStatusCondition_find env
    (SetStatusCondition env w1 conditions P).2 (SetStatusCondition env w1 conditions P).1 S
  have hp' : FindStatusCondition (SetStatusCondition env
      (SetStatusCondition env w1 conditions P).2
      (SetStatusCondition env w1 conditions P).1 S).1 P.type = some p := by
    rw [SetStatusCondition_find_other env _ _ S P.type hPS]
    exact hp
  exact ⟨SetStatusCondition_same env w2 _ P p hp' hp1 hp2 hp3 hp4,
    SetStatusCondition_same env w2 _ S s hs hs1 hs2 hs3 hs4⟩

theorem updateUnavailable_idem {W : Type} (env : Env W) (w1 w2 : W)
    (status : ClusterCatalogStatus) (g : Int) :
    (updateStatusProgressingUserSpecifiedUnavailable env w2
        (updateStatusProgressingUserSpecifiedUnavailable env w1 status g).1 g).1
      = (updateStatusProgressingUserSpecifiedUnavailable env w1 status g).1 := by
  simp only [updateStatusProgressingUserSpecifiedUnavailable]
  rw [(SetStatusCondition_twice env w1 w2 status.conditions _ _ ?_).1,
    (SetStatusCondition_twice env w1 w2 status.conditions _ _ ?_).2]
  all_goals exact (by decide : TypeServing ≠ TypeProgressing)

theorem DeleteCatalog_calls {W : Type} (env : Env W) (w : W) (catalog : ClusterCatalog) :
    Call.Unpack ∉ (DeleteCatalog env w catalog).2.2 := by
  simp only [DeleteCatalog]
  split <;> simp

theorem Sync_unavailable_calls {W : Type} (env : Env W) (w : W) (catalog : ClusterCatalog)
    (hmode : catalog.spec.availabilityMode = AvailabilityModeUnavailable) :
    Call.Unpack ∉ (Sync env w catalog).calls := by
  simp only [Sync, hmode, if_true]
  split <;> exact DeleteCatalog_calls env w catalog

theorem Sync_unavailable_status {W : Type} (env : Env W) (w : W) (catalog : ClusterCatalog)
    (hmode : catalog.spec.availabilityMode = AvailabilityModeUnavailable)
    (hok : (Sync env w catalog).outcome = Outcome.returned none) :
    (DeleteCatalog env w catalog).1 = none
      ∧ (Sync env w catalog).catalog.status
        = (updateStatusProgressingUserSpecifiedUnavailable env (DeleteCatalog env w catalog).2.1
            catalog.status catalog.generation).1 := by
  simp only [Sync, hmode, if_true] at hok ⊢
  cases hdel : (DeleteCatalog env w catalog).1 with
  | some e => simp [hdel] at hok
  | none => simp

theorem Sync_unavailable_again {W : Type} (env : Env W) (w w' : W)
    (catalog : ClusterCatalog) (before : ClusterCatalogStatus)
    (hmode : catalog.spec.availabilityMode = AvailabilityModeUnavailable)
    (hst : catalog.status
      = (updateStatusProgressingUserSpecifiedUnavailable env w' before catalog.generation).1) :
    (Sync env w catalog).catalog.status = catalog.status := by
  simp only [Sync, hmode, if_true]
  split
  · rfl
  · dsimp only
    rw [hst]
    exact updateUnavailable_idem env _ _ before catalog.generation

/-- C6 (as the code has it): for a web catalog without poll interval whose
initial status carries only conditions of the known types (or whose
availability mode is Unavailable), after a first Sync has returned nil and the
resulting catalog is on record in the store (the lookup returns a record of the
same generation), a second Sync of that catalog does not invoke Unpack and
leaves the status unchanged. -/
theorem second_Sync_is_noop {W : Type} (env : Env W) (w0 w1 : W)
    (catalog stored : ClusterCatalog)
    (hweb : webWithoutPollInterval catalog)
    (hstatus : catalog.spec.availabilityMode = AvailabilityModeUnavailable
      ∨ onlyKnownConditions catalog.status)
    (hfirst : (Sync env w0 catalog).outcome = Outcome.returned none)
    (hget : (env.Get w1 catalog.name).1 = (stored, none))
    (hgen : stored.generation = catalog.generation) :
    Call.Unpack ∉ (Sync env w1 (Sync env w0 catalog).catalog).calls
      ∧ (Sync env w1 (Sync env w0 catalog).catalog).catalog.status
        = (Sync env w0 catalog).catalog.status := by
  obtain ⟨hname, hg, hspec⟩ := Sync_frame env w0 catalog
  by_cases hmode : catalog.spec.availabilityMode = AvailabilityModeUnavailable
  · have hmode1 : (Sync env w0 catalog).catalog.spec.availabilityMode
        = AvailabilityModeUnavailable := by rw [hspec]; exact hmode
    refine ⟨Sync_unavailable_calls env w1 _ hmode1, ?_⟩
    obtain ⟨_, hst⟩ := Sync_unavailable_status env w0 catalog hmode hfirst
    exact Sync_unavailable_again env w1 _ _ catalog.status hmode1 (by rw [hst, hg])
  · have hknown : onlyKnownConditions catalog.status := hstatus.resolve_left hmode
    have hmode1 : (Sync env w0 catalog).catalog.spec.availabilityMode
        ≠ AvailabilityModeUnavailable := by rw [hspec]; exact hmode
    have hweb1 : webWithoutPollInterval (Sync env w0 catalog).catalog := by
      unfold webWithoutPollInterval
      rw [hspec]
      exact hweb
    have hrun := Sync_of_steady_state env w1 (Sync env w0 catalog).catalog stored hmode1
      (by rw [hname]; exact hget) (by rw [hg, hgen]) (Sync_onlyKnown env w0 catalog hknown)
      (by rw [needsPoll_without_interval env _ _ _ hweb1])
    rw [hrun]
    simp

/-- Witness of C6: a fresh web catalog is synced, written to the store, and
synced again. -/
theorem second_Sync_is_noop_witness :
    Call.Unpack ∉ (Sync (storeEnv freshScript)
        (Update (Sync (storeEnv freshScript) none (webCatalog none emptyStatus)).catalog none)
        (Sync (storeEnv freshScript) none (webCatalog none emptyStatus)).catalog).calls
      ∧ (Sync (storeEnv freshScript)
        (Update (Sync (storeEnv freshScript) none (webCatalog none emptyStatus)).catalog none)
        (Sync (storeEnv freshScript) none (webCatalog none emptyStatus)).catalog).catalog.status
        = (Sync (storeEnv freshScript) none (webCatalog none emptyStatus)).catalog.status :=
  second_Sync_is_noop (storeEnv freshScript) none
    (Update (Sync (storeEnv freshScript) none (webCatalog none emptyStatus)).catalog none)
    (webCatalog none emptyStatus)
    (Sync (storeEnv freshScript) none (webCatalog none emptyStatus)).catalog
    (by decide) (Or.inr (by decide)) (by decide) (by decide) (by decide)

/-- Counterexample to C6 as stated: a fresh web catalog without poll interval
whose initial status carries a condition of another type (Deprecated). The
first Sync downloads and returns nil; the catalog is written to the store; the
second Sync of that catalog, generation unchanged, invokes Unpack again. -/
theorem second_Sync_unpacks_again_with_other_condition :
    webWithoutPollInterval (webCatalog none statusWithOtherCondition)
      ∧ (Sync (storeEnv freshScript) none
          (webCatalog none statusWithOtherCondition)).outcome = Outcome.returned none
      ∧ (Sync (storeEnv freshScript) none
          (webCatalog none statusWithOtherCondition)).calls
          = [Call.Get, Call.GetContentFS, Call.Unpack]
      ∧ Call.Unpack ∈ (Sync (storeEnv freshScript)
          (Update (Sync (storeEnv freshScript) none
            (webCatalog none statusWithOtherCondition)).catalog none)
          (Sync (storeEnv freshScript) none
            (webCatalog none statusWithOtherCondition)).catalog).calls := by
  decide

/-! ## The Unavailable mode -/

theorem filter_singleton_of_find (conditions : List Condition) (t : String) (c : Condition)
    (hcount : countType t conditions = 1) (hfind : FindStatusCondition conditions t = some c) :
    conditions.filter (fun d => decide (d.type = t)) = [c] := by
  simp only [FindStatusCondition] at hfind
  rw [← List.filter_head?] at hfind
  simp only [countType] at hcount
  generalize conditions.filter (fun d => decide (d.type = t)) = l at hcount hfind
  match l, hcount, hfind with
  | [x], _, h =>
    simp at h
    rw [h]

theorem SetStatusCondition_pair {W : Type} (env : Env W) (w : W)
    (conditions : List Condition) (P S : Condition) (hPS : S.type ≠ P.type) :
    (countType P.type conditions ≤ 1 →
        ∃ p, (SetStatusCondition env (SetStatusCondition env w conditions P).2
              (SetStatusCondition env w conditions P).1 S).1.filter
                (fun c => decide (c.type = P.type)) = [p]
          ∧ p.status = P.status ∧ p.reason = P.reason
          ∧ p.observedGeneration = P.observedGeneration)
      ∧ (countType S.type conditions ≤ 1 →
        ∃ s, (SetStatusCondition env (SetStatusCondition env w conditions P).2
              (SetStatusCondition env w conditions P).1 S).1.filter
                (fun c => decide (c.type = S.type)) = [s]
          ∧ s.status = S.status ∧ s.reason = S.reason
          ∧ s.observedGeneration = S.observedGeneration) := by
  constructor
  · intro hP
    obtain ⟨p, hp, hp1, hp2, _, hp4⟩ := SetStatusCondition_find env w conditions P
    refine ⟨p, ?_, hp1, hp2, hp4⟩
    apply filter_singleton_of_find
    · rw [SetStatusCondition_countType_other env _ _ S P.type hPS,
        SetStatusCondition_countType]
      omega
    · rw [SetStatusCondition_find_other env _ _ S P.type hPS]
      exact hp
  · intro hS
    obtain ⟨s, hs, hs1, hs2, _, hs4⟩ := SetStatusCondition_find env
      (SetStatusCondition env w conditions P).2 (SetStatusCondition env w conditions P).1 S
    refine ⟨s, ?_, hs1, hs2, hs4⟩
    apply filter_singleton_of_find
    · rw [SetStatusCondition_countType,
        SetStatusCondition_countType_other env _ _ P S.type (Ne.symm hPS)]
      omega
    · exact hs

/-- C7 (as the code has it): for a catalog whose availability mode is
Unavailable, Sync never invokes Unpack. When DeleteCatalog (cleanup of the
cached content, then removal of the stored record) succeeds, Sync returns nil
and the status, its conditions being keyed by type (at most one of a type
before the call), holds exactly one Progressing condition, with status True
and reason Succeeded, and exactly one Serving condition, with status False and
reason UserSpecifiedUnavailable, both with the catalog's generation as
observed generation. When DeleteCatalog fails, be it in the cleanup or in the
removal of the stored record after a successful cleanup, Sync returns that
error and the catalog with its status is as it was. -/
theorem Sync_when_unavailable {W : Type} (env : Env W) (w : W) (catalog : ClusterCatalog)
    (hmode : catalog.spec.availabilityMode = AvailabilityModeUnavailable) :
    Call.Unpack ∉ (Sync env w catalog).calls
      ∧ ((DeleteCatalog env w catalog).1 = none →
          (Sync env w catalog).outcome = Outcome.returned none
          ∧ (countType TypeProgressing catalog.status.conditions ≤ 1 →
              ∃ p, (Sync env w catalog).catalog.status.conditions.filter
                    (fun c => decide (c.type = TypeProgressing)) = [p]
                ∧ p.status = ConditionTrue ∧ p.reason = ReasonSucceeded
                ∧ p.observedGeneration = catalog.generation)
          ∧ (countType TypeServing catalog.status.conditions ≤ 1 →
              ∃ s, (Sync env w catalog).catalog.status.conditions.filter
                    (fun c => decide (c.type = TypeServing)) = [s]
                ∧ s.status = ConditionFalse ∧ s.reason = ReasonUserSpecifiedUnavailable
                ∧ s.observedGeneration = catalog.generation))
      ∧ (∀ err, (DeleteCatalog env w catalog).1 = some err →
          (Sync env w catalog).outcome = Outcome.returned (some err)
          ∧ (Sync env w catalog).catalog = catalog) := by
  refine ⟨Sync_unavailable_calls env w catalog hmode, fun hdel => ?_, fun err hdel => ?_⟩
  · have hrun : Sync env w catalog =
        { outcome := Outcome.returned none
          catalog := { catalog with status :=
            (updateStatusProgressingUserSpecifiedUnavailable env (DeleteCatalog env w catalog).2.1
              catalog.status catalog.generation).1 }
          world := (updateStatusProgressingUserSpecifiedUnavailable env
            (DeleteCatalog env w catalog).2.1 catalog.status catalog.generation).2
          calls := (DeleteCatalog env w catalog).2.2 } := by
      simp [Sync, hmode, hdel]
    have hne : TypeServing ≠ TypeProgressing := by decide
    have hpair := SetStatusCondition_pair env (DeleteCatalog env w catalog).2.1
      catalog.status.conditions
      { type := TypeProgressing, status := ConditionTrue, reason := ReasonSucceeded,
        message := "Catalog availability mode is set to Unavailable",
        observedGeneration := catalog.generation, lastTransitionTime := ⟨0⟩ }
      { type := TypeServing, status := ConditionFalse, reason := ReasonUserSpecifiedUnavailable,
        message := "Catalog availability mode is set to Unavailable",
        observedGeneration := catalog.generation, lastTransitionTime := ⟨0⟩ } hne
    rw [hrun]
    exact ⟨rfl, hpair.1, hpair.2⟩
  · simp [Sync, hmode, hdel]

/-- Witness of C7: an Unavailable catalog that was synced before, so that its
status holds one Progressing condition and no Serving condition; the store
holds its record and DeleteCatalog succeeds. -/
theorem Sync_when_unavailable_witness :
    Call.Unpack ∉ (Sync (storedScript (unavailableCatalog (syncedStatus 1))).env ()
        (unavailableCatalog (syncedStatus 1))).calls
      ∧ (Sync (storedScript (unavailableCatalog (syncedStatus 1))).env ()
        (unavailableCatalog (syncedStatus 1))).outcome = Outcome.returned none
      ∧ (∃ p, (Sync (storedScript (unavailableCatalog (syncedStatus 1))).env ()
            (unavailableCatalog (syncedStatus 1))).catalog.status.conditions.filter
              (fun c => decide (c.type = TypeProgressing)) = [p]
          ∧ p.status = ConditionTrue ∧ p.reason = ReasonSucceeded
          ∧ p.observedGeneration = (unavailableCatalog (syncedStatus 1)).generation)
      ∧ (∃ s, (Sync (storedScript (unavailableCatalog (syncedStatus 1))).env ()
            (unavailableCatalog (syncedStatus 1))).catalog.status.conditions.filter
              (fun c => decide (c.type = TypeServing)) = [s]
          ∧ s.status = ConditionFalse ∧ s.reason = ReasonUserSpecifiedUnavailable
          ∧ s.observedGeneration = (unavailableCatalog (syncedStatus 1)).generation) :=
  ⟨(Sync_when_unavailable (storedScript (unavailableCatalog (syncedStatus 1))).env ()
      (unavailableCatalog (syncedStatus 1)) rfl).1,
    ((Sync_when_unavailable (storedScript (unavailableCatalog (syncedStatus 1))).env ()
      (unavailableCatalog (syncedStatus 1)) rfl).2.1 (by decide)).1,
    ((Sync_when_unavailable (storedScript (unavailableCatalog (syncedStatus 1))).env ()
      (unavailableCatalog (syncedStatus 1)) rfl).2.1 (by decide)).2.1 (by decide),
    ((Sync_when_unavailable (storedScript (unavailableCatalog (syncedStatus 1))).env ()
      (unavailableCatalog (syncedStatus 1)) rfl).2.1 (by decide)).2.2 (by decide)⟩

/-- Counterexample to C7 as stated: an Unavailable catalog of which the store
holds no record (it was never written, or an earlier Sync removed it). The
deletion of the cached content, Cleanup, succeeds; the removal of the stored
record then fails, the file not being there; Sync returns that error instead
of nil, and the status has neither a Progressing nor a Serving condition. -/
theorem Sync_unavailable_fails_without_stored_record :
    (unavailableCatalog emptyStatus).spec.availabilityMode = AvailabilityModeUnavailable
      ∧ ((storeEnv freshScript).Cleanup none (unavailableCatalog emptyStatus)).1 = none
      ∧ (Sync (storeEnv freshScript) none (unavailableCatalog emptyStatus)).calls
          = [Call.Cleanup, Call.Delete]
      ∧ (Sync (storeEnv freshScript) none (unavailableCatalog emptyStatus)).outcome
          = Outcome.returned (some (.plain "no such file or directory" true))
      ∧ countType TypeProgressing
          (Sync (storeEnv freshScript) none
            (unavailableCatalog emptyStatus)).catalog.status.conditions = 0
      ∧ countType TypeServing
          (Sync (storeEnv freshScript) none
            (unavailableCatalog emptyStatus)).catalog.status.conditions = 0 := by
  decide

/-! ## The fetch -/

theorem unpackAndUpdate_of_failure {W : Type} (env : Env W) (w : W) (catalog : ClusterCatalog)
    (calls : List Call) (e : Err) (hfail : (env.Unpack w catalog).1.2 = some e) :
    unpackAndUpdate env w catalog calls =
      { outcome := Outcome.returned (some (Err.wrapf "source catalog content: " e))
        catalog := { catalog with status :=
          (updateStatusProgressing env (env.Unpack w catalog).2 catalog.status
            catalog.generation (some (Err.wrapf "source catalog content: " e))).1 }
        world := (updateStatusProgressing env (env.Unpack w catalog).2 catalog.status
            catalog.generation (some (Err.wrapf "source catalog content: " e))).2
        calls := calls ++ [Call.Unpack] } := by
  simp [unpackAndUpdate, hfail]

theorem unpackAndUpdate_of_success {W : Type} (env : Env W) (w : W) (catalog : ClusterCatalog)
    (calls : List Call) (r : Result) (hok : (env.Unpack w catalog).1 = (some r, none))
    (hstate : r.state = StateUnpacked) :
    unpackAndUpdate env w catalog calls =
      { outcome := Outcome.returned none
        catalog := { catalog with status :=
          (updateStatusProgressing env (env.Unpack w catalog).2
            { catalog.status with
              lastUnpacked := some r.unpackTime, resolvedSource := r.resolvedSource }
            catalog.generation none).1 }
        world := (updateStatusProgressing env (env.Unpack w catalog).2
            { catalog.status with
              lastUnpacked := some r.unpackTime, resolvedSource := r.resolvedSource }
            catalog.generation none).2
        calls := calls ++ [Call.Unpack] } := by
  have h1 : (env.Unpack w catalog).1.1 = some r := by rw [hok]
  have h2 : (env.Unpack w catalog).1.2 = none := by rw [hok]
  simp [unpackAndUpdate, h1, h2, hstate]

theorem updateStatusProgressing_frame {W : Type} (env : Env W) (w : W)
    (status : ClusterCatalogStatus) (generation : Int) (err : Option Err) :
    (updateStatusProgressing env w status generation err).1.resolvedSource = status.resolvedSource
      ∧ (updateStatusProgressing env w status generation err).1.lastUnpacked = status.lastUnpacked
      ∧ otherThan TypeProgressing (updateStatusProgressing env w status generation err).1.conditions
        = otherThan TypeProgressing status.conditions := by
  refine ⟨rfl, rfl, ?_⟩
  have h := SetStatusCondition_otherThan env w status.conditions (progressingCond generation err)
  rw [progressingCond_type] at h
  exact h

theorem progressingCond_fields (generation : Int) (err : Option Err) :
    (progressingCond generation err).observedGeneration = generation
      ∧ (err = none → (progressingCond generation err).status = ConditionTrue
          ∧ (progressingCond generation err).reason = ReasonSucceeded)
      ∧ (∀ e, err = some e → e.isTerminal = false →
          (progressingCond generation err).status = ConditionTrue
          ∧ (progressingCond generation err).reason = ReasonRetrying
          ∧ (progressingCond generation err).message = e.Error)
      ∧ (∀ e, err = some e → e.isTerminal = true →
          (progressingCond generation err).status = ConditionFalse
          ∧ (progressingCond generation err).reason = ReasonBlocked
          ∧ (progressingCond generation err).message = e.Error) := by
  cases err with
  | none => simp [progressingCond]
  | some e => by_cases he : e.isTerminal <;> simp [progressingCond, he]

theorem updateStatusProgressing_find {W : Type} (env : Env W) (w : W)
    (status : ClusterCatalogStatus) (generation : Int) (err : Option Err) :
    ∃ p, FindStatusCondition (updateStatusProgressing env w status generation err).1.conditions
          TypeProgressing = some p
      ∧ p.observedGeneration = generation
      ∧ (err = none → p.status = ConditionTrue ∧ p.reason = ReasonSucceeded)
      ∧ (∀ e, err = some e → e.isTerminal = false →
          p.status = ConditionTrue ∧ p.reason = ReasonRetrying ∧ p.message = e.Error)
      ∧ (∀ e, err = some e → e.isTerminal = true →
          p.status = ConditionFalse ∧ p.reason = ReasonBlocked ∧ p.message = e.Error) := by
  obtain ⟨p, hp, h1, h2, h3, h4⟩ := SetStatusCondition_find env w status.conditions
    (progressingCond generation err)
  obtain ⟨hg, hsucc, hretry, hblocked⟩ := progressingCond_fields generation err
  rw [progressingCond_type] at hp
  refine ⟨p, hp, h4.trans hg, fun h => ?_, fun e he hn => ?_, fun e he ht => ?_⟩
  · rw [h1, h2]
    exact hsucc h
  · rw [h1, h2, h3]
    exact hretry e he hn
  · rw [h1, h2, h3]
    exact hblocked e he ht

/-- C8: when Sync fetches and Unpack fails with error e, Sync returns the error
that wraps e ("source catalog content: " followed by e), and the Progressing
condition carries the catalog's generation as observed generation and is
True/Retrying with the text of the returned error as message when e is not
terminal, False/Blocked when e is or wraps a terminal error. -/
theorem Sync_failed_unpack_reports {W : Type} (env : Env W) (w : W) (catalog : ClusterCatalog)
    (e : Err)
    (hmode : catalog.spec.availabilityMode ≠ AvailabilityModeUnavailable)
    (hneeds : (needsUnpack env w catalog).1 = Ret.ok true)
    (hfail : (env.Unpack (needsUnpack env w catalog).2.1 catalog).1.2 = some e) :
    (Sync env w catalog).outcome
        = Outcome.returned (some (Err.wrapf "source catalog content: " e))
      ∧ ∃ p, FindStatusCondition (Sync env w catalog).catalog.status.conditions
            TypeProgressing = some p
          ∧ p.observedGeneration = catalog.generation
          ∧ (e.isTerminal = false →
              p.status = ConditionTrue ∧ p.reason = ReasonRetrying
              ∧ p.message = (Err.wrapf "source catalog content: " e).Error)
          ∧ (e.isTerminal = true → p.status = ConditionFalse ∧ p.reason = ReasonBlocked) := by
  rw [Sync_of_needsUnpack env w catalog hmode hneeds,
    unpackAndUpdate_of_failure env _ catalog _ e hfail]
  refine ⟨rfl, ?_⟩
  obtain ⟨p, hp, hg, _, hretry, hblocked⟩ := updateStatusProgressing_find env
    (env.Unpack (needsUnpack env w catalog).2.1 catalog).2 catalog.status catalog.generation
    (some (Err.wrapf "source catalog content: " e))
  refine ⟨p, hp, hg, fun hn => hretry _ rfl hn, fun ht => ?_⟩
  have := hblocked _ rfl ht
  exact ⟨this.1, this.2.1⟩

/-- Witness of C8: no record in the store and an unreachable web server. -/
theorem Sync_failed_unpack_reports_witness :
    (Sync (clockScript ⟨5000⟩).env () (webCatalog none emptyStatus)).outcome
      = Outcome.returned (some (Err.wrapf "source catalog content: "
          (Err.plain "unreachable" false))) :=
  (Sync_failed_unpack_reports (clockScript ⟨5000⟩).env () (webCatalog none emptyStatus)
    (Err.plain "unreachable" false) (by decide) (by decide) (by decide)).1

/-- C9: when Sync fetches and Unpack fails, the resolved source, the
last-unpacked time and the conditions of every type other than Progressing are
after the call exactly what they were before. -/
theorem Sync_failed_unpack_keeps_rest {W : Type} (env : Env W) (w : W) (catalog : ClusterCatalog)
    (e : Err)
    (hmode : catalog.spec.availabilityMode ≠ AvailabilityModeUnavailable)
    (hneeds : (needsUnpack env w catalog).1 = Ret.ok true)
    (hfail : (env.Unpack (needsUnpack env w catalog).2.1 catalog).1.2 = some e) :
    (Sync env w catalog).catalog.status.resolvedSource = catalog.status.resolvedSource
      ∧ (Sync env w catalog).catalog.status.lastUnpacked = catalog.status.lastUnpacked
      ∧ otherThan TypeProgressing (Sync env w catalog).catalog.status.conditions
        = otherThan TypeProgressing catalog.status.conditions := by
  rw [Sync_of_needsUnpack env w catalog hmode hneeds,
    unpackAndUpdate_of_failure env _ catalog _ e hfail]
  exact updateStatusProgressing_frame env _ catalog.status catalog.generation _

/-- Witness of C9: a synced catalog whose generation was bumped, and a download
that fails with a terminal error. -/
theorem Sync_failed_unpack_keeps_rest_witness :
    (Sync (storeEnv blockedScript) (some (webCatalog none (syncedStatus 1)))
        { webCatalog none (syncedStatus 1) with generation := 2 }).catalog.status.resolvedSource
      = some resolvedWeb :=
  (Sync_failed_unpack_keeps_rest (storeEnv blockedScript) (some (webCatalog none (syncedStatus 1)))
    { webCatalog none (syncedStatus 1) with generation := 2 }
    (.terminal (.plain "invalid catalog URL" false)) (by decide) (by decide) (by decide)).1

/-- C10: when Sync fetches and Unpack succeeds with state Unpacked, Sync returns
nil, the last-unpacked time is the unpack time of the result, the resolved
source is that of the result, and the Progressing condition is True/Succeeded
with the catalog's generation as observed generation. -/
theorem Sync_unpacked_records_result {W : Type} (env : Env W) (w : W) (catalog : ClusterCatalog)
    (r : Result)
    (hmode : catalog.spec.availabilityMode ≠ AvailabilityModeUnavailable)
    (hneeds : (needsUnpack env w catalog).1 = Ret.ok true)
    (hok : (env.Unpack (needsUnpack env w catalog).2.1 catalog).1 = (some r, none))
    (hstate : r.state = StateUnpacked) :
    (Sync env w catalog).outcome = Outcome.returned none
      ∧ (Sync env w catalog).catalog.status.lastUnpacked = some r.unpackTime
      ∧ (Sync env w catalog).catalog.status.resolvedSource = r.resolvedSource
      ∧ ∃ p, FindStatusCondition (Sync env w catalog).catalog.status.conditions
            TypeProgressing = some p
          ∧ p.status = ConditionTrue ∧ p.reason = ReasonSucceeded
          ∧ p.observedGeneration = catalog.generation := by
  rw [Sync_of_needsUnpack env w catalog hmode hneeds,
    unpackAndUpdate_of_success env _ catalog _ r hok hstate]
  refine ⟨rfl, rfl, rfl, ?_⟩
  obtain ⟨p, hp, hg, hsucc, _, _⟩ := updateStatusProgressing_find env
    (env.Unpack (needsUnpack env w catalog).2.1 catalog).2
    { catalog.status with lastUnpacked := some r.unpackTime, resolvedSource := r.resolvedSource }
    catalog.generation none
  exact ⟨p, hp, (hsucc rfl).1, (hsucc rfl).2, hg⟩

/-- Witness of C10: a fresh web catalog and a download that succeeds. -/
theorem Sync_unpacked_records_result_witness :
    (Sync freshScript.env () (webCatalog none emptyStatus)).catalog.status.lastUnpacked
      = some unpackedResult.unpackTime :=
  (Sync_unpacked_records_result freshScript.env () (webCatalog none emptyStatus) unpackedResult
    (by decide) (by decide) (by decide) (by decide)).2.1

/-! ## No poll without a basis -/

/-- C19: needsPoll returns false, whatever the clock shows (the clock is not
even read), whenever the last successful unpack time is nil or the source (web
or image) declares no poll interval. -/
theorem needsPoll_false_without_basis {W : Type} (env : Env W) (w : W)
    (lastSuccessfulPoll : Option Time) (catalog : ClusterCatalog)
    (h : lastSuccessfulPoll = none ∨ declaresNoPollInterval catalog) :
    needsPoll env w lastSuccessfulPoll catalog = (Ret.ok false, w) := by
  cases lastSuccessfulPoll with
  | none => rfl
  | some last =>
    rcases h with h | ⟨ht, hw⟩ | ⟨ht, hi⟩
    · cases h
    · cases hweb : catalog.spec.source.web with
      | none => simp [hweb] at hw
      | some web =>
        have hp : web.pollIntervalMinutes = none := by simpa [hweb] using hw
        simp [needsPoll, ht, hweb, hp]
    · have hne : SourceTypeImage ≠ SourceTypeWeb := by decide
      cases himg : catalog.spec.source.image with
      | none => simp [himg] at hi
      | some image =>
        have hp : image.pollIntervalMinutes = none := by simpa [himg] using hi
        simp [needsPoll, ht, hne, himg, hp]

/-- Witness of C19: an image catalog without poll interval that was unpacked at
instant 1000, asked long after. -/
theorem needsPoll_false_without_basis_witness :
    needsPoll (clockScript ⟨999999999999999⟩).env () (some ⟨1000⟩)
        (imageCatalog none (syncedStatus 1)) = (Ret.ok false, ()) :=
  needsPoll_false_without_basis _ () (some ⟨1000⟩) (imageCatalog none (syncedStatus 1))
    (Or.inr (by decide))

/-! ## The file system table -/

theorem Lstat_append (a b : FileSystem) (q : Path) :
    Lstat (a ++ b) q = (Lstat a q).orElse (fun _ => Lstat b q) := by
  induction a with
  | nil => simp [Lstat]
  | cons e rest ih =>
    obtain ⟨p, inode⟩ := e
    by_cases h : p = q
    · simp [Lstat, h]
    · simp [Lstat, h, ih]

theorem Lstat_cons (r q : Path) (inode : Inode) (rest : FileSystem) :
    Lstat ((r, inode) :: rest) q = if r = q then some inode else Lstat rest q := rfl

theorem setPerm_cons (r p : Path) (inode : Inode) (rest : FileSystem) (m : Nat) :
    setPerm ((r, inode) :: rest) p m
      = (if r = p then (r, { inode with perm := m }) else (r, inode)) :: setPerm rest p m := rfl

theorem setData_cons (r p : Path) (inode : Inode) (rest : FileSystem) (d : Bytes) :
    setData ((r, inode) :: rest) p d
      = (if r = p then (r, { inode with data := d }) else (r, inode)) :: setData rest p d := rfl

theorem Lstat_setPerm (fs : FileSystem) (p q : Path) (m : Nat) :
    Lstat (setPerm fs p m) q
      = if q = p then (Lstat fs q).map (fun i => { i with perm := m }) else Lstat fs q := by
  induction fs with
  | nil => simp [setPerm, Lstat]
  | cons e rest ih =>
    obtain ⟨r, inode⟩ := e
    rw [setPerm_cons]
    by_cases hr : r = p
    · rw [if_pos hr, Lstat_cons, Lstat_cons, ih]
      by_cases hrq : r = q
      · have hq : q = p := hrq ▸ hr
        rw [if_pos hrq, if_pos hq, if_pos hrq]
        rfl
      · rw [if_neg hrq, if_neg hrq]
    · rw [if_neg hr, Lstat_cons, Lstat_cons, ih]
      by_cases hrq : r = q
      · have hq : ¬ q = p := fun h => hr (hrq.trans h)
        rw [if_pos hrq, if_neg hq, if_pos hrq]
      · rw [if_neg hrq, if_neg hrq]

theorem Lstat_setData (fs : FileSystem) (p q : Path) (d : Bytes) :
    Lstat (setData fs p d) q
      = if q = p then (Lstat fs q).map (fun i => { i with data := d }) else Lstat fs q := by
  induction fs with
  | nil => simp [setData, Lstat]
  | cons e rest ih =>
    obtain ⟨r, inode⟩ := e
    rw [setData_cons]
    by_cases hr : r = p
    · rw [if_pos hr, Lstat_cons, Lstat_cons, ih]
      by_cases hrq : r = q
      · have hq : q = p := hrq ▸ hr
        rw [if_pos hrq, if_pos hq, if_pos hrq]
        rfl
      · rw [if_neg hrq, if_neg hrq]
    · rw [if_neg hr, Lstat_cons, Lstat_cons, ih]
      by_cases hrq : r = q
      · have hq : ¬ q = p := fun h => hr (hrq.trans h)
        rw [if_pos hrq, if_neg hq, if_pos hrq]
      · rw [if_neg hrq, if_neg hrq]

theorem Lstat_removeTree (fs : FileSystem) (root q : Path) :
    Lstat (removeTree fs root) q = if root <+: q then none else Lstat fs q := by
  induction fs with
  | nil => simp [removeTree, Lstat]
  | cons e rest ih =>
    obtain ⟨r, inode⟩ := e
    simp only [removeTree] at ih ⊢
    by_cases hr : root <+: r
    · rw [List.filter_cons_of_neg (by simpa using hr), ih, Lstat_cons]
      by_cases hrq : r = q
      · rw [if_pos (hrq ▸ hr), if_pos (hrq ▸ hr)]
      · rw [if_neg hrq]
    · rw [List.filter_cons_of_pos (by simpa using hr), Lstat_cons, Lstat_cons, ih]
      by_cases hrq : r = q
      · rw [if_pos hrq, if_pos hrq, if_neg (hrq ▸ hr)]
      · rw [if_neg hrq, if_neg hrq]

theorem Lstat_some_mem (fs : FileSystem) (q : Path) (inode : Inode)
    (h : Lstat fs q = some inode) : (q, inode) ∈ fs := by
  induction fs with
  | nil => simp [Lstat] at h
  | cons e rest ih =>
    obtain ⟨r, i⟩ := e
    by_cases hr : r = q
    · simp [Lstat, hr] at h
      simp [hr, h]
    · simp [Lstat, hr] at h
      exact List.mem_cons_of_mem _ (ih h)

theorem Lstat_isSome_of_mem (fs : FileSystem) (q : Path) (inode : Inode)
    (h : (q, inode) ∈ fs) : ∃ i, Lstat fs q = some i := by
  induction fs with
  | nil => simp at h
  | cons e rest ih =>
    obtain ⟨r, i⟩ := e
    by_cases hr : r = q
    · exact ⟨i, by simp [Lstat, hr]⟩
    · have hmem : (q, inode) ∈ rest := by
        rcases List.mem_cons.mp h with h1 | h1
        · exact absurd (congrArg Prod.fst h1).symm hr
        · exact h1
      obtain ⟨j, hj⟩ := ih hmem
      exact ⟨j, by simp [Lstat, hr, hj]⟩

theorem mem_entriesUnder (fs : FileSystem) (root q : Path) :
    q ∈ entriesUnder fs root ↔ root <+: q ∧ ∃ i, Lstat fs q = some i := by
  simp only [entriesUnder, List.mem_filter, List.mem_map, decide_eq_true_eq]
  constructor
  · rintro ⟨⟨⟨p, inode⟩, hmem, rfl⟩, hpre⟩
    exact ⟨hpre, Lstat_isSome_of_mem fs p inode hmem⟩
  · rintro ⟨hpre, i, hi⟩
    exact ⟨⟨(q, i), Lstat_some_mem fs q i hi, rfl⟩, hpre⟩

/-! ## Sealing a tree -/

theorem Chmod_ok (faults : Faults) (fs fs1 : FileSystem) (p : Path) (m : Nat)
    (h : Chmod faults fs p m = (none, fs1)) : fs1 = setPerm fs p m := by
  unfold Chmod at h
  split at h
  · simp at h
  · split at h
    · simp at h
    · simpa using h.symm

theorem Chmod_snd (faults : Faults) (fs : FileSystem) (p : Path) (m : Nat) :
    (Chmod faults fs p m).2 = fs ∨ (Chmod faults fs p m).2 = setPerm fs p m := by
  unfold Chmod
  split
  · exact Or.inl rfl
  · split
    · exact Or.inl rfl
    · exact Or.inr rfl

theorem sealed_setPerm_dir (i : Inode) (h : i.typ = .dir) :
    ({ i with perm := 0o500 } : Inode) = sealed i
      ∧ sealed { i with perm := 0o500 } = sealed i := by
  simp [sealed, h]

theorem sealed_setPerm_regular (i : Inode) (h : i.typ = .regular) :
    ({ i with perm := 0o400 } : Inode) = sealed i
      ∧ sealed { i with perm := 0o400 } = sealed i := by
  simp [sealed, h]

theorem sealed_symlink (i : Inode) (h : i.typ = .symlink) : sealed i = i := by
  simp [sealed, h]

theorem sealEntries_ok (faults : Faults) (paths : List Path) :
    ∀ fs fs1 : FileSystem, sealEntries faults paths fs = (none, fs1) →
      (∀ q ∈ paths, ∃ i, Lstat fs q = some i ∧ i.typ ≠ .other)
        ∧ ∀ q, Lstat fs1 q = (Lstat fs q).map (fun i => if q ∈ paths then sealed i else i) := by
  induction paths with
  | nil =>
    intro fs fs1 h
    simp only [sealEntries, Prod.mk.injEq, true_and] at h
    subst h
    simp
  | cons p ps ih =>
    intro fs fs1 h
    rw [sealEntries] at h
    cases hp : Lstat fs p with
    | none => simp [hp] at h
    | some fi =>
      rw [hp] at h
      simp only at h
      cases ht : fi.typ with
      | other => simp [ht] at h
      | symlink =>
        simp only [ht] at h
        obtain ⟨h1, h2⟩ := ih fs fs1 h
        refine ⟨?_, fun q => ?_⟩
        · intro q hq
          rcases List.mem_cons.mp hq with rfl | hq
          · exact ⟨fi, hp, by simp [ht]⟩
          · exact h1 q hq
        · rw [h2 q]
          by_cases hqp : q = p
          · subst hqp
            simp [hp, sealed_symlink fi ht]
          · simp [hqp]
      | dir =>
        simp only [ht] at h
        cases hc : Chmod faults fs p 0o500 with
        | mk cerr fs2 =>
          rw [hc] at h
          cases cerr with
          | some e => simp at h
          | none =>
            simp only at h
            have hfs2 := Chmod_ok faults fs fs2 p 0o500 hc
            obtain ⟨h1, h2⟩ := ih fs2 fs1 h
            have hl : ∀ q, Lstat fs2 q
                = if q = p then (Lstat fs q).map (fun i => { i with perm := 0o500 })
                  else Lstat fs q := fun q => by rw [hfs2, Lstat_setPerm]
            refine ⟨?_, fun q => ?_⟩
            · intro q hq
              rcases List.mem_cons.mp hq with rfl | hq
              · exact ⟨fi, hp, by simp [ht]⟩
              · obtain ⟨i, hi, hty⟩ := h1 q hq
                rw [hl q] at hi
                by_cases hqp : q = p
                · subst hqp
                  exact ⟨fi, hp, by simp [ht]⟩
                · rw [if_neg hqp] at hi
                  exact ⟨i, hi, hty⟩
            · rw [h2 q, hl q]
              by_cases hqp : q = p
              · subst hqp
                obtain ⟨e1, e2⟩ := sealed_setPerm_dir fi ht
                by_cases hmem : q ∈ ps
                · simp only [if_true, hp, Option.map_some', hmem, List.mem_cons, true_or]
                  rw [e2]
                · simp only [if_true, hp, Option.map_some', hmem, List.mem_cons, true_or,
                    if_false]
                  rw [e1]
              · simp [hqp]
      | regular =>
        simp only [ht] at h
        cases hc : Chmod faults fs p 0o400 with
        | mk cerr fs2 =>
          rw [hc] at h
          cases cerr with
          | some e => simp at h
          | none =>
            simp only at h
            have hfs2 := Chmod_ok faults fs fs2 p 0o400 hc
            obtain ⟨h1, h2⟩ := ih fs2 fs1 h
            have hl : ∀ q, Lstat fs2 q
                = if q = p then (Lstat fs q).map (fun i => { i with perm := 0o400 })
                  else Lstat fs q := fun q => by rw [hfs2, Lstat_setPerm]
            refine ⟨?_, fun q => ?_⟩
            · intro q hq
              rcases List.mem_cons.mp hq with rfl | hq
              · exact ⟨fi, hp, by simp [ht]⟩
              · obtain ⟨i, hi, hty⟩ := h1 q hq
                rw [hl q] at hi
                by_cases hqp : q = p
                · subst hqp
                  exact ⟨fi, hp, by simp [ht]⟩
                · rw [if_neg hqp] at hi
                  exact ⟨i, hi, hty⟩
            · rw [h2 q, hl q]
              by_cases hqp : q = p
              · subst hqp
                obtain ⟨e1, e2⟩ := sealed_setPerm_regular fi ht
                by_cases hmem : q ∈ ps
                · simp only [if_true, hp, Option.map_some', hmem, List.mem_cons, true_or]
                  rw [e2]
                · simp only [if_true, hp, Option.map_some', hmem, List.mem_cons, true_or,
                    if_false]
                  rw [e1]
              · simp [hqp]

theorem sealEntries_elsewhere (faults : Faults) (paths : List Path) :
    ∀ (fs : FileSystem) (q : Path), q ∉ paths →
      Lstat (sealEntries faults paths fs).2 q = Lstat fs q := by
  induction paths with
  | nil => intro fs q _; rfl
  | cons p ps ih =>
    intro fs q hq
    have hqp : q ≠ p := fun h => hq (h ▸ List.mem_cons_self _ _)
    have hqps : q ∉ ps := fun h => hq (List.mem_cons_of_mem _ h)
    have hch : ∀ m, Lstat (Chmod faults fs p m).2 q = Lstat fs q := fun m => by
      rcases Chmod_snd faults fs p m with h | h
      · rw [h]
      · rw [h, Lstat_setPerm, if_neg hqp]
    rw [sealEntries]
    split
    · rfl
    · split
      · exact ih fs q hqps
      · split
        · next e fs1 hc => have := hch 0o500; rw [hc] at this; exact this
        · next fs1 hc =>
          have := hch 0o500
          rw [hc] at this
          rw [ih fs1 q hqps]
          exact this
      · split
        · next e fs1 hc => have := hch 0o400; rw [hc] at this; exact this
        · next fs1 hc =>
          have := hch 0o400
          rw [hc] at this
          rw [ih fs1 q hqps]
          exact this
      · rfl

theorem setReadOnlyRecursive_ok (faults : Faults) (fs fs1 : FileSystem) (root : Path)
    (h : setReadOnlyRecursive faults fs root = (none, fs1)) :
    sealEntries faults (entriesUnder fs root) fs = (none, fs1) := by
  unfold setReadOnlyRecursive at h
  split at h
  · simp at h
  · split at h
    · simp at h
    · next fs2 hs =>
      simp only [Prod.mk.injEq, true_and] at h
      rw [hs, h]

theorem setReadOnlyRecursive_snd (faults : Faults) (fs : FileSystem) (root : Path) :
    (setReadOnlyRecursive faults fs root).2 = fs
      ∨ (setReadOnlyRecursive faults fs root).2
        = (sealEntries faults (entriesUnder fs root) fs).2 := by
  unfold setReadOnlyRecursive
  split
  · exact Or.inl rfl
  · split
    · next e fs2 hs => right; rw [hs]
    · next fs2 hs => right; rw [hs]

/-- C18: a successful setReadOnlyRecursive(root) leaves every directory at or
below root with mode 0500 and every regular file with mode 0400, leaves
symbolic links as they were (they are not followed) and changes nothing
outside root, whether it succeeds or not; when the tree holds a file of any
other type it returns an error (so success means there was none). -/
theorem setReadOnlyRecursive_seals_tree (faults : Faults) (fs : FileSystem) (root : Path) :
    (∀ fs1, setReadOnlyRecursive faults fs root = (none, fs1) →
        ∀ q i, root <+: q → Lstat fs q = some i →
          i.typ ≠ .other
          ∧ (i.typ = .dir → Lstat fs1 q = some { i with perm := 0o500 })
          ∧ (i.typ = .regular → Lstat fs1 q = some { i with perm := 0o400 })
          ∧ (i.typ = .symlink → Lstat fs1 q = some i))
      ∧ (∀ q, ¬ root <+: q → Lstat (setReadOnlyRecursive faults fs root).2 q = Lstat fs q)
      ∧ ((∃ q i, root <+: q ∧ Lstat fs q = some i ∧ i.typ = .other) →
          (setReadOnlyRecursive faults fs root).1 ≠ none) := by
  have key : ∀ fs1, setReadOnlyRecursive faults fs root = (none, fs1) →
      ∀ q i, root <+: q → Lstat fs q = some i →
        i.typ ≠ .other ∧ Lstat fs1 q = some (sealed i) := by
    intro fs1 h q i hq hi
    obtain ⟨h1, h2⟩ := sealEntries_ok faults _ fs fs1 (setReadOnlyRecursive_ok faults fs fs1 root h)
    have hmem : q ∈ entriesUnder fs root := (mem_entriesUnder fs root q).mpr ⟨hq, i, hi⟩
    obtain ⟨j, hj, hty⟩ := h1 q hmem
    rw [hi] at hj
    cases hj
    refine ⟨hty, ?_⟩
    rw [h2 q, hi]
    simp [hmem]
  refine ⟨?_, ?_, ?_⟩
  · intro fs1 h q i hq hi
    obtain ⟨hty, hs⟩ := key fs1 h q i hq hi
    refine ⟨hty, fun hd => ?_, fun hr => ?_, fun hl => ?_⟩
    · rw [hs]; simp [sealed, hd]
    · rw [hs]; simp [sealed, hr]
    · rw [hs]; simp [sealed, hl]
  · intro q hq
    have hnot : q ∉ entriesUnder fs root := fun hm => hq ((mem_entriesUnder fs root q).mp hm).1
    rcases setReadOnlyRecursive_snd faults fs root with h | h
    · rw [h]
    · rw [h, sealEntries_elsewhere faults _ fs q hnot]
  · rintro ⟨q, i, hq, hi, hty⟩ hnone
    have h : setReadOnlyRecursive faults fs root
        = (none, (setReadOnlyRecursive faults fs root).2) := by
      rw [← hnone]
    exact (key _ h q i hq hi).1 hty

/-- Witness of C18: a tree with a directory, a file and a symbolic link that
points out of the tree is sealed; the file behind the link keeps its mode. -/
theorem setReadOnlyRecursive_seals_tree_witness :
    Lstat (setReadOnlyRecursive noFaults mixedTree ["entry"]).2 ["entry", "bin", "tool"]
        = some { typ := .regular, perm := 0o400, data := [1, 2] }
      ∧ Lstat (setReadOnlyRecursive noFaults mixedTree ["entry"]).2 ["opt", "secret"]
        = some { typ := .regular, perm := 0o600, data := [9] } :=
  ⟨((setReadOnlyRecursive_seals_tree noFaults mixedTree ["entry"]).1 _ (by decide)
      ["entry", "bin", "tool"] { typ := .regular, perm := 0o755, data := [1, 2] }
      (by decide) (by decide)).2.2.1 rfl,
    ((setReadOnlyRecursive_seals_tree noFaults mixedTree ["entry"]).2.1 ["opt", "secret"]
      (by decide)).trans (by decide)⟩

/-! ## Deleting a tree -/

theorem makeWritable_elsewhere (faults : Faults) (paths : List Path) :
    ∀ (fs : FileSystem) (q : Path), q ∉ paths →
      Lstat (makeWritable faults paths fs).2 q = Lstat fs q := by
  induction paths with
  | nil => intro fs q _; rfl
  | cons p ps ih =>
    intro fs q hq
    have hqp : q ≠ p := fun h => hq (h ▸ List.mem_cons_self _ _)
    have hqps : q ∉ ps := fun h => hq (List.mem_cons_of_mem _ h)
    have hch : Lstat (Chmod faults fs p 0o700).2 q = Lstat fs q := by
      rcases Chmod_snd faults fs p 0o700 with h | h
      · rw [h]
      · rw [h, Lstat_setPerm, if_neg hqp]
    rw [makeWritable]
    split
    · exact ih fs q hqps
    · split
      · exact ih fs q hqps
      · split
        · next e fs1 hc => rw [hc] at hch; exact hch
        · next fs1 hc =>
          rw [hc] at hch
          rw [ih fs1 q hqps]
          exact hch

theorem RemoveAll_snd (faults : Faults) (fs : FileSystem) (root : Path) :
    (RemoveAll faults fs root).2 = fs ∨ (RemoveAll faults fs root).2 = removeTree fs root := by
  unfold RemoveAll
  split
  · exact Or.inl rfl
  · exact Or.inr rfl

theorem RemoveAll_ok (faults : Faults) (fs fs1 : FileSystem) (root : Path)
    (h : RemoveAll faults fs root = (none, fs1)) : fs1 = removeTree fs root := by
  unfold RemoveAll at h
  split at h
  · simp at h
  · simpa using h.symm

theorem walked_elsewhere (faults : Faults) (fs : FileSystem) (root q : Path)
    (hq : ¬ root <+: q) :
    Lstat (match Lstat fs root with
      | none => ((none : Option Err), fs)
      | some _ => makeWritable faults (entriesUnder fs root) fs).2 q = Lstat fs q := by
  have hnot : q ∉ entriesUnder fs root := fun hm => hq ((mem_entriesUnder fs root q).mp hm).1
  split
  · rfl
  · exact makeWritable_elsewhere faults _ fs q hnot

theorem deleteRecursive_elsewhere (faults : Faults) (fs : FileSystem) (root q : Path)
    (hq : ¬ root <+: q) : Lstat (deleteRecursive faults fs root).2 q = Lstat fs q := by
  have hw := walked_elsewhere faults fs root q hq
  unfold deleteRecursive
  simp only
  split
  · next e fs1 hs => rw [hs] at hw; exact hw
  · next fs1 hs =>
    rw [hs] at hw
    rcases RemoveAll_snd faults fs1 root with h | h
    · rw [h]; exact hw
    · rw [h, Lstat_removeTree, if_neg hq]; exact hw

theorem deleteRecursive_ok (faults : Faults) (fs fs1 : FileSystem) (root : Path)
    (h : deleteRecursive faults fs root = (none, fs1)) (q : Path) :
    Lstat fs1 q = if root <+: q then none else Lstat fs q := by
  by_cases hq : root <+: q
  · rw [if_pos hq]
    unfold deleteRecursive at h
    simp only at h
    split at h
    · simp at h
    · next fs2 hs =>
      rw [RemoveAll_ok faults fs2 fs1 root h, Lstat_removeTree, if_pos hq]
  · rw [if_neg hq]
    have := deleteRecursive_elsewhere faults fs root q hq
    rw [h] at this
    exact this

/-! ## Garbage collection of the web cache -/

theorem prefix_split (cp q : Path) (h : cp <+: q) (hne : q ≠ cp) :
    ∃ n rest, q = cp ++ n :: rest := by
  obtain ⟨t, rfl⟩ := h
  cases t with
  | nil => simp at hne
  | cons n rest => exact ⟨n, rest, rfl⟩

theorem snoc_prefix_cons (cp : Path) (n : String) (rest : Path) :
    (cp ++ [n]) <+: (cp ++ n :: rest) :=
  ⟨rest, by simp⟩

theorem get?_below (cp : Path) (n : String) (rest : Path) :
    (cp ++ n :: rest).get? cp.length = some n := by
  induction cp with
  | nil => rfl
  | cons c cs ih => simpa using ih

theorem below_of_snoc_below (cp q : Path) (n : String) (h : (cp ++ [n]) <+: q) : cp <+: q :=
  (List.prefix_append cp [n]).trans h

theorem snoc_prefix_unique (cp q : Path) (n m : String) (hn : (cp ++ [n]) <+: q)
    (hm : (cp ++ [m]) <+: q) : n = m := by
  obtain ⟨t, rfl⟩ := hn
  obtain ⟨u, hu⟩ := hm
  simp only [List.append_assoc, List.append_cancel_left_eq, List.singleton_append,
    List.cons.injEq] at hu
  exact hu.1.symm

theorem not_snoc_prefix_self (cp : Path) (n : String) : ¬ (cp ++ [n]) <+: cp := by
  intro h
  have := h.length_le
  simp at this

theorem makeWritable_none (faults : Faults) (paths : List Path) :
    ∀ (fs : FileSystem) (q : Path), Lstat fs q = none →
      Lstat (makeWritable faults paths fs).2 q = none := by
  induction paths with
  | nil => intro fs q h; exact h
  | cons p ps ih =>
    intro fs q hq
    have hch : Lstat (Chmod faults fs p 0o700).2 q = none := by
      rcases Chmod_snd faults fs p 0o700 with h | h
      · rw [h]; exact hq
      · rw [h, Lstat_setPerm, hq]; simp
    rw [makeWritable]
    split
    · exact ih fs q hq
    · split
      · exact ih fs q hq
      · split
        · next e fs1 hc => rw [hc] at hch; exact hch
        · next fs1 hc =>
          rw [hc] at hch
          exact ih fs1 q hch

theorem deleteRecursive_none (faults : Faults) (fs : FileSystem) (root q : Path)
    (hq : Lstat fs q = none) : Lstat (deleteRecursive faults fs root).2 q = none := by
  have hw : Lstat (match Lstat fs root with
      | none => ((none : Option Err), fs)
      | some _ => makeWritable faults (entriesUnder fs root) fs).2 q = none := by
    split
    · exact hq
    · exact makeWritable_none faults _ fs q hq
  unfold deleteRecursive
  simp only
  split
  · next e fs1 hs => rw [hs] at hw; exact hw
  · next fs1 hs =>
    rw [hs] at hw
    rcases RemoveAll_snd faults fs1 root with h | h
    · rw [h]; exact hw
    · rw [h, Lstat_removeTree]
      split
      · rfl
      · exact hw

theorem deleteOthers_none (faults : Faults) (cp : Path) (keep : String) (names : List String) :
    ∀ (fs : FileSystem) (q : Path), Lstat fs q = none →
      Lstat (deleteOthers faults cp keep names fs).2 q = none := by
  induction names with
  | nil => intro fs q h; exact h
  | cons n ns ih =>
    intro fs q hq
    have hd := deleteRecursive_none faults fs (cp ++ [n]) q hq
    rw [deleteOthers]
    split
    · exact ih fs q hq
    · simp only [sourceDeleteRecursive]
      split
      · next e fs1 hs => rw [hs] at hd; exact hd
      · next fs1 hs =>
        rw [hs] at hd
        exact ih fs1 q hd

theorem deleteOthers_elsewhere (faults : Faults) (cp : Path) (keep : String)
    (names : List String) :
    ∀ (fs : FileSystem) (q : Path), (∀ n ∈ names, n ≠ keep → ¬ (cp ++ [n]) <+: q) →
      Lstat (deleteOthers faults cp keep names fs).2 q = Lstat fs q := by
  induction names with
  | nil => intro fs q _; rfl
  | cons n ns ih =>
    intro fs q hq
    have hns : ∀ m ∈ ns, m ≠ keep → ¬ (cp ++ [m]) <+: q :=
      fun m hm => hq m (List.mem_cons_of_mem _ hm)
    rw [deleteOthers]
    split
    · exact ih fs q hns
    · next hnk =>
      have hd := deleteRecursive_elsewhere faults fs (cp ++ [n]) q
        (hq n (List.mem_cons_self _ _) hnk)
      simp only [sourceDeleteRecursive]
      split
      · next e fs1 hs => rw [hs] at hd; exact hd
      · next fs1 hs =>
        rw [hs] at hd
        rw [ih fs1 q hns]
        exact hd

theorem deleteOthers_ok (faults : Faults) (cp : Path) (keep : String) (names : List String) :
    ∀ (fs fs1 : FileSystem), deleteOthers faults cp keep names fs = (none, fs1) →
      ∀ q, (∃ n ∈ names, n ≠ keep ∧ (cp ++ [n]) <+: q) → Lstat fs1 q = none := by
  induction names with
  | nil => intro fs fs1 _ q ⟨n, hn, _⟩; simp at hn
  | cons n ns ih =>
    intro fs fs1 h q ⟨m, hm, hmk, hpre⟩
    rw [deleteOthers] at h
    split at h
    · next hnk =>
      rcases List.mem_cons.mp hm with rfl | hm
      · exact absurd hnk hmk
      · exact ih fs fs1 h q ⟨m, hm, hmk, hpre⟩
    · next hnk =>
      simp only [sourceDeleteRecursive] at h
      split at h
      · simp at h
      · next fs2 hs =>
        rcases List.mem_cons.mp hm with rfl | hm
        · have hgone : Lstat fs2 q = none := by
            rw [deleteRecursive_ok faults fs fs2 _ hs q, if_pos hpre]
          have := deleteOthers_none faults cp keep ns fs2 q hgone
          rw [h] at this
          exact this
        · exact ih fs2 fs1 h q ⟨m, hm, hmk, hpre⟩

theorem mem_childNames (fs : FileSystem) (cp : Path) (n : String) (rest : Path) (i : Inode)
    (h : Lstat fs (cp ++ n :: rest) = some i) : n ∈ childNames fs cp := by
  simp only [childNames, List.mem_dedup, List.mem_filterMap]
  exact ⟨cp ++ n :: rest,
    (mem_entriesUnder fs cp _).mpr ⟨List.prefix_append cp _, i, h⟩, get?_below cp n rest⟩

theorem Lstat_append_single_ne (fs : FileSystem) (p q : Path) (inode : Inode) (h : q ≠ p) :
    Lstat (fs ++ [(p, inode)]) q = Lstat fs q := by
  rw [Lstat_append]
  have hpq : ¬ p = q := fun h' => h h'.symm
  have : Lstat [(p, inode)] q = none := by
    simp [Lstat, hpq]
  rw [this]
  cases Lstat fs q <;> rfl

theorem Lstat_append_single_new (fs : FileSystem) (p : Path) (inode : Inode)
    (h : Lstat fs p = none) : Lstat (fs ++ [(p, inode)]) p = some inode := by
  rw [Lstat_append, h]
  simp [Lstat]

theorem Lstat_append_mono (fs extra : FileSystem) (q : Path) (i : Inode)
    (h : Lstat fs q = some i) : Lstat (fs ++ extra) q = some i := by
  rw [Lstat_append, h]
  rfl

theorem mkdirs_mono (perm : Nat) (qs : List Path) :
    ∀ (fs : FileSystem) (q : Path) (i : Inode), Lstat fs q = some i →
      Lstat (mkdirs perm qs fs).2 q = some i := by
  induction qs with
  | nil => intro fs q i h; exact h
  | cons p ps ih =>
    intro fs q i h
    rw [mkdirs]
    split
    · exact ih _ q i (Lstat_append_mono fs _ q i h)
    · split
      · exact ih fs q i h
      · exact h

theorem mkdirs_ok (perm : Nat) (qs : List Path) :
    ∀ (fs fs1 : FileSystem), mkdirs perm qs fs = (none, fs1) →
      ∀ q ∈ qs, ∃ i, Lstat fs1 q = some i ∧ i.typ = .dir := by
  induction qs with
  | nil => intro fs fs1 _ q hq; simp at hq
  | cons p ps ih =>
    intro fs fs1 h q hq
    rw [mkdirs] at h
    split at h
    · next hnone =>
      rcases List.mem_cons.mp hq with rfl | hq
      · have hnew := Lstat_append_single_new fs q { typ := .dir, perm := perm, data := [] } hnone
        have := mkdirs_mono perm ps _ q _ hnew
        rw [h] at this
        exact ⟨_, this, rfl⟩
      · exact ih _ fs1 h q hq
    · next inode hsome =>
      split at h
      · next hdir =>
        rcases List.mem_cons.mp hq with rfl | hq
        · have := mkdirs_mono perm ps fs q inode hsome
          rw [h] at this
          exact ⟨inode, this, hdir⟩
        · exact ih fs fs1 h q hq
      · simp at h

theorem self_mem_inits_tail (p : Path) (h : p ≠ []) : p ∈ p.inits.tail := by
  cases p with
  | nil => exact absurd rfl h
  | cons a l =>
    simp only [List.inits, List.tail_cons, List.mem_map]
    exact ⟨l, (List.mem_inits l l).mpr (List.prefix_refl l), rfl⟩

theorem MkdirAll_ok (faults : Faults) (fs fs1 : FileSystem) (path : Path) (perm : Nat)
    (hne : path ≠ []) (h : MkdirAll faults fs path perm = (none, fs1)) :
    ∃ i, Lstat fs1 path = some i ∧ i.typ = .dir := by
  unfold MkdirAll at h
  split at h
  · simp at h
  · exact mkdirs_ok perm _ fs fs1 h path (self_mem_inits_tail path hne)

theorem Create_elsewhere (faults : Faults) (fs : FileSystem) (path q : Path) (h : q ≠ path) :
    Lstat (Create faults fs path).2 q = Lstat fs q := by
  unfold Create
  split
  · rfl
  · split
    · split
      · rfl
      · simp only
        rw [Lstat_setData, if_neg h]
    · split
      · exact Lstat_append_single_ne fs path q _ h
      · split
        · rfl
        · split
          · exact Lstat_append_single_ne fs path q _ h
          · rfl

theorem saveWebCatalog_ok (faults : Faults) (modTime t : Time) (content : Bytes)
    (dest : Path) (fs fs1 : FileSystem) (hne : dest ≠ [])
    (h : saveWebCatalog faults modTime content dest fs = (.ok t, fs1)) :
    ∃ i, Lstat fs1 dest = some i ∧ i.typ = .dir := by
  have hfile : dest ≠ dest ++ ["catalog.yaml"] := by
    intro heq
    have := congrArg List.length heq
    simp at this
  unfold saveWebCatalog at h
  split at h
  · simp at h
  · next fs2 hmk =>
    obtain ⟨i, hi, hdir⟩ := MkdirAll_ok faults fs fs2 dest 0o700 hne hmk
    simp only at h
    split at h
    · simp only [Prod.mk.injEq] at h
      rw [← h.2]
      exact ⟨i, hi, hdir⟩
    · split at h
      · simp at h
      · next fs3 hcr =>
        have hc := Create_elsewhere faults fs2 (dest ++ ["catalog.yaml"]) dest hfile
        rw [hcr] at hc
        split at h
        · simp at h
        · simp only [Prod.mk.injEq] at h
          rw [← h.2, Lstat_setData, if_neg hfile, hc]
          exact ⟨i, hi, hdir⟩

theorem filepathJoin_fold (name : List String) (h : plainElements name) :
    ∀ acc : Path,
      name.foldl
        (fun acc elem =>
          if elem = "" ∨ elem = "." then acc
          else if elem = ".." then acc.dropLast
          else acc ++ [elem]) acc = acc ++ name := by
  induction name with
  | nil => intro acc; simp
  | cons elem name ih =>
    intro acc
    obtain ⟨h1, h2, h3⟩ := h elem (List.mem_cons_self _ _)
    rw [List.foldl_cons, if_neg (by simp [h1, h2]), if_neg h3,
      ih (fun e he => h e (List.mem_cons_of_mem _ he))]
    simp

/-- A name of plain elements is joined to a destination of plain elements as it
is: the target lies below the destination. -/
theorem filepathJoin_plain (dest : Path) (name : List String) (hd : plainElements dest)
    (hn : plainElements name) : filepathJoin dest name = dest ++ name := by
  unfold filepathJoin
  rw [filepathJoin_fold (dest ++ name) (fun e he => by
    rcases List.mem_append.1 he with h | h
    · exact hd e h
    · exact hn e h)]
  rfl

theorem filepathJoin_fold_plain (name : List String) :
    ∀ acc : Path, plainElements acc →
      plainElements (name.foldl
        (fun acc elem =>
          if elem = "" ∨ elem = "." then acc
          else if elem = ".." then acc.dropLast
          else acc ++ [elem]) acc) := by
  induction name with
  | nil => intro acc h; simpa using h
  | cons elem name ih =>
    intro acc h
    rw [List.foldl_cons]
    apply ih
    by_cases h1 : elem = "" ∨ elem = "."
    · rw [if_pos h1]
      exact h
    · rw [if_neg h1]
      by_cases h2 : elem = ".."
      · rw [if_pos h2]
        exact fun e he => h e (List.mem_of_mem_dropLast he)
      · rw [if_neg h2]
        intro e he
        rcases List.mem_append.1 he with he | he
        · exact h e he
        · rw [List.mem_singleton] at he
          subst he
          exact ⟨fun h0 => h1 (Or.inl h0), fun h0 => h1 (Or.inr h0), h2⟩

/-- What `filepath.Join` returns is clean: its elements are plain. -/
theorem filepathJoin_clean (dest : Path) (name : List String) :
    plainElements (filepathJoin dest name) :=
  filepathJoin_fold_plain (dest ++ name) [] (fun _ he => by cases he)

/-- Joining in two steps is joining at once. -/
theorem filepathJoin_assoc (dest : Path) (name rest : List String) :
    filepathJoin (filepathJoin dest name) rest = filepathJoin dest (name ++ rest) := by
  have hclean := filepathJoin_fold _ (filepathJoin_clean dest name) []
  rw [List.nil_append] at hclean
  show List.foldl _ [] (filepathJoin dest name ++ rest) = List.foldl _ [] (dest ++ (name ++ rest))
  rw [List.foldl_append, hclean, ← List.append_assoc, List.foldl_append]
  rfl

theorem splitElements_plain (cs : List Char) (h : '/' ∉ cs) : splitElements cs = [cs] := by
  induction cs with
  | nil => rfl
  | cons c cs ih =>
    have hc : c ≠ '/' := fun hc => h (by simp [hc])
    have hcs : '/' ∉ cs := fun hcs => h (List.mem_cons_of_mem _ hcs)
    simp [splitElements, hc, ih hcs]

/-- A plain name is a single element. -/
theorem pathElements_plain (name : String) (h : plainName name) : pathElements name = [name] := by
  unfold pathElements
  rw [splitElements_plain _ h.1]
  rfl

/-- A plain name is appended to the cleaned directory. -/
theorem filepathJoin_snoc (dest : Path) (name : String) (h : plainName name) :
    filepathJoin dest (pathElements name) = filepathJoin dest [] ++ [name] := by
  rw [pathElements_plain name h]
  show List.foldl _ [] (dest ++ [name]) = List.foldl _ [] (dest ++ []) ++ [name]
  rw [List.foldl_append, List.append_nil, List.foldl_cons, List.foldl_nil,
    if_neg (by simp [h.2.1, h.2.2.1]), if_neg h.2.2.2]

theorem catalogPath_snoc (w : WebRegistry) (name : String) (h : plainName name) :
    w.catalogPath name = filepathJoin w.BaseCachePath [] ++ [name] :=
  filepathJoin_snoc _ name h

theorem unpackPath_plain (w : WebRegistry) (name digest : String) (h : plainName digest) :
    w.unpackPath name digest = w.catalogPath name ++ [digest] := by
  have hclean : plainElements (w.catalogPath name) := filepathJoin_clean _ _
  unfold WebRegistry.unpackPath
  rw [filepathJoin_snoc _ digest h,
    filepathJoin_plain _ [] hclean (fun _ he => by cases he), List.append_nil]

theorem unpackPath_join (w : WebRegistry) (name digest : String) :
    w.unpackPath name digest
      = filepathJoin w.BaseCachePath (pathElements name ++ pathElements digest) :=
  filepathJoin_assoc _ _ _

/-- The directories of two different plain names have no path in common. -/
theorem catalogPath_disjoint (w : WebRegistry) (name other : String) (hname : plainName name)
    (hother : plainName other) (hne : other ≠ name) (q : Path)
    (hq : w.catalogPath other <+: q) : ¬ w.catalogPath name <+: q := by
  rw [catalogPath_snoc w name hname]
  rw [catalogPath_snoc w other hother] at hq
  exact fun h => hne (snoc_prefix_unique _ q other name hq h)

theorem deleteOtherCatalogs_ok (w : WebRegistry) (faults : Faults) (fs fs1 : FileSystem)
    (name keep : String) (hplain : plainName keep)
    (h : w.deleteOtherCatalogs faults fs name keep = (none, fs1)) :
    (∀ q, w.catalogPath name <+: q → q ≠ w.catalogPath name →
        ¬ w.unpackPath name keep <+: q → Lstat fs1 q = none)
      ∧ (∀ q, w.unpackPath name keep <+: q → Lstat fs1 q = Lstat fs q)
      ∧ (∀ q, ¬ w.catalogPath name <+: q → Lstat fs1 q = Lstat fs q)
      ∧ Lstat fs1 (w.catalogPath name) = Lstat fs (w.catalogPath name) := by
  rw [unpackPath_plain w name keep hplain]
  unfold WebRegistry.deleteOtherCatalogs at h
  split at h
  · simp at h
  · next names hrd =>
    have hnames : names = childNames fs (w.catalogPath name) := by
      unfold ReadDir at hrd
      split at hrd
      · simp at hrd
      · split at hrd
        · simp at hrd
        · split at hrd
          · simpa using hrd.symm
          · simp at hrd
    have helse : ∀ q, (∀ n ∈ names, n ≠ keep → ¬ (w.catalogPath name ++ [n]) <+: q) →
        Lstat fs1 q = Lstat fs q := by
      intro q hq
      have := deleteOthers_elsewhere faults (w.catalogPath name) keep names fs q hq
      rw [h] at this
      exact this
    refine ⟨fun q hpre hne hkeep => ?_, fun q hq => ?_, fun q hq => ?_, ?_⟩
    · cases hl : Lstat fs q with
      | none =>
        have := deleteOthers_none faults (w.catalogPath name) keep names fs q hl
        rw [h] at this
        exact this
      | some i =>
        obtain ⟨n, rest, rfl⟩ := prefix_split _ q hpre hne
        have hmem : n ∈ names := hnames ▸ mem_childNames fs _ n rest i hl
        have hnk : n ≠ keep := by
          rintro rfl
          exact hkeep (snoc_prefix_cons _ n rest)
        exact deleteOthers_ok faults _ keep names fs fs1 h _
          ⟨n, hmem, hnk, snoc_prefix_cons _ n rest⟩
    · exact helse q (fun n _ hnk hpre => hnk (snoc_prefix_unique _ q n keep hpre hq))
    · exact helse q (fun n _ _ hpre => hq (below_of_snoc_below _ q n hpre))
    · exact helse _ (fun n _ _ hpre => not_snoc_prefix_self _ n hpre)

theorem WebRegistry.Unpack_success (w : WebRegistry) (faults : Faults) (fetch : WebFetch)
    (catalog : ClusterCatalog) (fs : FileSystem) (r : Result)
    (h : (w.Unpack faults fetch catalog fs).result = .ok (some r, none)) :
    ∃ content digest, fetch.download = .ok content ∧ fetch.sha256 = .ok digest
      ∧ (((∃ i, Lstat fs (w.unpackPath catalog.name digest) = some i)
            ∧ (w.Unpack faults fetch catalog fs).fs = fs)
          ∨ (Lstat fs (w.unpackPath catalog.name digest) = none
            ∧ ∃ t fs1, saveWebCatalog faults fetch.modTime content
                  (w.unpackPath catalog.name digest) fs = (.ok t, fs1)
              ∧ w.deleteOtherCatalogs faults fs1 catalog.name digest
                  = (none, (w.Unpack faults fetch catalog fs).fs))) := by
  by_cases ht : catalog.spec.source.type ≠ SourceTypeWeb
  · simp [WebRegistry.Unpack, ht] at h
  cases hweb : catalog.spec.source.web with
  | none => simp [WebRegistry.Unpack, ht, hweb] at h
  | some web =>
  cases hj : fetch.joinPath with
  | error e => simp [WebRegistry.Unpack, ht, hweb, hj] at h
  | ok url =>
  cases hp : fetch.parse with
  | some e => simp [WebRegistry.Unpack, ht, hweb, hj, hp] at h
  | none =>
  cases hd : fetch.download with
  | error e => simp [WebRegistry.Unpack, ht, hweb, hj, hp, hd] at h
  | ok content =>
  cases hv : fetch.validate with
  | some e => simp [WebRegistry.Unpack, ht, hweb, hj, hp, hd, hv] at h
  | none =>
  cases hs : fetch.sha256 with
  | error e => simp [WebRegistry.Unpack, ht, hweb, hj, hp, hd, hv, hs] at h
  | ok digest =>
  refine ⟨content, digest, rfl, rfl, ?_⟩
  cases hl : Lstat fs (w.unpackPath catalog.name digest) with
  | some i =>
    left
    exact ⟨⟨i, rfl⟩, by simp [WebRegistry.Unpack, ht, hweb, hj, hp, hd, hv, hs, hl]⟩
  | none =>
    right
    refine ⟨rfl, ?_⟩
    cases hsave : saveWebCatalog faults fetch.modTime content
        (w.unpackPath catalog.name digest) fs with
    | mk res fs1 =>
    cases res with
    | error e => simp [WebRegistry.Unpack, ht, hweb, hj, hp, hd, hv, hs, hl, hsave] at h
    | ok t =>
    cases hgc : w.deleteOtherCatalogs faults fs1 catalog.name digest with
    | mk gerr fs2 =>
    cases gerr with
    | some e => simp [WebRegistry.Unpack, ht, hweb, hj, hp, hd, hv, hs, hl, hsave, hgc] at h
    | none =>
      exact ⟨t, fs1, rfl, by simp [WebRegistry.Unpack, ht, hweb, hj, hp, hd, hv, hs, hl, hsave, hgc]⟩

/-- C17 (as the code has it): the name of the catalog and the keys being plain
path elements, after deleteOtherCatalogs(name, keep) succeeds nothing is left
below root/name besides the keep entry root/name/keep, the keep entry is
unchanged, and the entries under other logical names are unchanged, as is
everything else outside root/name; hence after a successful web Unpack that
produces a key k2 which was not cached before, where another key k1 was,
root/name/k1 no longer exists and root/name/k2 exists. -/
theorem deleteOtherCatalogs_keeps_only (w : WebRegistry) (faults : Faults) (fs : FileSystem)
    (name : String) (hname : plainName name) :
    (∀ keep fs1, plainName keep → w.deleteOtherCatalogs faults fs name keep = (none, fs1) →
        w.unpackPath name keep = w.catalogPath name ++ [keep]
          ∧ (∀ q, w.catalogPath name <+: q → q ≠ w.catalogPath name →
              ¬ w.unpackPath name keep <+: q → Lstat fs1 q = none)
          ∧ (∀ q, w.unpackPath name keep <+: q → Lstat fs1 q = Lstat fs q)
          ∧ (∀ other q, plainName other → other ≠ name → w.catalogPath other <+: q →
              Lstat fs1 q = Lstat fs q)
          ∧ (∀ q, ¬ w.catalogPath name <+: q → Lstat fs1 q = Lstat fs q))
      ∧ (∀ (fetch : WebFetch) (catalog : ClusterCatalog) (k1 k2 : String) (r : Result),
          catalog.name = name → fetch.sha256 = .ok k2 → plainName k1 → plainName k2 →
          k1 ≠ k2 → Lstat fs (w.unpackPath name k2) = none →
          (w.Unpack faults fetch catalog fs).result = .ok (some r, none) →
            (∀ q, w.unpackPath name k1 <+: q →
                Lstat (w.Unpack faults fetch catalog fs).fs q = none)
              ∧ ∃ i, Lstat (w.Unpack faults fetch catalog fs).fs (w.unpackPath name k2) = some i
                  ∧ i.typ = .dir) := by
  constructor
  · intro keep fs1 hkeep h
    obtain ⟨h1, h2, h3, _⟩ := deleteOtherCatalogs_ok w faults fs fs1 name keep hkeep h
    exact ⟨unpackPath_plain w name keep hkeep, h1, h2,
      fun other q hother hne hq => h3 q (catalogPath_disjoint w name other hname hother hne q hq),
      h3⟩
  · intro fetch catalog k1 k2 r hcat hsha hk1 hk2 hk hnew hok
    obtain ⟨content, digest, _, hsha', hcase⟩ :=
      WebRegistry.Unpack_success w faults fetch catalog fs r hok
    rw [hsha] at hsha'
    cases hsha'
    rw [hcat] at hcase
    rcases hcase with ⟨⟨i, hi⟩, _⟩ | ⟨_, t, fs1, hsave, hgc⟩
    · rw [hnew] at hi
      cases hi
    · obtain ⟨h1, h2, _, _⟩ := deleteOtherCatalogs_ok w faults fs1 _ name k2 hk2 hgc
      have hne : w.unpackPath name k2 ≠ [] := by
        rw [unpackPath_plain w name k2 hk2]
        simp
      obtain ⟨i, hi, hdir⟩ := saveWebCatalog_ok faults fetch.modTime t content _ fs fs1 hne hsave
      refine ⟨fun q hq => ?_, i, ?_, hdir⟩
      · rw [unpackPath_plain w name k1 hk1] at hq
        apply h1 q (below_of_snoc_below _ q k1 hq)
        · rintro rfl
          exact not_snoc_prefix_self _ k1 hq
        · intro hq2
          rw [unpackPath_plain w name k2 hk2] at hq2
          exact hk (snoc_prefix_unique _ q k1 k2 hq hq2)
      · rw [h2 _ (List.prefix_refl _)]
        exact hi

/-- Witness of C17: the catalog has `sha256:k1` cached and the download yields
`sha256:k2`. -/
theorem deleteOtherCatalogs_keeps_only_witness :
    plainName "c0ffee00" ∧ plainName "sha256:k1" ∧ plainName "sha256:k2"
      ∧ (Lstat cachedK1
          ["var", "cache", "unpack", "c0ffee00", "sha256:k1", "catalog.yaml"]).isSome = true
      ∧ Lstat (exampleRegistry.Unpack noFaults fetchK2 (webCatalog none emptyStatus) cachedK1).fs
          ["var", "cache", "unpack", "c0ffee00", "sha256:k1", "catalog.yaml"] = none :=
  ⟨by decide, by decide, by decide, by decide,
    ((deleteOtherCatalogs_keeps_only exampleRegistry noFaults cachedK1 "c0ffee00"
      (by decide)).2 fetchK2
      (webCatalog none emptyStatus) "sha256:k1" "sha256:k2"
      (webResult fetchK2
        (exampleRegistry.Unpack noFaults fetchK2 (webCatalog none emptyStatus) cachedK1).fs
        (exampleRegistry.unpackPath "c0ffee00" "sha256:k2")
        "https://example.com/catalog/catalog.yaml" "sha256:k2")
      rfl rfl (by decide) (by decide) (by decide) (by decide) (by decide)).1 _ (by decide)⟩

/-- Counterexample to C17 as stated: both `sha256:k1` and `sha256:k2` are cached
for the catalog; the download yields `sha256:k2` again, Unpack succeeds on the
path for an entry that is already there, which collects no garbage, and
`sha256:k1` is still cached afterwards. -/
theorem Unpack_of_cached_key_keeps_other_entries :
    (∃ r, (exampleRegistry.Unpack noFaults fetchK2 (webCatalog none emptyStatus)
        cachedK1K2).result = .ok (some r, none))
      ∧ fetchK2.sha256.toOption = some "sha256:k2"
      ∧ (Lstat cachedK1K2 ["var", "cache", "unpack", "c0ffee00", "sha256:k1"]).isSome = true
      ∧ (Lstat (exampleRegistry.Unpack noFaults fetchK2 (webCatalog none emptyStatus)
          cachedK1K2).fs ["var", "cache", "unpack", "c0ffee00", "sha256:k1"]).isSome = true := by
  refine ⟨⟨_, rfl⟩, by decide, by decide, by decide⟩

/-- C11 (the code departs from the claim): `sha256:k1` is cached, the download
yields `sha256:k2` and creating the file of the new entry fails. Unpack
returns an error, and its cleanup has deleted the whole directory of the
catalog, not the new entry alone: the entry `sha256:k1` and its `catalog.yaml`,
which existed before the call, no longer exist. -/
theorem Unpack_failed_save_deletes_cached_entries :
    (∃ err, (exampleRegistry.Unpack
        (fun op => decide (op = .create
          ["var", "cache", "unpack", "c0ffee00", "sha256:k2", "catalog.yaml"]))
        fetchK2 (webCatalog none emptyStatus) cachedK1).result = .ok (none, some err))
      ∧ (Lstat cachedK1
          ["var", "cache", "unpack", "c0ffee00", "sha256:k1", "catalog.yaml"]).isSome = true
      ∧ Lstat (exampleRegistry.Unpack
          (fun op => decide (op = .create
            ["var", "cache", "unpack", "c0ffee00", "sha256:k2", "catalog.yaml"]))
          fetchK2 (webCatalog none emptyStatus) cachedK1).fs
          ["var", "cache", "unpack", "c0ffee00", "sha256:k1", "catalog.yaml"] = none
      ∧ Lstat (exampleRegistry.Unpack
          (fun op => decide (op = .create
            ["var", "cache", "unpack", "c0ffee00", "sha256:k2", "catalog.yaml"]))
          fetchK2 (webCatalog none emptyStatus) cachedK1).fs
          ["var", "cache", "unpack", "c0ffee00", "sha256:k1"] = none := by
  refine ⟨⟨_, rfl⟩, by decide, by decide, by decide⟩

/-- C20 (the code departs from the claim): a server answers 200 with five bytes,
uncompressed, and the caller listens on a progress channel. Download succeeds,
and the events of the task `download` are a new-task event, one progress event
and then two done events: `copyData` sends a done event at the end of the body
and `Download` sends it once more. -/
theorem Download_sends_done_twice :
    (plainServer.Download noFaults none background "https://example.com/catalog.yaml"
        ["tmp", "dl"] { ProgressChan := some ⟨1⟩ } []).err = none
      ∧ (eventsOfTask TaskIDHTTPDownload
          (plainServer.Download noFaults none background "https://example.com/catalog.yaml"
            ["tmp", "dl"] { ProgressChan := some ⟨1⟩ } []).sent).map (fun e => e.EventType)
          = [.NewTask, .NewProgressed, .Done, .Done]
      ∧ wellFormedTaskEvents (eventsOfTask TaskIDHTTPDownload
          (plainServer.Download noFaults none background "https://example.com/catalog.yaml"
            ["tmp", "dl"] { ProgressChan := some ⟨1⟩ } []).sent) = false := by
  decide

/-! ## Progress events of a download -/

theorem Emit_some (b : Emitter) (chan : Chan) (sent : List Event)
    (h : b.ProgressChan = some chan) : b.Emit sent = sent ++ [b.Event] := by
  simp [Emitter.Emit, h]

theorem copyData_events (ctx : Context) (chan : Chan) (reader : Reader) :
    ∀ (poll : Nat) (b : Emitter) (out : Writer) (sent : List Event),
      b.ProgressChan = some chan →
      (copyData ctx poll b reader out sent).err = none →
      ∃ mid : List Event,
        (∀ e ∈ mid, e.TaskID = b.Event.TaskID ∧ e.EventType = .NewProgressed)
          ∧ (copyData ctx poll b reader out sent).sent
              = sent ++ mid ++ [(copyData ctx poll b reader out sent).emitter.Event]
          ∧ (copyData ctx poll b reader out sent).emitter.Event.EventType = .Done
          ∧ (copyData ctx poll b reader out sent).emitter.Event.TaskID = b.Event.TaskID
          ∧ (copyData ctx poll b reader out sent).emitter.ProgressChan = some chan := by
  induction reader with
  | nil =>
    intro poll b out sent hc herr
    unfold copyData at herr ⊢
    by_cases hd : ctx.Done poll = true
    · simp [hd] at herr
    · refine ⟨[], by simp, ?_⟩
      simp [hd, Emitter.Emit, Emitter.Done, hc]
  | cons step rest ih =>
    intro poll b out sent hc herr
    unfold copyData at herr ⊢
    by_cases hd : ctx.Done poll = true
    · simp [hd] at herr
    · simp only [hd, Bool.false_eq_true, if_false] at herr ⊢
      by_cases hn : ((step.data.length : Nat) : Int) > 0
      · simp only [hn, if_true] at herr ⊢
        cases hw : out.Write step.data with
        | mk werr out1 =>
        cases werr with
        | some e => simp [hw] at herr
        | none =>
          simp only [hw] at herr ⊢
          cases hs : step.status with
          | eof =>
            refine ⟨[(b.WithProgress 0 step.data.length).Progress.Event], ?_, ?_⟩
            · simp [Emitter.WithProgress, Emitter.WithOffset, Emitter.WithOffsetUpdate,
                Emitter.Progress]
            · simp [hs, Emitter.Emit, Emitter.Done, Emitter.WithProgress, Emitter.WithOffset,
                Emitter.WithOffsetUpdate, Emitter.Progress, hc]
          | failed e => simp [hs] at herr
          | more =>
            simp only [hs] at herr ⊢
            have hc1 : (b.WithProgress 0 step.data.length).Progress.ProgressChan = some chan := by
              simpa [Emitter.WithProgress, Emitter.WithOffset, Emitter.WithOffsetUpdate,
                Emitter.Progress] using hc
            obtain ⟨mid, hmid, hsent, hdone, htask, hchan⟩ := ih _ _ _ _ hc1 herr
            refine ⟨(b.WithProgress 0 step.data.length).Progress.Event :: mid, ?_, ?_, hdone,
              ?_, hchan⟩
            · intro e he
              rcases List.mem_cons.1 he with rfl | he
              · simp [Emitter.WithProgress, Emitter.WithOffset, Emitter.WithOffsetUpdate,
                  Emitter.Progress]
              · have := hmid e he
                simpa [Emitter.WithProgress, Emitter.WithOffset, Emitter.WithOffsetUpdate,
                  Emitter.Progress] using this
            · rw [hsent, Emit_some _ chan _ hc1]
              simp
            · rw [htask]
              simp [Emitter.WithProgress, Emitter.WithOffset, Emitter.WithOffsetUpdate,
                Emitter.Progress]
      · simp only [hn, if_false] at herr ⊢
        cases hs : step.status with
        | eof =>
          refine ⟨[], by simp, ?_⟩
          simp [hs, Emitter.Emit, Emitter.Done, hc]
        | failed e => simp [hs] at herr
        | more =>
          simp only [hs] at herr ⊢
          exact ih _ _ _ _ hc herr

theorem Done_of_done (b : Emitter) (h : b.Event.EventType = .Done) : b.Done = b := by
  cases b with
  | mk e c =>
  cases e
  simp_all [Emitter.Done]

theorem eventsOfTask_append (taskID : String) (xs ys : List Event) :
    eventsOfTask taskID (xs ++ ys) = eventsOfTask taskID xs ++ eventsOfTask taskID ys := by
  simp [eventsOfTask]

theorem eventsOfTask_all (taskID : String) (xs : List Event)
    (h : ∀ e ∈ xs, e.TaskID = taskID) : eventsOfTask taskID xs = xs := by
  simp only [eventsOfTask]
  apply List.filter_eq_self.2
  intro e he
  simp [h e he]

theorem eventsOfTask_none (taskID : String) (xs : List Event)
    (h : ∀ e ∈ xs, e.TaskID ≠ taskID) : eventsOfTask taskID xs = [] := by
  simp only [eventsOfTask]
  apply List.filter_eq_nil_iff.2
  intro e he
  simp [h e he]

theorem eventsOfTask_one (taskID : String) (e : Event) (h : e.TaskID = taskID) :
    eventsOfTask taskID [e] = [e] := by
  simp [eventsOfTask, h]

theorem eventsOfTask_other (taskID : String) (e : Event) (h : e.TaskID ≠ taskID) :
    eventsOfTask taskID [e] = [] := by
  simp [eventsOfTask, h]

theorem Download_events (h : HTTPDownloader) (faults : Faults) (room : Option Nat)
    (ctx : Context) (url : String) (dest : Path) (chan : Chan) (fs : FileSystem)
    (hok : (h.Download faults room ctx url dest { ProgressChan := some chan } fs).err = none) :
    ∃ first mid done,
      eventsOfTask TaskIDHTTPDownload
          (h.Download faults room ctx url dest { ProgressChan := some chan } fs).sent
        = first :: (mid ++ [done, done])
      ∧ first.EventType = .NewTask
      ∧ (∀ e ∈ mid, e.EventType = .NewProgressed)
      ∧ done.EventType = .Done := by
  unfold HTTPDownloader.Download at hok ⊢
  cases hreq : h.NewRequest url with
  | some e => simp [hreq] at hok
  | none =>
  cases hdo : h.Do url with
  | error e => simp [hreq, hdo] at hok
  | ok response =>
  by_cases hst : response.StatusCode ≠ 200
  · simp [hreq, hdo, hst] at hok
  cases hmk : MkdirAll faults fs dest 0o777 with
  | mk merr fs1 =>
  cases merr with
  | some e => simp [hreq, hdo, hst, hmk] at hok
  | none =>
  cases hcr : Create faults fs1 (dest ++ ["catalog.yaml"]) with
  | mk cerr fs2 =>
  cases cerr with
  | some e => simp [hreq, hdo, hst, hmk, hcr] at hok
  | none =>
  simp only [hreq, hdo, hst, hmk, hcr, if_false] at hok ⊢
  have hT0 : (({ Event := Event.zero, ProgressChan := some chan } : Emitter).NewTask
      TaskIDHTTPDownload |>.WithSize response.ContentLength).Event.TaskID
        = TaskIDHTTPDownload := rfl
  have hN0 : (({ Event := Event.zero, ProgressChan := some chan } : Emitter).NewTask
      TaskIDHTTPDownload |>.WithSize response.ContentLength).Event.EventType = .NewTask := rfl
  have hC0 : (({ Event := Event.zero, ProgressChan := some chan } : Emitter).NewTask
      TaskIDHTTPDownload |>.WithSize response.ContentLength).ProgressChan = some chan := rfl
  generalize (({ Event := Event.zero, ProgressChan := some chan } : Emitter).NewTask
      TaskIDHTTPDownload |>.WithSize response.ContentLength) = b0 at hT0 hN0 hC0 hok ⊢
  have key := copyData_events ctx chan response.Body 0 b0
    (if response.gzip = true then { written := [], room := none }
      else { written := [], room := room }) (b0.Emit []) hC0
  generalize copyData ctx 0 b0 response.Body
    (if response.gzip = true then { written := [], room := none }
      else { written := [], room := room }) (b0.Emit []) = copied at key hok ⊢
  cases herr : copied.err with
  | some e => simp [herr] at hok
  | none =>
  obtain ⟨mid, hmid, hsent, hdone, htask, hchan⟩ := key herr
  have hD : copied.emitter.Done = copied.emitter := Done_of_done _ hdone
  have hfirst : eventsOfTask TaskIDHTTPDownload (copied.emitter.Emit copied.sent)
      = b0.Event :: (mid ++ [copied.emitter.Event, copied.emitter.Event]) := by
    rw [Emit_some _ chan _ hchan, hsent, Emit_some _ chan _ hC0]
    simp only [eventsOfTask_append, List.nil_append]
    rw [eventsOfTask_one _ _ hT0, eventsOfTask_one _ _ (htask.trans hT0),
      eventsOfTask_all _ mid (fun e he => ((hmid e he).1).trans hT0)]
    simp
  refine ⟨b0.Event, mid, copied.emitter.Event, ?_, hN0, fun e he => (hmid e he).2, hdone⟩
  simp only [herr, hD] at hok ⊢
  by_cases hz : response.gzip = true
  · simp only [hz, if_true] at hok ⊢
    cases hg : h.gzipNewReader copied.out.written with
    | error e => simp [hg] at hok
    | ok reader =>
      simp only [hg] at hok ⊢
      have hT1 : ((({ copied.emitter with
          Event := { copied.emitter.Event with TaskID := "Decompressing", Size := -1 } }
            : Emitter).NewTask TaskIDHTTPDecompress).WithSize (-1)).Event.TaskID ≠ TaskIDHTTPDownload := by
        show TaskIDHTTPDecompress ≠ TaskIDHTTPDownload
        decide
      have hC1 : ((({ copied.emitter with
          Event := { copied.emitter.Event with TaskID := "Decompressing", Size := -1 } }
            : Emitter).NewTask TaskIDHTTPDecompress).WithSize (-1)).ProgressChan = some chan := hchan
      generalize ((({ copied.emitter with
          Event := { copied.emitter.Event with TaskID := "Decompressing", Size := -1 } }
            : Emitter).NewTask TaskIDHTTPDecompress).WithSize (-1)) = b1 at hT1 hC1 hok ⊢
      have key2 := copyData_events ctx chan reader copied.polls b1
        { written := [], room := room } (b1.Emit (copied.emitter.Emit copied.sent)) hC1
      generalize copyData ctx copied.polls b1 reader
        { written := [], room := room } (b1.Emit (copied.emitter.Emit copied.sent))
          = inflated at key2 hok ⊢
      cases herr2 : inflated.err with
      | some e => simp [herr2] at hok
      | none =>
        obtain ⟨mid2, hmid2, hsent2, _, htask2, _⟩ := key2 herr2
        simp only [herr2]
        rw [hsent2, Emit_some _ chan _ hC1]
        simp only [eventsOfTask_append]
        rw [hfirst, eventsOfTask_other _ _ hT1,
          eventsOfTask_other _ _ (fun hh => hT1 (htask2.symm.trans hh)),
          eventsOfTask_none _ mid2 (fun e he hh => hT1 ((hmid2 e he).1.symm.trans hh))]
        simp
  · have hz1 : response.gzip = false := by simpa using hz
    simp only [hz1, Bool.false_eq_true, if_false] at hok ⊢
    exact hfirst

/-! ## The loop over the layers -/

theorem foldLayers_cons (filter : Option (TarEntry → Bool)) (root : Path) (layer : Layer)
    (layers : List Layer) (fs : FileSystem) :
    foldLayers filter root (layer :: layers) fs
      = foldLayers filter root layers (applyLayer filter root layer fs).2 := rfl

theorem foldLayers_append (filter : Option (TarEntry → Bool)) (root : Path)
    (pre post : List Layer) (fs : FileSystem) :
    foldLayers filter root (pre ++ post) fs
      = foldLayers filter root post (foldLayers filter root pre fs) := by
  simp [foldLayers]

theorem layersSucceed_cons (filter : Option (TarEntry → Bool)) (root : Path) (layer : Layer)
    (layers : List Layer) (fs : FileSystem) :
    layersSucceed filter root (layer :: layers) fs = true
      ↔ 15 ≤ layer.digest.length ∧ layer.getBlob = none
        ∧ (applyLayer filter root layer fs).1 = none
        ∧ layersSucceed filter root layers (applyLayer filter root layer fs).2 = true := by
  simp [layersSucceed, and_assoc]

/-- While the layers succeed the loop moves on: after a run of successful layers
it stands before the rest, on the fold of those layers. -/
theorem applyLayers_of_succeed (filter : Option (TarEntry → Bool)) (root : Path)
    (pre : List Layer) :
    ∀ (rest : List Layer) (i : Nat) (b : Emitter) (fs : FileSystem) (sent : List Event)
      (applied : List Layer) (states : List FileSystem),
      layersSucceed filter root pre fs = true →
      ∃ b1 sent1 states1,
        applyLayers filter root i (pre ++ rest) b fs sent applied states
          = applyLayers filter root (i + pre.length) rest b1 (foldLayers filter root pre fs)
              sent1 (applied ++ pre) (states ++ states1) := by
  induction pre with
  | nil =>
    intro rest i b fs sent applied states _
    exact ⟨b, sent, [], by simp [foldLayers]⟩
  | cons layer pre ih =>
    intro rest i b fs sent applied states h
    obtain ⟨hlen, hblob, happly, hrest⟩ := (layersSucceed_cons filter root layer pre fs).1 h
    cases hal : applyLayer filter root layer fs with
    | mk err fs1 =>
    rw [hal] at happly hrest
    simp only at happly hrest
    subst happly
    obtain ⟨b1, sent1, states1, heq⟩ :=
      ih rest (i + 1) _ fs1 _ (applied ++ [layer]) (states ++ [fs1]) hrest
    refine ⟨b1, sent1, fs1 :: states1, ?_⟩
    rw [List.cons_append, applyLayers, if_neg (by omega)]
    simp only [hblob, hal]
    rw [heq, foldLayers_cons, hal]
    simp [Nat.add_assoc, Nat.add_comm 1]

/-- What the loop has applied when it ends, however it ends: a prefix of the
layers, all of which but the last succeeded; the tree is the fold of what was
applied, and without error every layer was applied. -/
theorem applyLayers_applied (filter : Option (TarEntry → Bool)) (root : Path)
    (layers : List Layer) :
    ∀ (i : Nat) (b : Emitter) (fs : FileSystem) (sent : List Event)
      (applied : List Layer) (states : List FileSystem),
      ∃ done : List Layer,
        (applyLayers filter root i layers b fs sent applied states).applied = applied ++ done
          ∧ done <+: layers
          ∧ layersSucceed filter root done.dropLast fs = true
          ∧ (applyLayers filter root i layers b fs sent applied states).fs
              = foldLayers filter root done fs
          ∧ ((applyLayers filter root i layers b fs sent applied states).result = .ok none →
              done = layers ∧ layersSucceed filter root layers fs = true) := by
  induction layers with
  | nil =>
    intro i b fs sent applied states
    exact ⟨[], by simp [applyLayers], List.prefix_refl _, rfl, rfl, fun _ => ⟨rfl, rfl⟩⟩
  | cons layer layers ih =>
    intro i b fs sent applied states
    rw [applyLayers]
    by_cases hlen : layer.digest.length < 15
    · rw [if_pos hlen]
      exact ⟨[], by simp, List.nil_prefix, rfl, rfl, fun h => by simp at h⟩
    rw [if_neg hlen]
    cases hblob : layer.getBlob with
    | some e =>
      exact ⟨[], by simp, List.nil_prefix, rfl, rfl, fun h => by simp at h⟩
    | none =>
      cases hal : applyLayer filter root layer fs with
      | mk err fs1 =>
      cases err with
      | some e =>
        refine ⟨[layer], by simp, by simp, rfl, ?_, fun h => by simp at h⟩
        simp [foldLayers, hal]
      | none =>
        simp only
        obtain ⟨done, happ, hpre, hsucc, hfs, hall⟩ :=
          ih (i + 1) _ fs1 _ (applied ++ [layer]) (states ++ [fs1])
        refine ⟨layer :: done, ?_, ?_, ?_, ?_, ?_⟩
        · rw [happ]
          simp
        · exact List.cons_prefix_cons.2 ⟨rfl, hpre⟩
        · cases done with
          | nil => rfl
          | cons d ds =>
            rw [List.dropLast_cons₂, layersSucceed_cons]
            refine ⟨by omega, hblob, by rw [hal], ?_⟩
            rw [hal]
            exact hsucc
        · rw [hfs, foldLayers_cons, hal]
        · intro h
          obtain ⟨hd, hs⟩ := hall h
          refine ⟨by rw [hd], ?_⟩
          rw [layersSucceed_cons]
          refine ⟨by omega, hblob, by rw [hal], ?_⟩
          rw [hal]
          exact hs

theorem closing_returned (img : PulledImage) (outcome : Outcome) (err : Option Err)
    (h : closing img outcome = .returned err) : outcome = .returned err := by
  unfold closing at h
  split at h
  · cases h
  · exact h

/-- C15: unpackImage hands the layers to applyLayer in the order of the layer
list of the manifest, each at most once (what was applied is a prefix of the
list), and a layer is applied only after all layers before it were fetched and
applied without error. When unpackImage returns nil every layer was applied,
and the tree is the left fold of layer application over the list, started from
the tree MkdirAll left and sealed read-only at the end. -/
theorem unpackImage_applies_layers_in_order (i : OCIUnpacker) (faults : Faults)
    (unpackPath : Path) (img : PulledImage) (progressEmitter : Emitter) (sent : List Event)
    (fs : FileSystem) :
    (i.unpackImage faults unpackPath img progressEmitter sent fs).applied <+: img.layers
      ∧ layersSucceed i.ArchiveFilter unpackPath
          (i.unpackImage faults unpackPath img progressEmitter sent fs).applied.dropLast
          (MkdirAll faults fs unpackPath 0o700).2 = true
      ∧ ((i.unpackImage faults unpackPath img progressEmitter sent fs).outcome = .returned none →
          (i.unpackImage faults unpackPath img progressEmitter sent fs).applied = img.layers
            ∧ layersSucceed i.ArchiveFilter unpackPath img.layers
                (MkdirAll faults fs unpackPath 0o700).2 = true
            ∧ (i.unpackImage faults unpackPath img progressEmitter sent fs).fs
                = (setReadOnlyRecursive faults
                    (foldLayers i.ArchiveFilter unpackPath img.layers
                      (MkdirAll faults fs unpackPath 0o700).2) unpackPath).2) := by
  unfold OCIUnpacker.unpackImage
  cases hni : img.newImage with
  | some e => exact ⟨List.nil_prefix, rfl, fun h => by simp at h⟩
  | none =>
  cases hns : img.newImageSource with
  | some e =>
    refine ⟨List.nil_prefix, rfl, fun h => ?_⟩
    have := closing_returned _ _ _ h
    simp at this
  | none =>
  cases hmk : MkdirAll faults fs unpackPath 0o700 with
  | mk merr fs1 =>
  cases merr with
  | some e =>
    refine ⟨List.nil_prefix, rfl, fun h => ?_⟩
    have := closing_returned _ _ _ h
    simp at this
  | none =>
  simp only
  obtain ⟨done, happ, hpre, hsucc, hfs, hall⟩ :=
    applyLayers_applied i.ArchiveFilter unpackPath img.layers 0
      ((((progressEmitter.NewTask TaskIDOCIUnpack).WithSize 0).WithSubjectID "").WithSubjectID ""
        |>.WithProgress 0 0).Done fs1
      ((((progressEmitter.NewTask TaskIDOCIUnpack).WithSize 0).WithSubjectID "").Emit sent)
      [] [fs1]
  generalize applyLayers i.ArchiveFilter unpackPath 0 img.layers
      ((((progressEmitter.NewTask TaskIDOCIUnpack).WithSize 0).WithSubjectID "").WithSubjectID ""
        |>.WithProgress 0 0).Done fs1
      ((((progressEmitter.NewTask TaskIDOCIUnpack).WithSize 0).WithSubjectID "").Emit sent)
      [] [fs1] = loop at happ hfs hall ⊢
  rw [List.nil_append] at happ
  cases hres : loop.result with
  | panic p =>
    simp only
    rw [happ]
    refine ⟨hpre, hsucc, fun h => ?_⟩
    have := closing_returned _ _ _ h
    simp at this
  | ok oerr =>
  cases oerr with
  | some e =>
    simp only
    rw [happ]
    refine ⟨hpre, hsucc, fun h => ?_⟩
    have := closing_returned _ _ _ h
    simp [joinErrs] at this
  | none =>
    obtain ⟨hd, hs⟩ := hall hres
    subst hd
    simp only
    cases hseal : setReadOnlyRecursive faults loop.fs unpackPath with
    | mk serr fs2 =>
    cases serr with
    | some e =>
      simp only
      rw [happ]
      refine ⟨hpre, hsucc, fun h => ?_⟩
      have := closing_returned _ _ _ h
      simp at this
    | none =>
      simp only
      rw [happ]
      refine ⟨hpre, hsucc, fun _ => ⟨rfl, hs, ?_⟩⟩
      rw [← hfs, hseal]

/-- Witness of C15: the image has the layers A and B, where A creates `bin/tool`
and B deletes it and adds `README`; the tree has `README` and no `bin/tool`. -/
theorem unpackImage_applies_layers_in_order_witness :
    (plainUnpacker.unpackImage noFaults (exampleDest ++ [exampleDigest])
        (imageOf [layerA, layerB]) { Event := Event.zero, ProgressChan := none } []
        emptyDest).applied = [layerA, layerB]
      ∧ Lstat (plainUnpacker.unpackImage noFaults (exampleDest ++ [exampleDigest])
          (imageOf [layerA, layerB]) { Event := Event.zero, ProgressChan := none } []
          emptyDest).fs (exampleDest ++ [exampleDigest, "bin", "tool"]) = none
      ∧ Lstat (plainUnpacker.unpackImage noFaults (exampleDest ++ [exampleDigest])
          (imageOf [layerA, layerB]) { Event := Event.zero, ProgressChan := none } []
          emptyDest).fs (exampleDest ++ [exampleDigest, "README"])
          = some { typ := .regular, perm := 0o400, data := [3] } := by
  have h := (unpackImage_applies_layers_in_order plainUnpacker noFaults
    (exampleDest ++ [exampleDigest]) (imageOf [layerA, layerB])
    { Event := Event.zero, ProgressChan := none } [] emptyDest).2.2 (by decide)
  refine ⟨h.1, ?_, ?_⟩
  · rw [h.2.2]
    decide
  · rw [h.2.2]
    decide

/-! ## Layers stay below the root they are applied to -/

theorem Lstat_putInode (fs : FileSystem) (p q : Path) (inode : Inode) :
    Lstat (putInode fs p inode) q
      = if q = p then some inode else if p <+: q then none else Lstat fs q := by
  unfold putInode
  by_cases hq : q = p
  · subst hq
    rw [if_pos rfl]
    apply Lstat_append_single_new
    rw [Lstat_removeTree, if_pos (List.prefix_refl _)]
  · rw [if_neg hq, Lstat_append_single_ne _ _ _ _ hq, Lstat_removeTree]

theorem not_prefix_of_below (root rel q : Path) (h : ¬ root <+: q) : ¬ (root ++ rel) <+: q :=
  fun hp => h ((List.prefix_append root rel).trans hp)

theorem ne_of_below (root rel q : Path) (h : ¬ root <+: q) : q ≠ root ++ rel := by
  rintro rfl
  exact h (List.prefix_append root rel)

theorem applyEntry_elsewhere (root : Path) (fs : FileSystem) (entry : TarEntry) (q : Path)
    (hq : ¬ root <+: q) : Lstat (applyEntry root fs entry).2 q = Lstat fs q := by
  have hne : ∀ rel, q ≠ root ++ rel := fun rel => ne_of_below root rel q hq
  have hnp : ∀ rel, ¬ (root ++ rel) <+: q := fun rel => not_prefix_of_below root rel q hq
  cases entry with
  | dir rel perm =>
    simp only [applyEntry]
    split
    · split
      · rw [Lstat_setPerm, if_neg (hne rel)]
      · rw [Lstat_putInode, if_neg (hne rel), if_neg (hnp rel)]
    · exact Lstat_append_single_ne _ _ _ _ (hne rel)
  | file rel perm data =>
    simp only [applyEntry]
    split
    · rfl
    · rw [Lstat_putInode, if_neg (hne rel), if_neg (hnp rel)]
  | symlink rel target =>
    simp only [applyEntry]
    split
    · rfl
    · rw [Lstat_putInode, if_neg (hne rel), if_neg (hnp rel)]
  | whiteout rel =>
    simp only [applyEntry]
    split
    · rfl
    · rw [Lstat_removeTree, if_neg (hnp rel)]
  | damaged => rfl

theorem root_ne_below (root rel : Path) (h : rel ≠ []) : root ≠ root ++ rel := by
  intro he
  have := congrArg List.length he
  simp only [List.length_append] at this
  have : rel.length = 0 := by omega
  exact h (List.length_eq_zero.1 this)

theorem below_not_prefix_root (root rel : Path) (h : rel ≠ []) : ¬ (root ++ rel) <+: root := by
  intro hp
  have := hp.length_le
  simp only [List.length_append] at this
  have : rel.length = 0 := by omega
  exact h (List.length_eq_zero.1 this)

theorem applyEntry_root (root : Path) (fs : FileSystem) (entry : TarEntry) (d : Inode)
    (hd : Lstat fs root = some d) (hdir : d.typ = .dir) :
    ∃ d1, Lstat (applyEntry root fs entry).2 root = some d1 ∧ d1.typ = .dir := by
  cases entry with
  | dir rel perm =>
    by_cases hrel : rel = []
    · subst hrel
      simp only [applyEntry, List.append_nil, hd, hdir, if_true]
      rw [Lstat_setPerm, if_pos rfl, hd]
      exact ⟨_, rfl, hdir⟩
    · simp only [applyEntry]
      split
      · split
        · rw [Lstat_setPerm, if_neg (root_ne_below root rel hrel)]
          exact ⟨d, hd, hdir⟩
        · rw [Lstat_putInode, if_neg (root_ne_below root rel hrel),
            if_neg (below_not_prefix_root root rel hrel)]
          exact ⟨d, hd, hdir⟩
      · exact ⟨d, Lstat_append_mono _ _ _ _ hd, hdir⟩
  | file rel perm data =>
    simp only [applyEntry]
    split
    · exact ⟨d, hd, hdir⟩
    · next hrel =>
      rw [Lstat_putInode, if_neg (root_ne_below root rel hrel),
        if_neg (below_not_prefix_root root rel hrel)]
      exact ⟨d, hd, hdir⟩
  | symlink rel target =>
    simp only [applyEntry]
    split
    · exact ⟨d, hd, hdir⟩
    · next hrel =>
      rw [Lstat_putInode, if_neg (root_ne_below root rel hrel),
        if_neg (below_not_prefix_root root rel hrel)]
      exact ⟨d, hd, hdir⟩
  | whiteout rel =>
    simp only [applyEntry]
    split
    · exact ⟨d, hd, hdir⟩
    · next hrel =>
      rw [Lstat_removeTree, if_neg (below_not_prefix_root root rel hrel)]
      exact ⟨d, hd, hdir⟩
  | damaged => exact ⟨d, hd, hdir⟩

theorem applyEntries_elsewhere (root : Path) (entries : List TarEntry) (q : Path)
    (hq : ¬ root <+: q) :
    ∀ fs : FileSystem, Lstat (applyEntries root entries fs).2 q = Lstat fs q := by
  induction entries with
  | nil => intro fs; rfl
  | cons entry entries ih =>
    intro fs
    have h1 := applyEntry_elsewhere root fs entry q hq
    rw [applyEntries]
    split
    · next e fs1 he => rw [he] at h1; exact h1
    · next fs1 he => rw [he] at h1; rw [ih fs1]; exact h1

theorem applyEntries_root (root : Path) (entries : List TarEntry) :
    ∀ (fs : FileSystem) (d : Inode), Lstat fs root = some d → d.typ = .dir →
      ∃ d1, Lstat (applyEntries root entries fs).2 root = some d1 ∧ d1.typ = .dir := by
  induction entries with
  | nil => intro fs d hd hdir; exact ⟨d, hd, hdir⟩
  | cons entry entries ih =>
    intro fs d hd hdir
    obtain ⟨d1, h1, hdir1⟩ := applyEntry_root root fs entry d hd hdir
    rw [applyEntries]
    split
    · next e fs1 he => rw [he] at h1; exact ⟨d1, h1, hdir1⟩
    · next fs1 he => rw [he] at h1; exact ih fs1 d1 h1 hdir1

theorem applyLayer_elsewhere (filter : Option (TarEntry → Bool)) (root : Path) (layer : Layer)
    (fs : FileSystem) (q : Path) (hq : ¬ root <+: q) :
    Lstat (applyLayer filter root layer fs).2 q = Lstat fs q := by
  unfold applyLayer
  split
  · rfl
  · split
    · exact applyEntries_elsewhere root _ q hq fs
    · exact applyEntries_elsewhere root _ q hq fs

theorem applyLayer_root (filter : Option (TarEntry → Bool)) (root : Path) (layer : Layer)
    (fs : FileSystem) (d : Inode) (hd : Lstat fs root = some d) (hdir : d.typ = .dir) :
    ∃ d1, Lstat (applyLayer filter root layer fs).2 root = some d1 ∧ d1.typ = .dir := by
  unfold applyLayer
  split
  · exact ⟨d, hd, hdir⟩
  · split
    · exact applyEntries_root root _ fs d hd hdir
    · exact applyEntries_root root _ fs d hd hdir

theorem foldLayers_elsewhere (filter : Option (TarEntry → Bool)) (root : Path)
    (layers : List Layer) (q : Path) (hq : ¬ root <+: q) :
    ∀ fs : FileSystem, Lstat (foldLayers filter root layers fs) q = Lstat fs q := by
  induction layers with
  | nil => intro fs; rfl
  | cons layer layers ih =>
    intro fs
    rw [foldLayers_cons, ih, applyLayer_elsewhere filter root layer fs q hq]

theorem foldLayers_root (filter : Option (TarEntry → Bool)) (root : Path)
    (layers : List Layer) :
    ∀ (fs : FileSystem) (d : Inode), Lstat fs root = some d → d.typ = .dir →
      ∃ d1, Lstat (foldLayers filter root layers fs) root = some d1 ∧ d1.typ = .dir := by
  induction layers with
  | nil => intro fs d hd hdir; exact ⟨d, hd, hdir⟩
  | cons layer layers ih =>
    intro fs d hd hdir
    obtain ⟨d1, h1, hdir1⟩ := applyLayer_root filter root layer fs d hd hdir
    rw [foldLayers_cons]
    exact ih _ d1 h1 hdir1

theorem mkdirs_elsewhere (perm : Nat) (qs : List Path) (q : Path) (hq : q ∉ qs) :
    ∀ fs : FileSystem, Lstat (mkdirs perm qs fs).2 q = Lstat fs q := by
  induction qs with
  | nil => intro fs; rfl
  | cons p ps ih =>
    intro fs
    have hqp : q ≠ p := fun h => hq (h ▸ List.mem_cons_self _ _)
    have hqps : q ∉ ps := fun h => hq (List.mem_cons_of_mem _ h)
    rw [mkdirs]
    split
    · rw [ih hqps, Lstat_append_single_ne _ _ _ _ hqp]
    · split
      · exact ih hqps fs
      · rfl

theorem MkdirAll_elsewhere (faults : Faults) (fs : FileSystem) (path q : Path) (perm : Nat)
    (hq : ¬ q <+: path) : Lstat (MkdirAll faults fs path perm).2 q = Lstat fs q := by
  unfold MkdirAll
  split
  · rfl
  · apply mkdirs_elsewhere
    intro hmem
    exact hq ((List.mem_inits _ _).1 (List.mem_of_mem_tail hmem))

/-- The loop stops at the first layer that cannot be fetched or applied: the
layers before it were applied, it was handed to `applyLayer` unless its blob
could not be fetched, and no layer after it was touched. -/
theorem applyLayers_stops (filter : Option (TarEntry → Bool)) (root : Path)
    (pre post : List Layer) (layer : Layer) (e : Err) (i : Nat) (b : Emitter) (fs : FileSystem)
    (sent : List Event) (applied : List Layer) (states : List FileSystem)
    (hpre : layersSucceed filter root pre fs = true) (hlen : 15 ≤ layer.digest.length)
    (hfail : layer.getBlob = some e
      ∨ (layer.getBlob = none
        ∧ (applyLayer filter root layer (foldLayers filter root pre fs)).1 = some e)) :
    ∃ msg,
      (applyLayers filter root i (pre ++ layer :: post) b fs sent applied states).result
          = .ok (some (.wrapf msg e))
        ∧ (applyLayers filter root i (pre ++ layer :: post) b fs sent applied states).fs
          = foldLayers filter root (if layer.getBlob.isSome then pre else pre ++ [layer]) fs
        ∧ (applyLayers filter root i (pre ++ layer :: post) b fs sent applied states).applied
          = applied ++ (if layer.getBlob.isSome then pre else pre ++ [layer]) := by
  obtain ⟨b1, sent1, states1, heq⟩ :=
    applyLayers_of_succeed filter root pre (layer :: post) i b fs sent applied states hpre
  rw [heq, applyLayers, if_neg (by omega)]
  rcases hfail with hblob | ⟨hblob, happly⟩
  · simp only [hblob, Option.isSome_some, if_true]
    exact ⟨_, rfl, by simp, by simp⟩
  · cases hal : applyLayer filter root layer (foldLayers filter root pre fs) with
    | mk err fs1 =>
    rw [hal] at happly
    simp only at happly
    subst happly
    simp only [hblob, Option.isSome_none, Bool.false_eq_true, if_false]
    refine ⟨_, rfl, ?_, by simp⟩
    rw [foldLayers_append, foldLayers_cons, hal]
    rfl

/-- C16 (as the code has it): when the layers before layer k succeed and layer
k cannot be fetched or applied, unpackImage applies no layer after k, calls
deleteRecursive on the entry path and returns the layer error joined with the
error of that cleanup, if any. When the cleanup succeeds nothing is left at or
below the entry path; whether it does or not, whatever lies neither below the
entry path nor on the way to it is as it was before. -/
theorem unpackImage_layer_failure (i : OCIUnpacker) (faults : Faults) (unpackPath : Path)
    (img : PulledImage) (progressEmitter : Emitter) (sent : List Event) (fs : FileSystem)
    (pre post : List Layer) (layer : Layer) (e : Err)
    (hni : img.newImage = none) (hns : img.newImageSource = none)
    (hmk : (MkdirAll faults fs unpackPath 0o700).1 = none)
    (hlayers : img.layers = pre ++ layer :: post)
    (hpre : layersSucceed i.ArchiveFilter unpackPath pre
      (MkdirAll faults fs unpackPath 0o700).2 = true)
    (hlen : 15 ≤ layer.digest.length)
    (hfail : layer.getBlob = some e
      ∨ (layer.getBlob = none
        ∧ (applyLayer i.ArchiveFilter unpackPath layer
            (foldLayers i.ArchiveFilter unpackPath pre
              (MkdirAll faults fs unpackPath 0o700).2)).1 = some e)) :
    (i.unpackImage faults unpackPath img progressEmitter sent fs).applied
        = (if layer.getBlob.isSome then pre else pre ++ [layer])
      ∧ (∃ msg,
          (i.unpackImage faults unpackPath img progressEmitter sent fs).outcome
            = closing img (.returned (some (joinErrs (.wrapf msg e)
                (deleteRecursive faults
                  (foldLayers i.ArchiveFilter unpackPath
                    (if layer.getBlob.isSome then pre else pre ++ [layer])
                    (MkdirAll faults fs unpackPath 0o700).2) unpackPath).1))))
      ∧ (i.unpackImage faults unpackPath img progressEmitter sent fs).fs
          = (deleteRecursive faults
              (foldLayers i.ArchiveFilter unpackPath
                (if layer.getBlob.isSome then pre else pre ++ [layer])
                (MkdirAll faults fs unpackPath 0o700).2) unpackPath).2
      ∧ ((deleteRecursive faults
            (foldLayers i.ArchiveFilter unpackPath
              (if layer.getBlob.isSome then pre else pre ++ [layer])
              (MkdirAll faults fs unpackPath 0o700).2) unpackPath).1 = none →
          ∀ q, unpackPath <+: q →
            Lstat (i.unpackImage faults unpackPath img progressEmitter sent fs).fs q = none)
      ∧ (∀ q, ¬ unpackPath <+: q → ¬ q <+: unpackPath →
          Lstat (i.unpackImage faults unpackPath img progressEmitter sent fs).fs q
            = Lstat fs q) := by
  have hrun : (i.unpackImage faults unpackPath img progressEmitter sent fs).applied
        = (if layer.getBlob.isSome then pre else pre ++ [layer])
      ∧ (∃ msg,
          (i.unpackImage faults unpackPath img progressEmitter sent fs).outcome
            = closing img (.returned (some (joinErrs (.wrapf msg e)
                (deleteRecursive faults
                  (foldLayers i.ArchiveFilter unpackPath
                    (if layer.getBlob.isSome then pre else pre ++ [layer])
                    (MkdirAll faults fs unpackPath 0o700).2) unpackPath).1))))
      ∧ (i.unpackImage faults unpackPath img progressEmitter sent fs).fs
          = (deleteRecursive faults
              (foldLayers i.ArchiveFilter unpackPath
                (if layer.getBlob.isSome then pre else pre ++ [layer])
                (MkdirAll faults fs unpackPath 0o700).2) unpackPath).2 := by
    unfold OCIUnpacker.unpackImage
    cases hm : MkdirAll faults fs unpackPath 0o700 with
    | mk merr fs1 =>
    rw [hm] at hmk hpre hfail
    simp only at hmk hpre hfail
    subst hmk
    simp only [hni, hns, hlayers]
    obtain ⟨msg, hres, hfs, happ⟩ :=
      applyLayers_stops i.ArchiveFilter unpackPath pre post layer e 0
        ((((progressEmitter.NewTask TaskIDOCIUnpack).WithSize 0).WithSubjectID "").WithSubjectID ""
          |>.WithProgress 0 0).Done fs1
        ((((progressEmitter.NewTask TaskIDOCIUnpack).WithSize 0).WithSubjectID "").Emit sent)
        [] [fs1] hpre hlen hfail
    generalize applyLayers i.ArchiveFilter unpackPath 0 (pre ++ layer :: post)
        ((((progressEmitter.NewTask TaskIDOCIUnpack).WithSize 0).WithSubjectID "").WithSubjectID ""
          |>.WithProgress 0 0).Done fs1
        ((((progressEmitter.NewTask TaskIDOCIUnpack).WithSize 0).WithSubjectID "").Emit sent)
        [] [fs1] = loop at hres hfs happ ⊢
    rw [List.nil_append] at happ
    simp only [hres, hfs, happ]
    exact ⟨trivial, ⟨msg, rfl⟩, trivial⟩
  obtain ⟨happ, hout, hfs⟩ := hrun
  refine ⟨happ, hout, hfs, ?_, ?_⟩
  · intro hclean q hq
    rw [hfs, deleteRecursive_ok faults _ _ unpackPath (Prod.ext hclean rfl) q, if_pos hq]
  · intro q hq hqp
    rw [hfs, deleteRecursive_elsewhere faults _ unpackPath q hq,
      foldLayers_elsewhere _ _ _ q hq, MkdirAll_elsewhere faults fs unpackPath q 0o700 hqp]

/-- Witness of C16: the second of three layers breaks after its first entry; the
cleanup succeeds and the entry path does not exist afterwards. -/
theorem unpackImage_layer_failure_witness :
    (plainUnpacker.unpackImage noFaults (exampleDest ++ [exampleDigest])
        (imageOf [layerA, layerBroken, layerB]) { Event := Event.zero, ProgressChan := none } []
        emptyDest).applied = [layerA, layerBroken]
      ∧ Lstat (plainUnpacker.unpackImage noFaults (exampleDest ++ [exampleDigest])
          (imageOf [layerA, layerBroken, layerB]) { Event := Event.zero, ProgressChan := none } []
          emptyDest).fs (exampleDest ++ [exampleDigest]) = none :=
  have h := unpackImage_layer_failure plainUnpacker noFaults (exampleDest ++ [exampleDigest])
    (imageOf [layerA, layerBroken, layerB]) { Event := Event.zero, ProgressChan := none } []
    emptyDest [layerA] [layerB] layerBroken (.plain "archive/tar: invalid tar header" false)
    rfl rfl (by decide) rfl (by decide) (by decide) (Or.inr ⟨rfl, by decide⟩)
  ⟨h.1, h.2.2.2.1 (by decide) _ (List.prefix_refl _)⟩

/-- Counterexample to C16 as stated: the second of three layers breaks after it
wrote the file `partial`, and in the cleanup the directory `bin` of the first
layer cannot be made writable. deleteRecursive gives up before it removes
anything: unpackImage returns both errors, and the entry path still holds
`bin/tool` of the first layer and `partial` of the broken one. -/
theorem unpackImage_failed_cleanup_leaves_residue :
    (∃ layerErr cleanupErr,
        (plainUnpacker.unpackImage
          (fun op => decide (op = .chmod (exampleDest ++ [exampleDigest, "bin"])))
          (exampleDest ++ [exampleDigest]) (imageOf [layerA, layerBroken, layerB])
          { Event := Event.zero, ProgressChan := none } [] emptyDest).outcome
          = .returned (some (.join layerErr cleanupErr)))
      ∧ (Lstat (plainUnpacker.unpackImage
          (fun op => decide (op = .chmod (exampleDest ++ [exampleDigest, "bin"])))
          (exampleDest ++ [exampleDigest]) (imageOf [layerA, layerBroken, layerB])
          { Event := Event.zero, ProgressChan := none } [] emptyDest).fs
          (exampleDest ++ [exampleDigest, "partial"])).isSome = true
      ∧ (Lstat (plainUnpacker.unpackImage
          (fun op => decide (op = .chmod (exampleDest ++ [exampleDigest, "bin"])))
          (exampleDest ++ [exampleDigest]) (imageOf [layerA, layerBroken, layerB])
          { Event := Event.zero, ProgressChan := none } [] emptyDest).fs
          (exampleDest ++ [exampleDigest, "bin", "tool"])).isSome = true := by
  refine ⟨⟨_, _, rfl⟩, by decide, by decide⟩

/-! ## How unpackImage and Unpack can end -/

/-- The ways in which unpackImage returns: before it touches the file system,
after a failed MkdirAll, after a failed layer and the cleanup, after a failed
sealing, or with nil after the sealing of the complete tree. -/
theorem unpackImage_returned (i : OCIUnpacker) (faults : Faults) (unpackPath : Path)
    (img : PulledImage) (progressEmitter : Emitter) (sent : List Event) (fs : FileSystem)
    (err : Option Err)
    (h : (i.unpackImage faults unpackPath img progressEmitter sent fs).outcome = .returned err) :
    (err ≠ none ∧ (i.unpackImage faults unpackPath img progressEmitter sent fs).fs = fs)
      ∨ (err ≠ none ∧ (MkdirAll faults fs unpackPath 0o700).1 ≠ none
          ∧ (i.unpackImage faults unpackPath img progressEmitter sent fs).fs
            = (MkdirAll faults fs unpackPath 0o700).2)
      ∨ ((MkdirAll faults fs unpackPath 0o700).1 = none
          ∧ ∃ done layerErr, done <+: img.layers
            ∧ err = some (joinErrs layerErr
                (deleteRecursive faults (foldLayers i.ArchiveFilter unpackPath done
                  (MkdirAll faults fs unpackPath 0o700).2) unpackPath).1)
            ∧ (i.unpackImage faults unpackPath img progressEmitter sent fs).fs
              = (deleteRecursive faults (foldLayers i.ArchiveFilter unpackPath done
                  (MkdirAll faults fs unpackPath 0o700).2) unpackPath).2)
      ∨ ((MkdirAll faults fs unpackPath 0o700).1 = none
          ∧ (i.unpackImage faults unpackPath img progressEmitter sent fs).applied = img.layers
          ∧ ∃ sealErr,
            setReadOnlyRecursive faults (foldLayers i.ArchiveFilter unpackPath img.layers
                (MkdirAll faults fs unpackPath 0o700).2) unpackPath
              = (sealErr, (i.unpackImage faults unpackPath img progressEmitter sent fs).fs)
            ∧ err = sealErr.map (Err.wrapf "error making unpack directory read-only: ")) := by
  unfold OCIUnpacker.unpackImage at h ⊢
  cases hni : img.newImage with
  | some e =>
    left
    rw [hni] at h
    simp only [Outcome.returned.injEq] at h
    subst h
    exact ⟨by simp, rfl⟩
  | none =>
  rw [hni] at h
  simp only at h ⊢
  cases hns : img.newImageSource with
  | some e =>
    left
    rw [hns] at h
    have := closing_returned _ _ _ h
    simp only [Outcome.returned.injEq] at this
    subst this
    exact ⟨by simp, rfl⟩
  | none =>
  rw [hns] at h
  simp only at h ⊢
  cases hmk : MkdirAll faults fs unpackPath 0o700 with
  | mk merr fs1 =>
  rw [hmk] at h
  cases merr with
  | some e =>
    right
    left
    have := closing_returned _ _ _ h
    simp only [Outcome.returned.injEq] at this
    subst this
    exact ⟨by simp, by simp, rfl⟩
  | none =>
  right
  right
  simp only at h ⊢
  obtain ⟨done, happ, hpre, hsucc, hfs, hall⟩ :=
    applyLayers_applied i.ArchiveFilter unpackPath img.layers 0
      ((((progressEmitter.NewTask TaskIDOCIUnpack).WithSize 0).WithSubjectID "").WithSubjectID ""
        |>.WithProgress 0 0).Done fs1
      ((((progressEmitter.NewTask TaskIDOCIUnpack).WithSize 0).WithSubjectID "").Emit sent)
      [] [fs1]
  generalize applyLayers i.ArchiveFilter unpackPath 0 img.layers
      ((((progressEmitter.NewTask TaskIDOCIUnpack).WithSize 0).WithSubjectID "").WithSubjectID ""
        |>.WithProgress 0 0).Done fs1
      ((((progressEmitter.NewTask TaskIDOCIUnpack).WithSize 0).WithSubjectID "").Emit sent)
      [] [fs1] = loop at happ hfs hall h ⊢
  rw [List.nil_append] at happ
  cases hres : loop.result with
  | panic p =>
    rw [hres] at h
    have := closing_returned _ _ _ h
    simp at this
  | ok oerr =>
  cases oerr with
  | some e =>
    left
    rw [hres] at h
    have := closing_returned _ _ _ h
    simp only [Outcome.returned.injEq] at this
    subst this
    refine ⟨trivial, done, e, hpre, ?_, ?_⟩
    · rw [hfs]
    · rw [hfs]
  | none =>
    right
    obtain ⟨hd, _⟩ := hall hres
    subst hd
    rw [hres] at h
    simp only at h ⊢
    cases hseal : setReadOnlyRecursive faults loop.fs unpackPath with
    | mk serr fs2 =>
    rw [hseal] at h
    cases serr with
    | some e =>
      have := closing_returned _ _ _ h
      simp only [Outcome.returned.injEq] at this
      subst this
      exact ⟨trivial, happ, some e, by rw [← hfs, hseal], rfl⟩
    | none =>
      have := closing_returned _ _ _ h
      simp only [Outcome.returned.injEq] at this
      subst this
      exact ⟨trivial, happ, none, by rw [← hfs, hseal], rfl⟩

/-- The path of Unpack for an entry that is already there: nothing is pulled or
applied, the file system is as before, and besides the events of the task
Resolve one skipped event is sent for each of the tasks Pull and Unpack. -/
theorem Unpack_cached (i : OCIUnpacker) (faults : Faults) (registry : Registry)
    (imgRef : ImageRef) (dest : Path) (o : Options) (fs : FileSystem) (digest : String)
    (accesses : List Access) (inode : Inode)
    (hctx : i.SourceContextFunc = none)
    (hres : resolveCanonicalRef registry imgRef = (.ok digest, accesses))
    (hstat : Lstat fs (dest ++ [digest]) = some inode) (hdir : inode.typ = .dir) :
    i.Unpack faults registry imgRef dest (some o) fs
      = { outcome := .returned none, fs := fs,
          sent :=
            (((({ Event := Event.zero, ProgressChan := o.ProgressChan } : Emitter).NewTask
              TaskIDOCIResolve).WithSize (-1)).Done.NewTask TaskIDOCIPull).Skip.NewTask
              TaskIDOCIUnpack |>.Skip.Emit
              ((((({ Event := Event.zero, ProgressChan := o.ProgressChan } : Emitter).NewTask
                TaskIDOCIResolve).WithSize (-1)).Done.NewTask TaskIDOCIPull).Skip.Emit
                (((({ Event := Event.zero, ProgressChan := o.ProgressChan } : Emitter).NewTask
                  TaskIDOCIResolve).WithSize (-1)).Done.Emit
                  (((({ Event := Event.zero, ProgressChan := o.ProgressChan } : Emitter).NewTask
                    TaskIDOCIResolve).WithSize (-1)).Emit []))),
          accesses := accesses, applied := [], states := [] } := by
  unfold OCIUnpacker.Unpack
  simp only [hctx, hres, hstat, hdir, ne_eq, not_true_eq_false, if_false]

/-- The path of Unpack for an entry that is not there yet: it returns an error
before it touches the file system, or it ends as unpackImage does. -/
theorem Unpack_not_cached (i : OCIUnpacker) (faults : Faults) (registry : Registry)
    (imgRef : ImageRef) (dest : Path) (o : Options) (fs : FileSystem) (digest : String)
    (accesses : List Access)
    (hctx : i.SourceContextFunc = none)
    (hres : resolveCanonicalRef registry imgRef = (.ok digest, accesses))
    (hnew : Lstat fs (dest ++ [digest]) = none) :
    (∃ e, (i.Unpack faults registry imgRef dest (some o) fs).outcome = .returned (some e)
        ∧ (i.Unpack faults registry imgRef dest (some o) fs).fs = fs
        ∧ (i.Unpack faults registry imgRef dest (some o) fs).applied = [])
      ∨ (∃ b sent1,
          (i.Unpack faults registry imgRef dest (some o) fs).outcome
              = (i.unpackImage faults (dest ++ [digest]) registry.image b sent1 fs).outcome
            ∧ (i.Unpack faults registry imgRef dest (some o) fs).fs
              = (i.unpackImage faults (dest ++ [digest]) registry.image b sent1 fs).fs
            ∧ (i.Unpack faults registry imgRef dest (some o) fs).applied
              = (i.unpackImage faults (dest ++ [digest]) registry.image b sent1 fs).applied
            ∧ (i.Unpack faults registry imgRef dest (some o) fs).states
              = (i.unpackImage faults (dest ++ [digest]) registry.image b sent1 fs).states) := by
  unfold OCIUnpacker.Unpack
  simp only [hctx, hres, hnew]
  cases registry.newReference with
  | some e => exact Or.inl ⟨_, rfl, rfl, rfl⟩
  | none =>
  cases registry.mkdirTemp with
  | some e => exact Or.inl ⟨_, rfl, rfl, rfl⟩
  | none =>
  cases registry.layoutReference with
  | some e => exact Or.inl ⟨_, rfl, rfl, rfl⟩
  | none =>
  simp only
  split
  · exact Or.inl ⟨_, rfl, rfl, rfl⟩
  · exact Or.inr ⟨_, _, rfl, rfl, rfl, rfl⟩

theorem sealed_typ (inode : Inode) : (sealed inode).typ = inode.typ := by
  unfold sealed
  split <;> simp_all

theorem setReadOnlyRecursive_keeps_dir (faults : Faults) (fs fs1 : FileSystem) (root : Path)
    (d : Inode) (h : setReadOnlyRecursive faults fs root = (none, fs1))
    (hd : Lstat fs root = some d) (hdir : d.typ = .dir) :
    ∃ d1, Lstat fs1 root = some d1 ∧ d1.typ = .dir := by
  have hs := (sealEntries_ok faults _ fs fs1 (setReadOnlyRecursive_ok faults fs fs1 root h)).2 root
  rw [hd] at hs
  refine ⟨_, hs, ?_⟩
  split
  · rw [sealed_typ]
    exact hdir
  · exact hdir

/-- After Unpack returned nil the entry directory exists. -/
theorem Unpack_returned_nil_entry (i : OCIUnpacker) (faults : Faults) (registry : Registry)
    (imgRef : ImageRef) (dest : Path) (o : Options) (fs : FileSystem) (digest : String)
    (accesses : List Access)
    (hctx : i.SourceContextFunc = none)
    (hres : resolveCanonicalRef registry imgRef = (.ok digest, accesses))
    (hok : (i.Unpack faults registry imgRef dest (some o) fs).outcome = .returned none) :
    ∃ d, Lstat (i.Unpack faults registry imgRef dest (some o) fs).fs (dest ++ [digest]) = some d
      ∧ d.typ = .dir := by
  cases hstat : Lstat fs (dest ++ [digest]) with
  | some inode =>
    by_cases hdir : inode.typ = .dir
    · rw [Unpack_cached i faults registry imgRef dest o fs digest accesses inode hctx hres
        hstat hdir]
      exact ⟨inode, hstat, hdir⟩
    · unfold OCIUnpacker.Unpack at hok
      simp [hctx, hres, hstat, hdir] at hok
  | none =>
    rcases Unpack_not_cached i faults registry imgRef dest o fs digest accesses hctx hres hstat
      with ⟨e, hout, _, _⟩ | ⟨b, sent1, hout, hfs, _, _⟩
    · rw [hout] at hok
      cases hok
    · rw [hout] at hok
      rw [hfs]
      rcases unpackImage_returned i faults (dest ++ [digest]) registry.image b sent1 fs none hok
        with ⟨hne, _⟩ | ⟨hne, _⟩ | ⟨_, done, layerErr, _, herr, _⟩ | ⟨hmk, _, sealErr, hseal, herr⟩
      · exact absurd rfl hne
      · exact absurd rfl hne
      · simp [joinErrs] at herr
      · cases sealErr with
        | some e => cases herr
        | none =>
          have hne : dest ++ [digest] ≠ [] := by simp
          obtain ⟨d0, hd0, hdir0⟩ := MkdirAll_ok faults fs _ (dest ++ [digest]) 0o700 hne
            (Prod.ext hmk rfl)
          obtain ⟨d1, hd1, hdir1⟩ := foldLayers_root i.ArchiveFilter (dest ++ [digest])
            registry.image.layers _ d0 hd0 hdir0
          exact setReadOnlyRecursive_keeps_dir faults _ _ _ d1 hseal hd1 hdir1

/-- C13: for a digest-pinned reference, with a source-context function that
succeeds and options given: when the entry directory dest/digest exists, Unpack
returns nil without any remote access, hands no layer to applyLayer and leaves
the file system as it is; and once Unpack has returned nil for the reference,
every further Unpack of it, whatever the registry answers by then, returns nil
without remote access and leaves the tree of the first call as it is. -/
theorem Unpack_of_unpacked_digest_is_noop (i : OCIUnpacker) (faults : Faults)
    (registry : Registry) (imgRef : ImageRef) (dest : Path) (o : Options) (fs : FileSystem)
    (digest : String) (hctx : i.SourceContextFunc = none) (hpin : imgRef.digest = some digest) :
    (∀ inode, Lstat fs (dest ++ [digest]) = some inode → inode.typ = .dir →
        (i.Unpack faults registry imgRef dest (some o) fs).outcome = .returned none
          ∧ (i.Unpack faults registry imgRef dest (some o) fs).accesses = []
          ∧ (i.Unpack faults registry imgRef dest (some o) fs).applied = []
          ∧ (i.Unpack faults registry imgRef dest (some o) fs).states = []
          ∧ (i.Unpack faults registry imgRef dest (some o) fs).fs = fs)
      ∧ ((i.Unpack faults registry imgRef dest (some o) fs).outcome = .returned none →
          ∀ (faults2 : Faults) (registry2 : Registry) (o2 : Options),
            (i.Unpack faults2 registry2 imgRef dest (some o2)
                (i.Unpack faults registry imgRef dest (some o) fs).fs).outcome = .returned none
              ∧ (i.Unpack faults2 registry2 imgRef dest (some o2)
                (i.Unpack faults registry imgRef dest (some o) fs).fs).accesses = []
              ∧ (i.Unpack faults2 registry2 imgRef dest (some o2)
                (i.Unpack faults registry imgRef dest (some o) fs).fs).applied = []
              ∧ (i.Unpack faults2 registry2 imgRef dest (some o2)
                (i.Unpack faults registry imgRef dest (some o) fs).fs).fs
                = (i.Unpack faults registry imgRef dest (some o) fs).fs) := by
  have hres : ∀ r : Registry, resolveCanonicalRef r imgRef = (.ok digest, []) := by
    intro r
    simp [resolveCanonicalRef, hpin]
  constructor
  · intro inode hstat hdir
    rw [Unpack_cached i faults registry imgRef dest o fs digest [] inode hctx (hres registry)
      hstat hdir]
    exact ⟨rfl, rfl, rfl, rfl, rfl⟩
  · intro hok faults2 registry2 o2
    obtain ⟨d, hd, hdir⟩ := Unpack_returned_nil_entry i faults registry imgRef dest o fs digest []
      hctx (hres registry) hok
    rw [Unpack_cached i faults2 registry2 imgRef dest o2 _ digest [] d hctx (hres registry2)
      hd hdir]
    exact ⟨rfl, rfl, rfl, rfl⟩

/-- Witness of C13: the image was unpacked for the pinned reference; a second
Unpack, against a registry that would now serve another image, changes
nothing. -/
theorem Unpack_of_unpacked_digest_is_noop_witness :
    (plainUnpacker.Unpack noFaults (registryOf [layerBroken]) pinnedRef exampleDest
        (some { ProgressChan := none }) unpackedDest).outcome = .returned none
      ∧ (plainUnpacker.Unpack noFaults (registryOf [layerBroken]) pinnedRef exampleDest
        (some { ProgressChan := none }) unpackedDest).accesses = []
      ∧ (plainUnpacker.Unpack noFaults (registryOf [layerBroken]) pinnedRef exampleDest
        (some { ProgressChan := none }) unpackedDest).fs = unpackedDest :=
  have h := (Unpack_of_unpacked_digest_is_noop plainUnpacker noFaults (registryOf [layerA, layerB])
    pinnedRef exampleDest { ProgressChan := none } emptyDest exampleDigest rfl rfl).2 (by decide)
    noFaults (registryOf [layerBroken]) { ProgressChan := none }
  ⟨h.1, h.2.1, h.2.2.2⟩

/-- C14 (as the code has it): on the path of Unpack for an entry that is
already there, with a progress channel, exactly one event is sent for each of
the tasks Pull and Unpack; it has the kind skipped and the size -1, the marker
of an unknown size that NewTask sets and Skip leaves. -/
theorem Unpack_skipped_events_have_unknown_size (i : OCIUnpacker) (faults : Faults)
    (registry : Registry) (imgRef : ImageRef) (dest : Path) (chan : Chan) (fs : FileSystem)
    (digest : String) (accesses : List Access) (inode : Inode)
    (hctx : i.SourceContextFunc = none)
    (hres : resolveCanonicalRef registry imgRef = (.ok digest, accesses))
    (hstat : Lstat fs (dest ++ [digest]) = some inode) (hdir : inode.typ = .dir) :
    eventsOfTask TaskIDOCIPull
        (i.Unpack faults registry imgRef dest (some { ProgressChan := some chan }) fs).sent
        = [{ EventType := .Skipped, TaskID := TaskIDOCIPull, SubjectID := "", Size := -1,
             Offset := 0, OffsetUpdate := 0 }]
      ∧ eventsOfTask TaskIDOCIUnpack
        (i.Unpack faults registry imgRef dest (some { ProgressChan := some chan }) fs).sent
        = [{ EventType := .Skipped, TaskID := TaskIDOCIUnpack, SubjectID := "", Size := -1,
             Offset := 0, OffsetUpdate := 0 }] := by
  rw [Unpack_cached i faults registry imgRef dest _ fs digest accesses inode hctx hres
    hstat hdir]
  exact ⟨rfl, rfl⟩

/-- Witness of C14: the second Unpack of the pinned reference, with a progress
channel. -/
theorem Unpack_skipped_events_have_unknown_size_witness :
    (eventsOfTask TaskIDOCIPull
        (plainUnpacker.Unpack noFaults (registryOf [layerA, layerB]) pinnedRef exampleDest
          (some { ProgressChan := some ⟨1⟩ }) unpackedDest).sent).map (fun e => e.Size) = [-1] :=
  congrArg (List.map (fun e => e.Size))
    (Unpack_skipped_events_have_unknown_size plainUnpacker noFaults (registryOf [layerA, layerB])
      pinnedRef exampleDest ⟨1⟩ unpackedDest exampleDigest [] _ rfl rfl
      (by decide :
        Lstat unpackedDest (exampleDest ++ [exampleDigest])
          = some { typ := .dir, perm := 0o500, data := [] })
      rfl).1

/-- Counterexample to C14 as stated: the image of the pinned reference is
unpacked already and its layers have the sizes 2 and 1. Unpack, called again
with a progress channel, returns nil, and the skipped events of the tasks Pull
and Unpack carry the size -1. -/
theorem Unpack_skips_with_size_unknown :
    (plainUnpacker.Unpack noFaults (registryOf [layerA, layerB]) pinnedRef exampleDest
        withChannel unpackedDest).outcome = .returned none
      ∧ (plainUnpacker.Unpack noFaults (registryOf [layerA, layerB]) pinnedRef exampleDest
        withChannel unpackedDest).sent.map (fun e => (e.TaskID, e.EventType, e.Size))
        = [("Resolve", .NewTask, -1), ("Resolve", .Done, -1), ("Pull", .Skipped, -1),
           ("Unpack", .Skipped, -1)] := by
  decide

theorem inits_tail_snoc (s : Path) (a : String) :
    (s ++ [a]).inits.tail = s.inits.tail ++ [s ++ [a]] := by
  rw [List.inits_append]
  cases s with
  | nil => rfl
  | cons c cs => simp [List.inits]

theorem mkdirs_fail_keeps_last (perm : Nat) (qs : List Path) (p : Path) (hp : p ∉ qs) :
    ∀ fs : FileSystem, (mkdirs perm (qs ++ [p]) fs).1 ≠ none → Lstat fs p = none →
      Lstat (mkdirs perm (qs ++ [p]) fs).2 p = none := by
  induction qs with
  | nil =>
    intro fs hfail hnone
    simp [mkdirs, hnone] at hfail
  | cons q qs ih =>
    intro fs hfail hnone
    have hpq : p ≠ q := fun h => hp (h ▸ List.mem_cons_self _ _)
    have hpqs : p ∉ qs := fun h => hp (List.mem_cons_of_mem _ h)
    rw [List.cons_append, mkdirs] at hfail ⊢
    split
    · next hq =>
      rw [hq] at hfail
      exact ih hpqs _ hfail (by rw [Lstat_append_single_ne _ _ _ _ hpq]; exact hnone)
    · next inode hq =>
      rw [hq] at hfail
      simp only at hfail
      split
      · next hdir =>
        rw [if_pos hdir] at hfail
        exact ih hpqs fs hfail hnone
      · exact hnone

theorem MkdirAll_fail_absent (faults : Faults) (fs : FileSystem) (dir : Path) (name : String)
    (perm : Nat) (hfail : (MkdirAll faults fs (dir ++ [name]) perm).1 ≠ none)
    (hnone : Lstat fs (dir ++ [name]) = none) :
    Lstat (MkdirAll faults fs (dir ++ [name]) perm).2 (dir ++ [name]) = none := by
  unfold MkdirAll at hfail ⊢
  split
  · exact hnone
  · next hf =>
    rw [if_neg hf] at hfail
    rw [inits_tail_snoc] at hfail ⊢
    apply mkdirs_fail_keeps_last perm _ _ _ fs hfail hnone
    intro hmem
    have hpre := (List.mem_inits _ _).1 (List.mem_of_mem_tail hmem)
    exact not_snoc_prefix_self dir name hpre

/-- C12 (as the code has it): Unpack for an entry that is not there yet writes
the layers straight into the entry directory. When it returns nil the entry
directory exists and holds the sealed left fold of all layers of the image.
When it returns an error and the entry directory exists all the same, the
error is a layer error joined with the error of a failed cleanup, or the error
of a failed sealing. -/
theorem Unpack_entry_after_return (i : OCIUnpacker) (faults : Faults) (registry : Registry)
    (imgRef : ImageRef) (dest : Path) (o : Options) (fs : FileSystem) (digest : String)
    (accesses : List Access)
    (hctx : i.SourceContextFunc = none)
    (hres : resolveCanonicalRef registry imgRef = (.ok digest, accesses))
    (hnew : Lstat fs (dest ++ [digest]) = none) :
    ((i.Unpack faults registry imgRef dest (some o) fs).outcome = .returned none →
        (i.Unpack faults registry imgRef dest (some o) fs).applied = registry.image.layers
          ∧ (i.Unpack faults registry imgRef dest (some o) fs).fs
            = (setReadOnlyRecursive faults
                (foldLayers i.ArchiveFilter (dest ++ [digest]) registry.image.layers
                  (MkdirAll faults fs (dest ++ [digest]) 0o700).2) (dest ++ [digest])).2
          ∧ (setReadOnlyRecursive faults
                (foldLayers i.ArchiveFilter (dest ++ [digest]) registry.image.layers
                  (MkdirAll faults fs (dest ++ [digest]) 0o700).2) (dest ++ [digest])).1 = none
          ∧ ∃ d, Lstat (i.Unpack faults registry imgRef dest (some o) fs).fs (dest ++ [digest])
              = some d ∧ d.typ = .dir)
      ∧ (∀ err d,
          (i.Unpack faults registry imgRef dest (some o) fs).outcome = .returned (some err) →
          Lstat (i.Unpack faults registry imgRef dest (some o) fs).fs (dest ++ [digest])
            = some d →
          (∃ layerErr cleanupErr, err = .join layerErr cleanupErr)
            ∨ ∃ sealErr, err = .wrapf "error making unpack directory read-only: " sealErr) := by
  constructor
  · intro hok
    have hentry := Unpack_returned_nil_entry i faults registry imgRef dest o fs digest accesses
      hctx hres hok
    rcases Unpack_not_cached i faults registry imgRef dest o fs digest accesses hctx hres hnew
      with ⟨e, hout, _, _⟩ | ⟨b, sent1, hout, hfs, happ, _⟩
    · rw [hout] at hok
      cases hok
    · rw [hout] at hok
      rcases unpackImage_returned i faults (dest ++ [digest]) registry.image b sent1 fs none hok
        with ⟨hne, _⟩ | ⟨hne, _⟩ | ⟨_, done, layerErr, _, herr, _⟩
          | ⟨_, happ1, sealErr, hseal, herr⟩
      · exact absurd rfl hne
      · exact absurd rfl hne
      · simp [joinErrs] at herr
      · cases sealErr with
        | some e => cases herr
        | none =>
          refine ⟨by rw [happ, happ1], ?_, by rw [hseal], hentry⟩
          rw [hfs, hseal]
  · intro err d hout hd
    rcases Unpack_not_cached i faults registry imgRef dest o fs digest accesses hctx hres hnew
      with ⟨e, _, hfs, _⟩ | ⟨b, sent1, hout1, hfs, _, _⟩
    · rw [hfs, hnew] at hd
      cases hd
    · rw [hout1] at hout
      rw [hfs] at hd
      rcases unpackImage_returned i faults (dest ++ [digest]) registry.image b sent1 fs _ hout
        with ⟨_, hfs1⟩ | ⟨_, hfail, hfs1⟩ | ⟨_, done, layerErr, _, herr, hfs1⟩
          | ⟨_, _, sealErr, _, herr⟩
      · rw [hfs1, hnew] at hd
        cases hd
      · rw [hfs1, MkdirAll_fail_absent faults fs dest digest 0o700 hfail hnew] at hd
        cases hd
      · left
        cases hclean : (deleteRecursive faults (foldLayers i.ArchiveFilter (dest ++ [digest]) done
            (MkdirAll faults fs (dest ++ [digest]) 0o700).2) (dest ++ [digest])).1 with
        | none =>
          rw [hfs1, deleteRecursive_ok faults _ _ (dest ++ [digest]) (Prod.ext hclean rfl),
            if_pos (List.prefix_refl _)] at hd
          cases hd
        | some c =>
          rw [hclean] at herr
          simp only [joinErrs, Option.some.injEq] at herr
          exact ⟨layerErr, c, herr⟩
      · right
        cases sealErr with
        | none => cases herr
        | some e =>
          simp only [Option.map_some', Option.some.injEq] at herr
          exact ⟨e, herr⟩

/-- Witness of C12: the image with the layers A and B is unpacked into the
empty destination; afterwards the entry directory exists, sealed. -/
theorem Unpack_entry_after_return_witness :
    Lstat (plainUnpacker.Unpack noFaults (registryOf [layerA, layerB]) taggedRef exampleDest
        (some { ProgressChan := none }) emptyDest).fs (exampleDest ++ [exampleDigest])
      = some { typ := .dir, perm := 0o500, data := [] } := by
  have h := (Unpack_entry_after_return plainUnpacker noFaults (registryOf [layerA, layerB])
    taggedRef exampleDest { ProgressChan := none } emptyDest exampleDigest
    [.imageSource, .manifest] rfl rfl (by decide)).1 (by decide)
  rw [h.2.1]
  decide

/-- Counterexample to C12 as stated. The image with the layers A and B is
unpacked into the empty destination: of the states the file system passes
through, the first two have the entry directory without the file `README` of
the complete tree, and an Unpack of the same reference started on the state
after layer A returns nil without any remote access. And when the second layer
of three breaks and the cleanup fails, Unpack returns an error, the entry
directory stays behind with `partial` and without `README`, and the next Unpack
of the reference returns nil on it. -/
theorem Unpack_partial_entry_is_observable :
    (plainUnpacker.Unpack noFaults (registryOf [layerA, layerB]) pinnedRef exampleDest
        (some { ProgressChan := none }) emptyDest).states.map
        (fun tree => ((Lstat tree (exampleDest ++ [exampleDigest])).isSome,
          (Lstat tree (exampleDest ++ [exampleDigest, "README"])).isSome))
        = [(true, false), (true, false), (true, true), (true, true)]
      ∧ (∃ tree, (plainUnpacker.Unpack noFaults (registryOf [layerA, layerB]) pinnedRef
            exampleDest (some { ProgressChan := none }) emptyDest).states.get? 1 = some tree
          ∧ (plainUnpacker.Unpack noFaults (registryOf [layerA, layerB]) pinnedRef exampleDest
              (some { ProgressChan := none }) tree).outcome = .returned none
          ∧ (plainUnpacker.Unpack noFaults (registryOf [layerA, layerB]) pinnedRef exampleDest
              (some { ProgressChan := none }) tree).accesses = [])
      ∧ (∃ err, (plainUnpacker.Unpack
            (fun op => decide (op = .chmod (exampleDest ++ [exampleDigest, "bin"])))
            (registryOf [layerA, layerBroken, layerB]) pinnedRef exampleDest
            (some { ProgressChan := none }) emptyDest).outcome = .returned (some err))
      ∧ (Lstat (plainUnpacker.Unpack
            (fun op => decide (op = .chmod (exampleDest ++ [exampleDigest, "bin"])))
            (registryOf [layerA, layerBroken, layerB]) pinnedRef exampleDest
            (some { ProgressChan := none }) emptyDest).fs
            (exampleDest ++ [exampleDigest, "partial"])).isSome = true
      ∧ Lstat (plainUnpacker.Unpack
            (fun op => decide (op = .chmod (exampleDest ++ [exampleDigest, "bin"])))
            (registryOf [layerA, layerBroken, layerB]) pinnedRef exampleDest
            (some { ProgressChan := none }) emptyDest).fs
            (exampleDest ++ [exampleDigest, "README"]) = none
      ∧ (plainUnpacker.Unpack noFaults (registryOf [layerA, layerBroken, layerB]) pinnedRef
          exampleDest (some { ProgressChan := none })
          (plainUnpacker.Unpack
            (fun op => decide (op = .chmod (exampleDest ++ [exampleDigest, "bin"])))
            (registryOf [layerA, layerBroken, layerB]) pinnedRef exampleDest
            (some { ProgressChan := none }) emptyDest).fs).outcome = .returned none := by
  refine ⟨by decide, ⟨_, rfl, by decide, by decide⟩, ⟨_, rfl⟩, by decide, by decide, by decide⟩

/-! ## The progress channel -/

theorem Emit_none (b : Emitter) (sent : List Event) (h : b.ProgressChan = none) :
    b.Emit sent = sent := by
  simp [Emitter.Emit, h]

/-- Without a channel `copyData` sends nothing. -/
theorem copyData_silent (ctx : Context) (reader : Reader) :
    ∀ (poll : Nat) (b : Emitter) (out : Writer) (sent : List Event),
      b.ProgressChan = none →
      (copyData ctx poll b reader out sent).sent = sent
        ∧ (copyData ctx poll b reader out sent).emitter.ProgressChan = none := by
  induction reader with
  | nil =>
    intro poll b out sent hc
    unfold copyData
    by_cases hd : ctx.Done poll = true
    · simp [hd, hc]
    · simp [hd, Emitter.Emit, Emitter.Done, hc]
  | cons step rest ih =>
    intro poll b out sent hc
    have hc1 : (b.WithProgress 0 step.data.length).Progress.ProgressChan = none := by
      simpa [Emitter.WithProgress, Emitter.WithOffset, Emitter.WithOffsetUpdate,
        Emitter.Progress] using hc
    unfold copyData
    by_cases hd : ctx.Done poll = true
    · simp [hd, hc]
    · simp only [hd, Bool.false_eq_true, if_false]
      by_cases hn : ((step.data.length : Nat) : Int) > 0
      · simp only [hn, if_true]
        cases hw : out.Write step.data with
        | mk werr out1 =>
        cases werr with
        | some e => exact ⟨rfl, hc⟩
        | none =>
          simp only
          rw [Emit_none _ _ hc1]
          cases hs : step.status with
          | eof =>
            simp only
            exact ⟨Emit_none _ _ (by simpa [Emitter.Done] using hc1),
              by simpa [Emitter.Done] using hc1⟩
          | failed e => exact ⟨rfl, hc1⟩
          | more => exact ih _ _ _ _ hc1
      · simp only [hn, if_false]
        cases hs : step.status with
        | eof =>
          simp only
          exact ⟨Emit_none _ _ (by simpa [Emitter.Done] using hc),
            by simpa [Emitter.Done] using hc⟩
        | failed e => exact ⟨rfl, hc⟩
        | more => exact ih _ _ _ _ hc

/-- C22: Emit on an emitter without channel (nil) sends nothing: what was sent
so far is all there is, and the emitter, which Emit only reads, keeps its
event; with a channel Emit sends exactly one event, the current event of the
emitter, after what was sent before. Hence copyData, handed an emitter without
channel, sends nothing either. -/
theorem Emit_sends_only_with_channel (b : Emitter) (sent : List Event) :
    (b.ProgressChan = none → b.Emit sent = sent)
      ∧ (∀ chan, b.ProgressChan = some chan → b.Emit sent = sent ++ [b.Event])
      ∧ (b.ProgressChan = none →
          ∀ (ctx : Context) (poll : Nat) (reader : Reader) (out : Writer),
            (copyData ctx poll b reader out sent).sent = sent) :=
  ⟨Emit_none b sent, fun chan h => Emit_some b chan sent h,
    fun h ctx poll reader out => (copyData_silent ctx reader poll b out sent h).1⟩

/-- Witness of C22: the same event emitted without and with a channel. -/
theorem Emit_sends_only_with_channel_witness :
    (({ Event := Event.zero, ProgressChan := none } : Emitter).NewTask "Pull").Emit [] = []
      ∧ (({ Event := Event.zero, ProgressChan := some ⟨1⟩ } : Emitter).NewTask "Pull").Emit []
          = [{ EventType := .NewTask, TaskID := "Pull", SubjectID := "", Size := -1,
               Offset := 0, OffsetUpdate := 0 }] :=
  ⟨(Emit_sends_only_with_channel _ []).1 rfl, (Emit_sends_only_with_channel _ []).2.1 ⟨1⟩ rfl⟩

theorem mem_Emit (b : Emitter) (sent : List Event) (e : Event) (h : e ∈ b.Emit sent) :
    e ∈ sent ∨ e = b.Event := by
  unfold Emitter.Emit at h
  split at h
  · simpa using h
  · exact Or.inl h

/-- Every progress event `copyData` sends carries the offset 0, whatever was
copied before it, and the length of its chunk as offset update. -/
theorem copyData_offsets (ctx : Context) (reader : Reader) :
    ∀ (poll : Nat) (b : Emitter) (out : Writer) (sent : List Event) (e : Event),
      e ∈ (copyData ctx poll b reader out sent).sent →
      e ∈ sent ∨ e.EventType = .Done
        ∨ (e.EventType = .NewProgressed ∧ e.Offset = 0
          ∧ ∃ step ∈ reader, e.OffsetUpdate = step.data.length) := by
  induction reader with
  | nil =>
    intro poll b out sent e he
    unfold copyData at he
    by_cases hd : ctx.Done poll = true
    · simp only [hd, if_true] at he
      exact Or.inl he
    · simp only [hd, Bool.false_eq_true, if_false] at he
      rcases mem_Emit _ _ _ he with h | h
      · exact Or.inl h
      · right
        left
        rw [h]
        rfl
  | cons step rest ih =>
    intro poll b out sent e he
    unfold copyData at he
    by_cases hd : ctx.Done poll = true
    · simp only [hd, if_true] at he
      exact Or.inl he
    · simp only [hd, Bool.false_eq_true, if_false] at he
      have hprog : ∀ e, e ∈ (b.WithProgress 0 step.data.length).Progress.Emit sent →
          e ∈ sent ∨ (e.EventType = .NewProgressed ∧ e.Offset = 0
            ∧ ∃ s ∈ step :: rest, e.OffsetUpdate = s.data.length) := by
        intro e he
        rcases mem_Emit _ _ _ he with h | h
        · exact Or.inl h
        · right
          rw [h]
          exact ⟨rfl, rfl, step, List.mem_cons_self _ _, rfl⟩
      by_cases hn : ((step.data.length : Nat) : Int) > 0
      · simp only [hn, if_true] at he
        cases hw : out.Write step.data with
        | mk werr out1 =>
        rw [hw] at he
        cases werr with
        | some err => exact Or.inl he
        | none =>
          simp only at he
          cases hs : step.status with
          | eof =>
            rw [hs] at he
            rcases mem_Emit _ _ _ he with h | h
            · rcases hprog e h with h1 | h1
              · exact Or.inl h1
              · exact Or.inr (Or.inr h1)
            · right
              left
              rw [h]
              rfl
          | failed err =>
            rw [hs] at he
            rcases hprog e he with h1 | h1
            · exact Or.inl h1
            · exact Or.inr (Or.inr h1)
          | more =>
            rw [hs] at he
            rcases ih _ _ _ _ e he with h1 | h1 | ⟨h1, h2, s, hs1, hs2⟩
            · rcases hprog e h1 with h2 | h2
              · exact Or.inl h2
              · exact Or.inr (Or.inr h2)
            · exact Or.inr (Or.inl h1)
            · exact Or.inr (Or.inr ⟨h1, h2, s, List.mem_cons_of_mem _ hs1, hs2⟩)
      · simp only [hn, if_false] at he
        cases hs : step.status with
        | eof =>
          rw [hs] at he
          rcases mem_Emit _ _ _ he with h | h
          · exact Or.inl h
          · right
            left
            rw [h]
            rfl
        | failed err =>
          rw [hs] at he
          exact Or.inl he
        | more =>
          rw [hs] at he
          rcases ih _ _ _ _ e he with h1 | h1 | ⟨h1, h2, s, hs1, hs2⟩
          · exact Or.inl h1
          · exact Or.inr (Or.inl h1)
          · exact Or.inr (Or.inr ⟨h1, h2, s, List.mem_cons_of_mem _ hs1, hs2⟩)

/-- C21 (the code departs from the claim): a body of five bytes arrives in two
chunks of three and two bytes. copyData copies all of it and sends one progress
event per chunk; the offset updates are 3 and 2, the lengths of the chunks, but
the offset is 0 in both events, and in the done event: the local variable
`totalBytes` that is handed to WithProgress is never advanced. -/
theorem copyData_offset_stays_zero :
    (copyData background 0
        (({ Event := Event.zero, ProgressChan := some ⟨1⟩ } : Emitter).NewTask
          TaskIDHTTPDownload |>.WithSize 5)
        [{ data := [104, 101, 108], status := .more }, { data := [108, 111], status := .eof }]
        { written := [], room := none } []).err = none
      ∧ (copyData background 0
        (({ Event := Event.zero, ProgressChan := some ⟨1⟩ } : Emitter).NewTask
          TaskIDHTTPDownload |>.WithSize 5)
        [{ data := [104, 101, 108], status := .more }, { data := [108, 111], status := .eof }]
        { written := [], room := none } []).out.written = [104, 101, 108, 108, 111]
      ∧ (copyData background 0
        (({ Event := Event.zero, ProgressChan := some ⟨1⟩ } : Emitter).NewTask
          TaskIDHTTPDownload |>.WithSize 5)
        [{ data := [104, 101, 108], status := .more }, { data := [108, 111], status := .eof }]
        { written := [], room := none } []).sent.map
          (fun e => (e.EventType, e.Size, e.Offset, e.OffsetUpdate))
        = [(.NewProgressed, 5, 0, 3), (.NewProgressed, 5, 0, 2), (.Done, 5, 0, 2)] := by
  decide

/-! ## Cancellation of the copy loop -/

theorem copyData_of_done (ctx : Context) (poll : Nat) (b : Emitter) (reader : Reader)
    (out : Writer) (sent : List Event) (h : ctx.Done poll = true) :
    copyData ctx poll b reader out sent
      = { err := some ctx.err, emitter := b, out := out, sent := sent, polls := poll + 1,
          rest := reader } := by
  cases reader with
  | nil =>
    unfold copyData
    simp [h]
  | cons step rest =>
    unfold copyData
    simp [h]

theorem Write_unbounded (out : Writer) (p : Bytes) (h : out.room = none) :
    out.Write p = (none, { out with written := out.written ++ p }) := by
  simp [Writer.Write, h]

/-- The copy loop as far as the cancellation: the reads before it that deliver
more data are written to a writer that takes them, then the loop begins an
iteration with the context cancelled. -/
theorem copyData_until_cancelled (ctx : Context) (post : Reader) (k : Nat)
    (hcancel : ctx.cancelledFrom = some k) (pre : Reader) :
    ∀ (poll : Nat) (b : Emitter) (out : Writer) (sent : List Event),
      poll + pre.length = k → (∀ s ∈ pre, s.status = .more) → out.room = none →
      (copyData ctx poll b (pre ++ post) out sent).err = some ctx.err
        ∧ (copyData ctx poll b (pre ++ post) out sent).rest = post
        ∧ (copyData ctx poll b (pre ++ post) out sent).out
          = { out with written := out.written ++ (pre.map (fun s => s.data)).flatten }
        ∧ (copyData ctx poll b (pre ++ post) out sent).polls = k + 1 := by
  induction pre with
  | nil =>
    intro poll b out sent hk _ _
    have hd : ctx.Done poll = true := by
      simp only [List.length_nil, Nat.add_zero] at hk
      simp [Context.Done, hcancel, hk]
    rw [List.nil_append, copyData_of_done ctx poll b post out sent hd]
    simp only [List.length_nil, Nat.add_zero] at hk
    simp [hk]
  | cons step pre ih =>
    intro poll b out sent hk hmore hroom
    have hd : ¬ ctx.Done poll = true := by
      simp only [List.length_cons] at hk
      simp only [Context.Done, hcancel, decide_eq_true_eq]
      omega
    have hs : step.status = .more := hmore step (List.mem_cons_self _ _)
    have hmore1 : ∀ s ∈ pre, s.status = .more := fun s h => hmore s (List.mem_cons_of_mem _ h)
    have hk1 : poll + 1 + pre.length = k := by
      simp only [List.length_cons] at hk
      omega
    rw [List.cons_append, copyData]
    simp only [hd, Bool.false_eq_true, if_false]
    by_cases hn : ((step.data.length : Nat) : Int) > 0
    · simp only [hn, if_true, Write_unbounded out step.data hroom, hs]
      have h := ih (poll + 1) (b.WithProgress 0 step.data.length).Progress
        { out with written := out.written ++ step.data }
        ((b.WithProgress 0 step.data.length).Progress.Emit sent) hk1 hmore1 hroom
      refine ⟨h.1, h.2.1, ?_, h.2.2.2⟩
      rw [h.2.2.1]
      simp
    · simp only [hn, if_false, hs]
      have hnil : step.data = [] := by
        have : step.data.length = 0 := by omega
        exact List.length_eq_zero.1 this
      have h := ih (poll + 1) b out sent hk1 hmore1 hroom
      refine ⟨h.1, h.2.1, ?_, h.2.2.2⟩
      rw [h.2.2.1]
      simp [hnil]

/-- C25: when the context is cancelled as copyData is called, copyData returns
the error of the context, and the reader, the writer and the progress channel
are as they were; and when the context is cancelled as a later iteration
begins, the reads before having delivered their data to a writer that took
them, copyData returns the error of the context having made those reads and
no other, and having written their data and nothing else. -/
theorem copyData_stops_when_cancelled (ctx : Context) (poll : Nat) (b : Emitter)
    (out : Writer) (sent : List Event) :
    (∀ reader, ctx.Done poll = true →
        copyData ctx poll b reader out sent
          = { err := some ctx.err, emitter := b, out := out, sent := sent, polls := poll + 1,
              rest := reader })
      ∧ (∀ pre post : Reader, ctx.cancelledFrom = some (poll + pre.length) →
          (∀ s ∈ pre, s.status = .more) → out.room = none →
          (copyData ctx poll b (pre ++ post) out sent).err = some ctx.err
            ∧ (copyData ctx poll b (pre ++ post) out sent).rest = post
            ∧ (copyData ctx poll b (pre ++ post) out sent).out.written
                = out.written ++ (pre.map (fun s => s.data)).flatten) := by
  refine ⟨fun reader h => copyData_of_done ctx poll b reader out sent h, ?_⟩
  intro pre post hcancel hmore hroom
  have h := copyData_until_cancelled ctx post _ hcancel pre poll b out sent rfl hmore hroom
  refine ⟨h.1, h.2.1, ?_⟩
  rw [h.2.2.1]

/-- Witness of C25: a body of two chunks; the context is cancelled before the
call, and then after the first chunk. -/
theorem copyData_stops_when_cancelled_witness :
    (copyData { cancelledFrom := some 0, err := .plain "context canceled" false } 0
        { Event := Event.zero, ProgressChan := none }
        [{ data := [1, 2, 3], status := .more }, { data := [4, 5], status := .eof }]
        { written := [], room := none } []).out.written = []
      ∧ (copyData { cancelledFrom := some 1, err := .plain "context canceled" false } 0
        { Event := Event.zero, ProgressChan := none }
        ([{ data := [1, 2, 3], status := .more }] ++ [{ data := [4, 5], status := .eof }])
        { written := [], room := none } []).rest = [{ data := [4, 5], status := .eof }] :=
  ⟨congrArg (fun r => r.out.written)
      ((copyData_stops_when_cancelled
        { cancelledFrom := some 0, err := .plain "context canceled" false } 0
        { Event := Event.zero, ProgressChan := none } { written := [], room := none } []).1
        _ rfl),
    ((copyData_stops_when_cancelled
        { cancelledFrom := some 1, err := .plain "context canceled" false } 0
        { Event := Event.zero, ProgressChan := none } { written := [], room := none } []).2
        [{ data := [1, 2, 3], status := .more }] [{ data := [4, 5], status := .eof }]
        rfl (by decide) rfl).2.1⟩

/-! ## Pruning of the conditions -/

/-- C27: clearUnknownConditions keeps a condition exactly when it was there and
its type is Serving or Progressing; the conditions it keeps are the ones of
these types in their order and number (the result is a sublist of what was
there, and each condition of a known type occurs in it as often as before); the
other fields of the status are as they were; and pruning a pruned status
changes nothing. -/
theorem clearUnknownConditions_prunes (status : ClusterCatalogStatus) :
    (∀ c, c ∈ (clearUnknownConditions status).conditions
        ↔ c ∈ status.conditions ∧ (c.type = TypeServing ∨ c.type = TypeProgressing))
      ∧ (clearUnknownConditions status).conditions.Sublist status.conditions
      ∧ (∀ c, c.type = TypeServing ∨ c.type = TypeProgressing →
          (clearUnknownConditions status).conditions.count c = status.conditions.count c)
      ∧ (clearUnknownConditions status).resolvedSource = status.resolvedSource
      ∧ (clearUnknownConditions status).lastUnpacked = status.lastUnpacked
      ∧ clearUnknownConditions (clearUnknownConditions status) = clearUnknownConditions status := by
  refine ⟨fun c => ?_, ?_, fun c hc => ?_, rfl, rfl, ?_⟩
  · simp [clearUnknownConditions, List.mem_filter]
  · exact List.filter_sublist _
  · simp only [clearUnknownConditions]
    rw [List.count_filter]
    simpa using hc
  · simp [clearUnknownConditions, List.filter_filter]

/-- Witness of C27: a status with a Progressing condition, a condition of the
unknown type Installed and a Serving condition; the Serving condition is kept,
once. -/
theorem clearUnknownConditions_prunes_witness :
    (clearUnknownConditions
        { conditions :=
            [{ type := TypeProgressing, status := ConditionTrue, observedGeneration := 1,
               lastTransitionTime := ⟨500⟩, reason := ReasonSucceeded, message := "" },
             { type := "Installed", status := ConditionTrue, observedGeneration := 1,
               lastTransitionTime := ⟨500⟩, reason := ReasonSucceeded, message := "" },
             { type := TypeServing, status := ConditionTrue, observedGeneration := 1,
               lastTransitionTime := ⟨600⟩, reason := "Available", message := "" }],
          resolvedSource := none, lastUnpacked := none }).conditions.count
        { type := TypeServing, status := ConditionTrue, observedGeneration := 1,
          lastTransitionTime := ⟨600⟩, reason := "Available", message := "" } = 1 :=
  ((clearUnknownConditions_prunes _).2.2.1 _ (Or.inl rfl)).trans (by decide)

/-! ## The source of a bundle -/

/-- What `BundleSourceFromBundle` does with a bundle, by the number of its
content-type properties: none, it panics; one, it returns an image source
whatever the property says; more, it returns an error. -/
theorem BundleSourceFromBundle_cases (unmarshal : String → Except Err String)
    (b : source.Bundle) :
    ((b.properties.filter (fun p => decide (p.type = "olm.content-type"))).length = 0 →
        source.BundleSourceFromBundle unmarshal (some b) = .panic (.indexOutOfRange 0 0))
      ∧ ((b.properties.filter (fun p => decide (p.type = "olm.content-type"))).length = 1 →
        source.BundleSourceFromBundle unmarshal (some b)
          = .ok (some { name := "", type := source.SourceTypeImage,
                        image := some { ref := b.image }, helmChart := none }, none))
      ∧ ((b.properties.filter (fun p => decide (p.type = "olm.content-type"))).length > 1 →
        source.BundleSourceFromBundle unmarshal (some b)
          = .ok (none,
              some (.plain "bundle contains more than one content type properties" false))) := by
  refine ⟨fun h => ?_, fun h => ?_, fun h => ?_⟩
  · have hnil := List.length_eq_zero.1 h
    simp [source.BundleSourceFromBundle, source.Filter, h, hnil]
  · simp [source.BundleSourceFromBundle, source.Filter, h]
  · simp [source.BundleSourceFromBundle, source.Filter, h]

/-- C26 (the code departs from the claim): for a bundle that is not nil and has
no property at all, and for one whose only property is of another type,
BundleSourceFromBundle panics: it reads element 0 of the empty slice of
content-type properties, on the branch taken when that slice is empty. -/
theorem BundleSourceFromBundle_panics_without_content_type
    (unmarshal : String → Except Err String) :
    source.BundleSourceFromBundle unmarshal (some source.plainBundle)
        = .panic (.indexOutOfRange 0 0)
      ∧ source.BundleSourceFromBundle unmarshal
          (some { image := "quay.io/example/bundle:v1",
                  properties := [{ type := "olm.package", value := "x" }] })
        = .panic (.indexOutOfRange 0 0) :=
  ⟨rfl, rfl⟩

/-- C30 (the code departs from the claim): for a bundle with exactly one
content-type property, of value "helm", BundleSourceFromBundle returns a source
of type image with the bundle's image as reference and no helm chart; and for
a bundle without content-type property it returns nothing: it panics. -/
theorem BundleSourceFromBundle_helm_yields_image (unmarshal : String → Except Err String) :
    source.BundleSourceFromBundle unmarshal (some source.helmBundle)
        = .ok (some { name := "", type := "image",
                      image := some { ref := "oci://quay.io/example/chart:1.0.0" },
                      helmChart := none }, none)
      ∧ ∀ r err, source.BundleSourceFromBundle unmarshal (some source.plainBundle)
          ≠ .ok (r, err) := by
  refine ⟨rfl, fun r err h => ?_⟩
  cases h

/-! ## Deprecation conditions -/

theorem collectDeprecations_keys (channelSet : List String) (bundleName : String)
    (entries : List DeprecationEntry) :
    ∀ d : Deprecations,
      ((collectDeprecations channelSet bundleName entries d).pkg.isSome
          = (d.pkg.isSome
            || entries.any (fun e => decide (e.reference.schema = SchemaPackage))))
        ∧ ((collectDeprecations channelSet bundleName entries d).channel.isSome
          = (d.channel.isSome
            || entries.any (fun e => decide (e.reference.schema = SchemaChannel
                ∧ e.reference.name ∈ channelSet))))
        ∧ ((collectDeprecations channelSet bundleName entries d).bundle.isSome
          = (d.bundle.isSome
            || entries.any (fun e => decide (e.reference.schema = SchemaBundle
                ∧ e.reference.name = bundleName)))) := by
  have hpc : SchemaPackage ≠ SchemaChannel := by decide
  have hpb : SchemaPackage ≠ SchemaBundle := by decide
  have hcb : SchemaChannel ≠ SchemaBundle := by decide
  induction entries with
  | nil => intro d; simp [collectDeprecations]
  | cons entry entries ih =>
    intro d
    rw [collectDeprecations]
    by_cases h1 : entry.reference.schema = SchemaPackage
    · have h2 : entry.reference.schema ≠ SchemaChannel := fun h => hpc (h1.symm.trans h)
      have h3 : entry.reference.schema ≠ SchemaBundle := fun h => hpb (h1.symm.trans h)
      rw [if_pos h1]
      obtain ⟨ha, hb, hc⟩ := ih { d with pkg := some [entry] }
      rw [ha, hb, hc]
      simp [h1, h2, h3, hpc, hpb, hcb, Ne.symm hpc, Ne.symm hpb, Ne.symm hcb]
    · rw [if_neg h1]
      by_cases h2 : entry.reference.schema = SchemaChannel
      · have h3 : entry.reference.schema ≠ SchemaBundle := fun h => hcb (h2.symm.trans h)
        rw [if_pos h2]
        by_cases hm : entry.reference.name ∈ channelSet
        · rw [if_pos hm]
          obtain ⟨ha, hb, hc⟩ :=
            ih { d with channel := some (d.channel.getD [] ++ [entry]) }
          rw [ha, hb, hc]
          simp [h1, h2, h3, hm, hpc, hpb, hcb, Ne.symm hpc, Ne.symm hpb, Ne.symm hcb]
        · rw [if_neg hm]
          obtain ⟨ha, hb, hc⟩ := ih d
          rw [ha, hb, hc]
          simp [h1, h2, h3, hm, hpc, hpb, hcb, Ne.symm hpc, Ne.symm hpb, Ne.symm hcb]
      · rw [if_neg h2]
        by_cases h3 : entry.reference.schema = SchemaBundle
        · rw [if_pos h3]
          by_cases hn : bundleName ≠ entry.reference.name
          · rw [if_pos hn]
            obtain ⟨ha, hb, hc⟩ := ih d
            rw [ha, hb, hc]
            have hn1 : ¬ entry.reference.name = bundleName := fun h => hn h.symm
            simp [h1, h2, h3, hn1, hpc, hpb, hcb, Ne.symm hpc, Ne.symm hpb, Ne.symm hcb]
          · rw [if_neg hn]
            obtain ⟨ha, hb, hc⟩ := ih { d with bundle := some [entry] }
            rw [ha, hb, hc]
            have hn1 : entry.reference.name = bundleName := by
              by_contra h
              exact hn (fun h1 => h h1.symm)
            simp [h1, h2, h3, hn1, hpc, hpb, hcb, Ne.symm hpc, Ne.symm hpb, Ne.symm hcb]
        · rw [if_neg h3]
          obtain ⟨ha, hb, hc⟩ := ih d
          rw [ha, hb, hc]
          simp [h1, h2, h3, hpc, hpb, hcb, Ne.symm hpc, Ne.symm hpb, Ne.symm hcb]

theorem collectDeprecations_nonempty (channelSet : List String) (bundleName : String)
    (entries : List DeprecationEntry) :
    ∀ d : Deprecations, keysNonempty d →
      keysNonempty (collectDeprecations channelSet bundleName entries d) := by
  induction entries with
  | nil => intro d h; exact h
  | cons entry entries ih =>
    intro d h
    rw [collectDeprecations]
    apply ih
    obtain ⟨ha, hb, hc⟩ := h
    split
    · exact ⟨by simp, hb, hc⟩
    · split
      · split
        · exact ⟨ha, by simp, hc⟩
        · exact ⟨ha, hb, hc⟩
      · split
        · split
          · exact ⟨ha, hb, hc⟩
          · exact ⟨ha, hb, by simp⟩
        · exact ⟨ha, hb, hc⟩

/-- Four conditions of four different types set one after the other: each type
is found afterwards with the status it was set to, and the number of
conditions of each type is what it was, but at least one. -/
theorem SetStatusCondition_four {W : Type} (env : Env W) (w : W) (conditions : List Condition)
    (c0 c1 c2 c3 : Condition)
    (h01 : c0.type ≠ c1.type) (h02 : c0.type ≠ c2.type) (h03 : c0.type ≠ c3.type)
    (h12 : c1.type ≠ c2.type) (h13 : c1.type ≠ c3.type) (h23 : c2.type ≠ c3.type)
    (r0 r1 r2 r3 : List Condition × W)
    (e0 : r0 = SetStatusCondition env w conditions c0)
    (e1 : r1 = SetStatusCondition env r0.2 r0.1 c1)
    (e2 : r2 = SetStatusCondition env r1.2 r1.1 c2)
    (e3 : r3 = SetStatusCondition env r2.2 r2.1 c3) :
    (∃ c, FindStatusCondition r3.1 c0.type = some c ∧ c.status = c0.status)
      ∧ (∃ c, FindStatusCondition r3.1 c1.type = some c ∧ c.status = c1.status)
      ∧ (∃ c, FindStatusCondition r3.1 c2.type = some c ∧ c.status = c2.status)
      ∧ (∃ c, FindStatusCondition r3.1 c3.type = some c ∧ c.status = c3.status)
      ∧ countType c0.type r3.1 = max 1 (countType c0.type conditions)
      ∧ countType c1.type r3.1 = max 1 (countType c1.type conditions)
      ∧ countType c2.type r3.1 = max 1 (countType c2.type conditions)
      ∧ countType c3.type r3.1 = max 1 (countType c3.type conditions) := by
  subst e0 e1 e2 e3
  refine ⟨?_, ?_, ?_, ?_, ?_, ?_, ?_, ?_⟩
  · obtain ⟨c, hc, hs, _⟩ := SetStatusCondition_find env w conditions c0
    refine ⟨c, ?_, hs⟩
    rw [SetStatusCondition_find_other env _ _ c3 c0.type (Ne.symm h03),
      SetStatusCondition_find_other env _ _ c2 c0.type (Ne.symm h02),
      SetStatusCondition_find_other env _ _ c1 c0.type (Ne.symm h01)]
    exact hc
  · obtain ⟨c, hc, hs, _⟩ := SetStatusCondition_find env
      (SetStatusCondition env w conditions c0).2 (SetStatusCondition env w conditions c0).1 c1
    refine ⟨c, ?_, hs⟩
    rw [SetStatusCondition_find_other env _ _ c3 c1.type (Ne.symm h13),
      SetStatusCondition_find_other env _ _ c2 c1.type (Ne.symm h12)]
    exact hc
  · obtain ⟨c, hc, hs, _⟩ := SetStatusCondition_find env
      (SetStatusCondition env (SetStatusCondition env w conditions c0).2
        (SetStatusCondition env w conditions c0).1 c1).2
      (SetStatusCondition env (SetStatusCondition env w conditions c0).2
        (SetStatusCondition env w conditions c0).1 c1).1 c2
    refine ⟨c, ?_, hs⟩
    rw [SetStatusCondition_find_other env _ _ c3 c2.type (Ne.symm h23)]
    exact hc
  · obtain ⟨c, hc, hs, _⟩ := SetStatusCondition_find env
      (SetStatusCondition env (SetStatusCondition env (SetStatusCondition env w conditions c0).2
        (SetStatusCondition env w conditions c0).1 c1).2
        (SetStatusCondition env (SetStatusCondition env w conditions c0).2
          (SetStatusCondition env w conditions c0).1 c1).1 c2).2
      (SetStatusCondition env (SetStatusCondition env (SetStatusCondition env w conditions c0).2
        (SetStatusCondition env w conditions c0).1 c1).2
        (SetStatusCondition env (SetStatusCondition env w conditions c0).2
          (SetStatusCondition env w conditions c0).1 c1).1 c2).1 c3
    exact ⟨c, hc, hs⟩
  · rw [SetStatusCondition_countType_other env _ _ c3 c0.type (Ne.symm h03),
      SetStatusCondition_countType_other env _ _ c2 c0.type (Ne.symm h02),
      SetStatusCondition_countType_other env _ _ c1 c0.type (Ne.symm h01),
      SetStatusCondition_countType]
  · rw [SetStatusCondition_countType_other env _ _ c3 c1.type (Ne.symm h13),
      SetStatusCondition_countType_other env _ _ c2 c1.type (Ne.symm h12),
      SetStatusCondition_countType,
      SetStatusCondition_countType_other env _ _ c0 c1.type h01]
  · rw [SetStatusCondition_countType_other env _ _ c3 c2.type (Ne.symm h23),
      SetStatusCondition_countType,
      SetStatusCondition_countType_other env _ _ c1 c2.type h12,
      SetStatusCondition_countType_other env _ _ c0 c2.type h02]
  · rw [SetStatusCondition_countType,
      SetStatusCondition_countType_other env _ _ c2 c3.type h23,
      SetStatusCondition_countType_other env _ _ c1 c3.type h13,
      SetStatusCondition_countType_other env _ _ c0 c3.type h03]

theorem deprecationsOf_keys (ext : ClusterExtension) (bundleName : String)
    (deprecation : Option Deprecation) :
    (deprecationsOf ext bundleName deprecation).pkg.isSome = hasPackageEntry deprecation
      ∧ (deprecationsOf ext bundleName deprecation).channel.isSome
        = hasChannelEntry ext deprecation
      ∧ (deprecationsOf ext bundleName deprecation).bundle.isSome
        = hasBundleEntry bundleName deprecation
      ∧ keysNonempty (deprecationsOf ext bundleName deprecation) := by
  cases deprecation with
  | none =>
    refine ⟨rfl, rfl, rfl, ?_⟩
    simp [keysNonempty, deprecationsOf]
  | some d =>
    obtain ⟨ha, hb, hc⟩ := collectDeprecations_keys (listedChannels ext) bundleName d.entries
      { pkg := none, channel := none, bundle := none }
    refine ⟨?_, ?_, ?_, ?_⟩
    · simpa [deprecationsOf, hasPackageEntry] using ha
    · simpa [deprecationsOf, hasChannelEntry] using hb
    · simpa [deprecationsOf, hasBundleEntry] using hc
    · apply collectDeprecations_nonempty
      simp [keysNonempty]

theorem deprecationCondition_status (conditionType : String)
    (entries : Option (List DeprecationEntry)) (generation : Int) :
    (deprecationCondition conditionType entries generation).type = conditionType
      ∧ (deprecationCondition conditionType entries generation).status
        = if entries.isSome then ConditionTrue else ConditionFalse := by
  cases entries <;> exact ⟨rfl, rfl⟩

theorem deprecatedCondition_status (d : Deprecations) (generation : Int)
    (h : keysNonempty d) :
    (deprecatedCondition d generation).type = TypeDeprecated
      ∧ (deprecatedCondition d generation).status
        = if d.pkg.isSome || d.channel.isSome || d.bundle.isSome then ConditionTrue
          else ConditionFalse := by
  obtain ⟨ha, hb, hc⟩ := h
  unfold deprecatedCondition
  constructor
  · simp only
    split <;> rfl
  · cases hp : d.pkg with
    | some l =>
      have hl : l ≠ [] := fun hnil => ha (by rw [hp, hnil])
      have : 0 < l.length := List.length_pos.2 hl
      simp only [Option.getD_some, List.length_append, List.length_map, Option.isSome_some,
        Bool.true_or, if_true]
      rw [if_pos (by omega)]
    | none =>
      cases hch : d.channel with
      | some l =>
        have hl : l ≠ [] := fun hnil => hb (by rw [hch, hnil])
        have : 0 < l.length := List.length_pos.2 hl
        simp only [Option.getD_some, Option.getD_none, List.length_append, List.length_map,
          Option.isSome_some, Option.isSome_none, Bool.true_or, Bool.or_true, Bool.false_or,
          if_true]
        rw [if_pos (by omega)]
      | none =>
        cases hbu : d.bundle with
        | some l =>
          have hl : l ≠ [] := fun hnil => hc (by rw [hbu, hnil])
          have : 0 < l.length := List.length_pos.2 hl
          simp only [Option.getD_some, Option.getD_none, List.length_append, List.length_map,
            Option.isSome_some, Option.isSome_none, Bool.or_true, if_true]
          rw [if_pos (by omega)]
        | none => simp

theorem SetDeprecationStatus_first_conditions {W : Type} (env : Env W) (w : W)
    (ext : ClusterExtension) (bundleName : String) (deprecation : Option Deprecation) :
    (∃ c, FindStatusCondition (SetDeprecationStatus env w ext bundleName deprecation).1.conditions
          TypeDeprecated = some c
        ∧ c.status = if hasPackageEntry deprecation || hasChannelEntry ext deprecation
              || hasBundleEntry bundleName deprecation then ConditionTrue else ConditionFalse)
      ∧ (∃ c, FindStatusCondition
            (SetDeprecationStatus env w ext bundleName deprecation).1.conditions
            TypePackageDeprecated = some c
        ∧ c.status = if hasPackageEntry deprecation then ConditionTrue else ConditionFalse)
      ∧ (∃ c, FindStatusCondition
            (SetDeprecationStatus env w ext bundleName deprecation).1.conditions
            TypeChannelDeprecated = some c
        ∧ c.status = if hasChannelEntry ext deprecation then ConditionTrue else ConditionFalse)
      ∧ (∃ c, FindStatusCondition
            (SetDeprecationStatus env w ext bundleName deprecation).1.conditions
            TypeBundleDeprecated = some c
        ∧ c.status = if hasBundleEntry bundleName deprecation then ConditionTrue
            else ConditionFalse)
      ∧ (∀ t ∈ [TypeDeprecated, TypePackageDeprecated, TypeChannelDeprecated,
            TypeBundleDeprecated],
          countType t (SetDeprecationStatus env w ext bundleName deprecation).1.conditions
            = max 1 (countType t ext.conditions)) := by
  obtain ⟨hp, hc, hb, hne⟩ := deprecationsOf_keys ext bundleName deprecation
  obtain ⟨t0, s0⟩ := deprecatedCondition_status (deprecationsOf ext bundleName deprecation)
    ext.generation hne
  obtain ⟨t1, s1⟩ := deprecationCondition_status TypePackageDeprecated
    (deprecationsOf ext bundleName deprecation).pkg ext.generation
  obtain ⟨t2, s2⟩ := deprecationCondition_status TypeChannelDeprecated
    (deprecationsOf ext bundleName deprecation).channel ext.generation
  obtain ⟨t3, s3⟩ := deprecationCondition_status TypeBundleDeprecated
    (deprecationsOf ext bundleName deprecation).bundle ext.generation
  have h := SetStatusCondition_four env w ext.conditions
    (deprecatedCondition (deprecationsOf ext bundleName deprecation) ext.generation)
    (deprecationCondition TypePackageDeprecated
      (deprecationsOf ext bundleName deprecation).pkg ext.generation)
    (deprecationCondition TypeChannelDeprecated
      (deprecationsOf ext bundleName deprecation).channel ext.generation)
    (deprecationCondition TypeBundleDeprecated
      (deprecationsOf ext bundleName deprecation).bundle ext.generation)
    (by rw [t0, t1]; decide) (by rw [t0, t2]; decide) (by rw [t0, t3]; decide)
    (by rw [t1, t2]; decide) (by rw [t1, t3]; decide) (by rw [t2, t3]; decide)
    _ _ _ _ rfl rfl rfl rfl
  rw [t0, t1, t2, t3, s0, s1, s2, s3, hp, hc, hb] at h
  obtain ⟨h0, h1, h2, h3, n0, n1, n2, n3⟩ := h
  refine ⟨h0, h1, h2, h3, ?_⟩
  intro t ht
  simp only [List.mem_cons, List.mem_singleton, List.not_mem_nil, or_false] at ht
  rcases ht with rfl | rfl | rfl | rfl
  · exact n0
  · exact n1
  · exact n2
  · exact n3

/-- C28: after SetDeprecationStatus the status of the extension, its conditions
being keyed by type (at most one of a type before the call), holds exactly one
condition of each of the types Deprecated, PackageDeprecated,
ChannelDeprecated and BundleDeprecated. PackageDeprecated is True exactly when
some entry has the package schema, ChannelDeprecated exactly when some entry
of the channel schema names a channel listed in the catalog source of the
extension, BundleDeprecated exactly when some entry of the bundle schema names
the given bundle, and Deprecated exactly when one of the three is; otherwise
the condition is False, as all four are for a nil deprecation. -/
theorem SetDeprecationStatus_sets_conditions {W : Type} (env : Env W) (w : W)
    (ext : ClusterExtension) (bundleName : String) (deprecation : Option Deprecation)
    (hkeyed : ∀ t ∈ [TypeDeprecated, TypePackageDeprecated, TypeChannelDeprecated,
      TypeBundleDeprecated], countType t ext.conditions ≤ 1) :
    (∃ c, (SetDeprecationStatus env w ext bundleName deprecation).1.conditions.filter
            (fun d => decide (d.type = TypeDeprecated)) = [c]
        ∧ c.status = if hasPackageEntry deprecation || hasChannelEntry ext deprecation
              || hasBundleEntry bundleName deprecation then ConditionTrue else ConditionFalse)
      ∧ (∃ c, (SetDeprecationStatus env w ext bundleName deprecation).1.conditions.filter
            (fun d => decide (d.type = TypePackageDeprecated)) = [c]
        ∧ c.status = if hasPackageEntry deprecation then ConditionTrue else ConditionFalse)
      ∧ (∃ c, (SetDeprecationStatus env w ext bundleName deprecation).1.conditions.filter
            (fun d => decide (d.type = TypeChannelDeprecated)) = [c]
        ∧ c.status = if hasChannelEntry ext deprecation then ConditionTrue else ConditionFalse)
      ∧ (∃ c, (SetDeprecationStatus env w ext bundleName deprecation).1.conditions.filter
            (fun d => decide (d.type = TypeBundleDeprecated)) = [c]
        ∧ c.status = if hasBundleEntry bundleName deprecation then ConditionTrue
            else ConditionFalse)
      ∧ (hasPackageEntry none = false ∧ hasChannelEntry ext none = false
          ∧ hasBundleEntry bundleName none = false) := by
  obtain ⟨⟨c0, f0, s0⟩, ⟨c1, f1, s1⟩, ⟨c2, f2, s2⟩, ⟨c3, f3, s3⟩, hcount⟩ :=
    SetDeprecationStatus_first_conditions env w ext bundleName deprecation
  have hone : ∀ t ∈ [TypeDeprecated, TypePackageDeprecated, TypeChannelDeprecated,
      TypeBundleDeprecated],
      countType t (SetDeprecationStatus env w ext bundleName deprecation).1.conditions = 1 := by
    intro t ht
    rw [hcount t ht]
    have := hkeyed t ht
    omega
  refine ⟨⟨c0, filter_singleton_of_find _ _ c0 (hone _ (by simp)) f0, s0⟩,
    ⟨c1, filter_singleton_of_find _ _ c1 (hone _ (by simp)) f1, s1⟩,
    ⟨c2, filter_singleton_of_find _ _ c2 (hone _ (by simp)) f2, s2⟩,
    ⟨c3, filter_singleton_of_find _ _ c3 (hone _ (by simp)) f3, s3⟩, rfl, rfl, rfl⟩

/-- Witness of C28: an extension that follows the channel `stable` and whose
status already holds a Deprecated condition, False, of an earlier generation;
the deprecation has entries for the channels `stable` and `alpha` and for the
bundle `operator.v1.0.0`, which is the bundle given. -/
theorem SetDeprecationStatus_sets_conditions_witness :
    (∀ t ∈ [TypeDeprecated, TypePackageDeprecated, TypeChannelDeprecated,
        TypeBundleDeprecated], countType t stableExtension.conditions ≤ 1)
      ∧ (∃ c, (SetDeprecationStatus (clockScript ⟨5000⟩).env () stableExtension
            "operator.v1.0.0" (some exampleDeprecation)).1.conditions.filter
              (fun d => decide (d.type = TypeDeprecated)) = [c]
          ∧ c.status = ConditionTrue)
      ∧ (∃ c, (SetDeprecationStatus (clockScript ⟨5000⟩).env () stableExtension
            "operator.v1.0.0" (some exampleDeprecation)).1.conditions.filter
              (fun d => decide (d.type = TypePackageDeprecated)) = [c]
          ∧ c.status = ConditionFalse) :=
  ⟨by decide,
    (SetDeprecationStatus_sets_conditions (clockScript ⟨5000⟩).env () stableExtension
      "operator.v1.0.0" (some exampleDeprecation) (by decide)).1,
    (SetDeprecationStatus_sets_conditions (clockScript ⟨5000⟩).env () stableExtension
      "operator.v1.0.0" (some exampleDeprecation) (by decide)).2.1⟩

/-! ## Responses other than 200 -/

theorem downloadCatalog_not_ok (client : HTTPDownloader) (temp : TempDir) (url : String)
    (response : Response) (hreq : client.NewRequest url = none)
    (hdo : client.Do url = .ok response) (hstatus : response.StatusCode ≠ 200)
    (hgzip : ∀ e, client.gzipNewReader ((response.Body.map (fun step => step.data)).flatten)
      = .error e → e.isTerminal = false) :
    ∃ err, downloadCatalog client temp url = .error err ∧ err.isTerminal = false := by
  unfold downloadCatalog
  simp only [hreq, hdo]
  by_cases hz : response.gzip = true
  · simp only [hz, if_true]
    cases hg : client.gzipNewReader ((response.Body.map (fun step => step.data)).flatten) with
    | error e => exact ⟨_, rfl, by simpa [Err.isTerminal] using hgzip e hg⟩
    | ok reader =>
      simp only [hstatus, ne_eq, not_false_eq_true, if_true]
      exact ⟨_, rfl, rfl⟩
  · simp only [hz, Bool.false_eq_true, if_false, hstatus, ne_eq, not_false_eq_true, if_true]
    exact ⟨_, rfl, rfl⟩

/-- C23: for a response whose status code lies outside 200-299, (a)
HTTPDownloader.Download returns an error that is not terminal, having created
no directory and no file and sent no event; (b) downloadCatalog fails, and
WebRegistry.Unpack of a web catalog with a valid URL, downloading through it,
returns no result and an error that is not terminal, and leaves the file system
with the cache as it was. The error with which the gzip library may refuse the
body is taken not to be a terminal error. -/
theorem fetch_fails_on_status_outside_2xx (client : HTTPDownloader) (url : String)
    (response : Response) (hreq : client.NewRequest url = none)
    (hdo : client.Do url = .ok response)
    (hstatus : response.StatusCode < 200 ∨ 299 < response.StatusCode)
    (hgzip : ∀ e, client.gzipNewReader ((response.Body.map (fun step => step.data)).flatten)
      = .error e → e.isTerminal = false) :
    (∀ (faults : Faults) (room : Option Nat) (ctx : Context) (dest : Path) (opts : Options)
        (fs : FileSystem),
        (∃ err, (client.Download faults room ctx url dest opts fs).err = some err
            ∧ err.isTerminal = false)
          ∧ (client.Download faults room ctx url dest opts fs).fs = fs
          ∧ (client.Download faults room ctx url dest opts fs).sent = [])
      ∧ (∀ (w : WebRegistry) (faults : Faults) (fetch : WebFetch) (temp : TempDir)
          (catalog : ClusterCatalog) (web : WebSource) (fs : FileSystem),
          catalog.spec.source.type = SourceTypeWeb → catalog.spec.source.web = some web →
          fetch.joinPath = .ok url → fetch.parse = none →
          fetch.download = downloadCatalog client temp url →
          (∃ err, (w.Unpack faults fetch catalog fs).result = .ok (none, some err)
              ∧ err.isTerminal = false)
            ∧ (w.Unpack faults fetch catalog fs).fs = fs) := by
  have hne : response.StatusCode ≠ 200 := by omega
  constructor
  · intro faults room ctx dest opts fs
    unfold HTTPDownloader.Download
    simp only [hreq, hdo, hne, ne_eq, not_false_eq_true, if_true]
    exact ⟨⟨_, rfl, rfl⟩, trivial, trivial⟩
  · intro w faults fetch temp catalog web fs htype hweb hjoin hparse hdl
    obtain ⟨err, herr, hterm⟩ := downloadCatalog_not_ok client temp url response hreq hdo hne hgzip
    rw [herr] at hdl
    unfold WebRegistry.Unpack
    simp only [htype, ne_eq, not_true_eq_false, if_false, hweb, hjoin, hparse, hdl]
    exact ⟨⟨_, rfl, by simpa [Err.isTerminal] using hterm⟩, trivial⟩

/-- Witness of C23: the server answers 404 while `sha256:k1` is cached. -/
theorem fetch_fails_on_status_outside_2xx_witness :
    (server404.Download noFaults none background "https://example.com/catalog/catalog.yaml"
        ["tmp", "dl"] { ProgressChan := none } cachedK1).fs = cachedK1
      ∧ (exampleRegistry.Unpack noFaults
          { fetchK2 with
            download := downloadCatalog server404 plainTemp
              "https://example.com/catalog/catalog.yaml" }
          (webCatalog none emptyStatus) cachedK1).fs = cachedK1 :=
  have h := fetch_fails_on_status_outside_2xx server404
    "https://example.com/catalog/catalog.yaml"
    { StatusCode := 404, ContentLength := 9, gzip := false,
      Body := [{ data := [110, 111, 116, 32, 102, 111, 117, 110, 100], status := .eof }] }
    rfl rfl (Or.inr (by decide)) (fun e h => by cases h; rfl)
  ⟨(h.1 noFaults none background ["tmp", "dl"] { ProgressChan := none } cachedK1).2.1,
    (h.2 exampleRegistry noFaults _ plainTemp (webCatalog none emptyStatus)
      { url := "https://example.com/catalog", pollIntervalMinutes := none } cachedK1
      rfl rfl rfl rfl rfl).2⟩

/-! ## The entry of a web catalog and its lookup -/

theorem WebRegistry.Unpack_success_source (w : WebRegistry) (faults : Faults)
    (fetch : WebFetch) (catalog : ClusterCatalog) (fs : FileSystem) (r : Result)
    (h : (w.Unpack faults fetch catalog fs).result = .ok (some r, none)) :
    ∃ url digest, fetch.joinPath = .ok url ∧ fetch.sha256 = .ok digest
      ∧ r.resolvedSource
        = some { type := SourceTypeWeb, image := none,
                 web := some { url := url, digest := digest } } := by
  by_cases ht : catalog.spec.source.type ≠ SourceTypeWeb
  · simp [WebRegistry.Unpack, ht] at h
  cases hweb : catalog.spec.source.web with
  | none => simp [WebRegistry.Unpack, ht, hweb] at h
  | some web =>
  cases hj : fetch.joinPath with
  | error e => simp [WebRegistry.Unpack, ht, hweb, hj] at h
  | ok url =>
  cases hp : fetch.parse with
  | some e => simp [WebRegistry.Unpack, ht, hweb, hj, hp] at h
  | none =>
  cases hd : fetch.download with
  | error e => simp [WebRegistry.Unpack, ht, hweb, hj, hp, hd] at h
  | ok content =>
  cases hv : fetch.validate with
  | some e => simp [WebRegistry.Unpack, ht, hweb, hj, hp, hd, hv] at h
  | none =>
  cases hs : fetch.sha256 with
  | error e => simp [WebRegistry.Unpack, ht, hweb, hj, hp, hd, hv, hs] at h
  | ok digest =>
  refine ⟨url, digest, rfl, rfl, ?_⟩
  cases hl : Lstat fs (w.unpackPath catalog.name digest) with
  | some i =>
    simp only [WebRegistry.Unpack, ht, hweb, hj, hp, hd, hv, hs, hl, if_false,
      Ret.ok.injEq, Prod.mk.injEq, Option.some.injEq, and_true] at h
    rw [← h]
    rfl
  | none =>
    cases hsave : saveWebCatalog faults fetch.modTime content
        (w.unpackPath catalog.name digest) fs with
    | mk res fs1 =>
    cases res with
    | error e => simp [WebRegistry.Unpack, ht, hweb, hj, hp, hd, hv, hs, hl, hsave] at h
    | ok t =>
    cases hgc : w.deleteOtherCatalogs faults fs1 catalog.name digest with
    | mk gerr fs2 =>
    cases gerr with
    | some e => simp [WebRegistry.Unpack, ht, hweb, hj, hp, hd, hv, hs, hl, hsave, hgc] at h
    | none =>
      simp only [WebRegistry.Unpack, ht, hweb, hj, hp, hd, hv, hs, hl, hsave, hgc, if_false,
        Ret.ok.injEq, Prod.mk.injEq, Option.some.injEq, and_true] at h
      rw [← h]
      rfl

theorem GetContentFS_of_web (w : WebRegistry) (fs : FileSystem) (catalog : ClusterCatalog)
    (url digest : String) (inode : Inode)
    (hsrc : catalog.status.resolvedSource
      = some { type := SourceTypeWeb, image := none,
               web := some { url := url, digest := digest } })
    (hstat : Lstat fs (w.unpackPath catalog.name digest) = some inode) :
    w.GetContentFS fs (some catalog)
      = if inode.typ ≠ .dir then
          .ok (none, some (.plain ("/".intercalate (w.unpackPath catalog.name digest)
            ++ " is not a directory") false))
        else .ok (some (w.unpackPath catalog.name digest), none) := by
  have hne : SourceTypeWeb ≠ SourceTypeImage := by decide
  rw [unpackPath_join] at hstat ⊢
  simp only [WebRegistry.GetContentFS, hsrc, hne, if_false, if_true, hstat]

/-- Where the entry is a directory, Unpack and GetContentFS agree: after a
successful WebRegistry.Unpack of a catalog with result r, whose digest is a
plain path element, the resolved source of r is a web source with the digest of
the content, and something exists at the path `unpackPath` builds from the
root, the name of the catalog and the digest, which is also the path
GetContentFS builds. It is a directory whenever nothing was there before the
call, and when it is a directory, GetContentFS for the catalog with the
resolved source of r in its status opens exactly that directory. -/
theorem Unpack_entry_is_opened_by_GetContentFS (w : WebRegistry) (faults : Faults)
    (fetch : WebFetch) (catalog : ClusterCatalog) (fs : FileSystem) (r : Result)
    (hdigest : ∀ d, fetch.sha256 = .ok d → plainName d)
    (hok : (w.Unpack faults fetch catalog fs).result = .ok (some r, none)) :
    ∃ url digest inode,
      r.resolvedSource
          = some { type := SourceTypeWeb, image := none,
                   web := some { url := url, digest := digest } }
        ∧ fetch.sha256 = .ok digest
        ∧ Lstat (w.Unpack faults fetch catalog fs).fs (w.unpackPath catalog.name digest)
            = some inode
        ∧ (Lstat fs (w.unpackPath catalog.name digest) = none → inode.typ = .dir)
        ∧ (inode.typ = .dir →
            w.GetContentFS (w.Unpack faults fetch catalog fs).fs
              (some { catalog with
                status := { catalog.status with resolvedSource := r.resolvedSource } })
              = .ok (some (w.unpackPath catalog.name digest), none)) := by
  obtain ⟨url, digest, _, hsha, hsrc⟩ :=
    WebRegistry.Unpack_success_source w faults fetch catalog fs r hok
  obtain ⟨content, digest1, _, hsha1, hcase⟩ :=
    WebRegistry.Unpack_success w faults fetch catalog fs r hok
  rw [hsha] at hsha1
  cases hsha1
  have hplain := hdigest digest hsha
  have hentry : ∃ inode,
      Lstat (w.Unpack faults fetch catalog fs).fs (w.unpackPath catalog.name digest)
          = some inode
        ∧ (Lstat fs (w.unpackPath catalog.name digest) = none → inode.typ = .dir) := by
    rcases hcase with ⟨⟨i, hi⟩, hfs⟩ | ⟨hnone, t, fs1, hsave, hgc⟩
    · refine ⟨i, by rw [hfs]; exact hi, fun hn => ?_⟩
      rw [hi] at hn
      cases hn
    · have hne : w.unpackPath catalog.name digest ≠ [] := by
        rw [unpackPath_plain w catalog.name digest hplain]
        simp
      obtain ⟨i, hi, hdir⟩ := saveWebCatalog_ok faults fetch.modTime t content _ fs fs1 hne hsave
      obtain ⟨_, hkeep, _, _⟩ :=
        deleteOtherCatalogs_ok w faults fs1 _ catalog.name digest hplain hgc
      exact ⟨i, by rw [hkeep _ (List.prefix_refl _)]; exact hi, fun _ => hdir⟩
  obtain ⟨inode, hstat, hnew⟩ := hentry
  refine ⟨url, digest, inode, hsrc, hsha, hstat, hnew, fun hdir => ?_⟩
  exact (GetContentFS_of_web w (w.Unpack faults fetch catalog fs).fs
    { catalog with status := { catalog.status with resolvedSource := r.resolvedSource } }
    url digest inode hsrc hstat).trans (if_neg (by simp [hdir]))

/-- An instance of the agreement: `sha256:k1` is cached and the download yields
`sha256:k2`; GetContentFS opens the new entry. -/
theorem Unpack_entry_is_opened_by_GetContentFS_example :
    exampleRegistry.GetContentFS
        (exampleRegistry.Unpack noFaults fetchK2 (webCatalog none emptyStatus) cachedK1).fs
        (some (webCatalog none resolvedK2))
      = .ok (some ["var", "cache", "unpack", "c0ffee00", "sha256:k2"], none) := by
  obtain ⟨url, digest, inode, hsrc, hsha, hstat, hnew, hopen⟩ :=
    Unpack_entry_is_opened_by_GetContentFS exampleRegistry noFaults fetchK2
      (webCatalog none emptyStatus) cachedK1
      (webResult fetchK2
        (exampleRegistry.Unpack noFaults fetchK2 (webCatalog none emptyStatus) cachedK1).fs
        (exampleRegistry.unpackPath "c0ffee00" "sha256:k2")
        "https://example.com/catalog/catalog.yaml" "sha256:k2")
      (fun d hd => by
        have hk2 : Except.ok "sha256:k2" = (Except.ok d : Except Err String) := hd
        injection hk2 with hk2
        subst hk2
        decide)
      (by decide)
  have hk2 : Except.ok "sha256:k2" = (Except.ok digest : Except Err String) := hsha
  injection hk2 with hk2
  subst hk2
  exact hopen (hnew (by decide))

/-- C24 (the code departs from the claim): a regular file lies at
BaseCachePath/name/digest. Unpack finds the path, takes the entry for cached
without looking whether it is a directory, and succeeds with the digest
`sha256:k2`, the file still lying there; GetContentFS for the catalog with
that resolved source finds no directory there and returns an error. -/
theorem Unpack_accepts_file_as_entry :
    (∃ r, (exampleRegistry.Unpack noFaults fetchK2 (webCatalog none emptyStatus)
          fileAtK2).result = .ok (some r, none)
        ∧ r.resolvedSource = resolvedK2.resolvedSource)
      ∧ (Lstat fileAtK2 ["var", "cache", "unpack", "c0ffee00", "sha256:k2"]).map
          (fun inode => inode.typ) = some .regular
      ∧ (Lstat (exampleRegistry.Unpack noFaults fetchK2 (webCatalog none emptyStatus)
          fileAtK2).fs ["var", "cache", "unpack", "c0ffee00", "sha256:k2"]).map
          (fun inode => inode.typ) = some .regular
      ∧ exampleRegistry.GetContentFS
          (exampleRegistry.Unpack noFaults fetchK2 (webCatalog none emptyStatus) fileAtK2).fs
          (some (webCatalog none resolvedK2))
        = .ok (none,
            some (.plain "var/cache/unpack/c0ffee00/sha256:k2 is not a directory" false)) := by
  refine ⟨⟨_, rfl, rfl⟩, by decide, by decide, by decide⟩

/-! ## Names in a tar archive -/

/-- C29 (the code departs from the claim): an archive holds a directory, a file
below it, and a file with the name `../../etc/job`. TarGZ.Unpack into
/var/cache/unpack returns nil; it has joined the name to the destination
without looking at it, and so created the directory /var/etc and the file
/var/etc/job, neither of which lies inside the destination. -/
theorem TarGZ_Unpack_writes_outside_dest :
    (TarGZ.Unpack noFaults climbingArchive exampleDest emptyDest).1 = none
      ∧ filepathJoin exampleDest ["..", "..", "etc", "job"] = ["var", "etc", "job"]
      ∧ ¬ exampleDest <+: ["var", "etc", "job"]
      ∧ Lstat emptyDest ["var", "etc"] = none
      ∧ Lstat (TarGZ.Unpack noFaults climbingArchive exampleDest emptyDest).2 ["var", "etc"]
          = some { typ := .dir, perm := 0o700, data := [] }
      ∧ Lstat (TarGZ.Unpack noFaults climbingArchive exampleDest emptyDest).2
          ["var", "etc", "job"] = some { typ := .regular, perm := 0o755, data := [3] }
      ∧ Lstat (TarGZ.Unpack noFaults climbingArchive exampleDest emptyDest).2
          ["var", "cache", "unpack", "bundle", "manifest.yaml"]
          = some { typ := .regular, perm := 0o644, data := [1, 2] } := by
  decide

end CatalogCache
